import Mathlib

/-!
# Laserspectravue: device protocol and frame acquisition pipeline

A shallow embedding of the acquisition core of `src/mainwindow.cpp`
(`MainWindow::findFrameStart`, `processFrame`, `updatePlot`, `trig_on`,
`trig_off`, `set_exp`, ...) together with the properties proved about it.

Conventions of the embedding:

* a byte of a `QByteArray`, read through `static_cast<uint8_t>`, is a `Fin 256`;
* a `double` (the coordinates of a `QPointF`) is the rational `ℚ` it stands for;
  every arithmetic operation on `double` gives the binary64 value nearest to the
  exact result, ties to even, each operation rounding on its own (`toDouble`);
  results of magnitude `2 ^ 1024` and above, which `double` turns into infinities,
  are outside the model; every value the decoder itself produces is an integer of
  magnitude below `2 ^ 17`;
* an out-of-range element access and a loop that has not left within its
  iteration budget are the value `none`;
* calls posted with `Qt::QueuedConnection` are applied in posting order;
* a device handle is a `Bool`, `true` for a handle that is not null; a driver call
  on a null handle returns a status other than `FT_OK` and reaches no device.
-/

namespace Laserspectravue

/-! ## Data model -/

/-- One byte of a `QByteArray`, as seen through `static_cast<uint8_t>`. -/
abbrev Byte := Fin 256

/-- A `QPointF`: `x` is the pixel index, `y` the intensity. -/
structure Point where
  x : ℚ
  y : ℚ
deriving DecidableEq

/-- The constant `expectedFrameSize` of `updatePlot` (and of `mainwindow.h`). -/
def expectedFrameSize : Nat := 2088

/-! ## Arithmetic on `double` -/

/-- Rounding of a rational to the nearest integer, a tie going to the even one. -/
def roundHalfEven (q : ℚ) : Int :=
  if q - (Int.floor q : ℚ) < 1 / 2 then Int.floor q
  else if 1 / 2 < q - (Int.floor q : ℚ) then Int.floor q + 1
  else if Int.floor q % 2 = 0 then Int.floor q else Int.floor q + 1

/-- The exponent of the spacing of the binary64 values around a rational: 52 below
the exponent of its leading bit, and never below -1074, the exponent of the least
subnormal. -/
def quantumExponent (q : ℚ) : Int := max (Int.log 2 |q| - 52) (-1074)

/-- The binary64 value nearest to a rational, ties to even: the rounding that every
arithmetic operation on a `double` ends with. -/
def toDouble (q : ℚ) : ℚ :=
  (roundHalfEven (q / (2 : ℚ) ^ quantumExponent q) : ℚ) * (2 : ℚ) ^ quantumExponent q

/-- The operation `a + b` on `double`. -/
def doubleAdd (a b : ℚ) : ℚ := toDouble (a + b)

/-- The operation `a - b` on `double`. -/
def doubleSub (a b : ℚ) : ℚ := toDouble (a - b)

/-- The operation `a * b` on `double`. -/
def doubleMul (a b : ℚ) : ℚ := toDouble (a * b)

/-- The operation `a / b` on `double`, for a divisor other than zero. -/
def doubleDiv (a b : ℚ) : ℚ := toDouble (a / b)

/-- The library function `std::sqrt` on `double`, which rounds correctly: `n` is the
integer part of the square root of the argument scaled into 53 bits, and the result
is `n` or `n + 1`, whichever is nearer. An argument below zero, for which
`std::sqrt` gives a NaN, does not occur and is given 0. -/
def doubleSqrt (x : ℚ) : ℚ :=
  if x ≤ 0 then 0
  else
    let e : Int := Int.log 2 x / 2 - 52
    let y : ℚ := x / (4 : ℚ) ^ e
    let n : Nat := Nat.sqrt (Nat.floor y)
    let m : Nat :=
      if y < (n : ℚ) * n + n + 1 / 4 then n
      else if (n : ℚ) * n + n + 1 / 4 < y then n + 1
      else if n % 2 = 0 then n else n + 1
    (m : ℚ) * (2 : ℚ) ^ e

/-! ## `findFrameStart` -/

/-- The test of the `if` inside the loop of `findFrameStart`: the four bytes at
`i .. i + 3` are `00 00 00 01`. -/
def syncAt (data : List Byte) (i : Nat) : Prop :=
  data[i]? = some 0 ∧ data[i + 1]? = some 0 ∧ data[i + 2]? = some 0 ∧ data[i + 3]? = some 1

instance (data : List Byte) (i : Nat) : Decidable (syncAt data i) := by
  unfold syncAt; infer_instance

/-- The loop `for (int i = 0; i <= data.size() - 4; ++i)` of `findFrameStart`;
`n` is the number of iterations still to run and `i` the loop variable. -/
def findFrameStartLoop (data : List Byte) : Nat → Nat → Int
  | 0, _ => -1
  | n + 1, i => if syncAt data i then (i : Int) else findFrameStartLoop data n (i + 1)

/-- The function `MainWindow::findFrameStart`: the loop runs for `i = 0 .. size - 4`, which is
`size - 3` iterations. -/
def findFrameStart (data : List Byte) : Int :=
  if data.length < 4 then -1 else findFrameStartLoop data (data.length - 3) 0

/-! ## Frame payload and window state -/

/-- The big-endian 16-bit value of byte pair `j` of the payload of a frame: the
bytes at offsets `4 + 2 * j` and `5 + 2 * j`. -/
def bigEndianAt (frame : List Byte) (j : Nat) : Nat :=
  256 * (frame.getD (4 + 2 * j) 0).val + (frame.getD (5 + 2 * j) 0).val

/-- Every frame of a window has at least as many samples as the first one, which
is what the indexing `frame[i]` of `updateAveragePlot` relies on. -/
def framesCover (frames : List (List Point)) : Prop :=
  ∀ first ∈ frames.head?, ∀ frame ∈ frames, first.length ≤ frame.length

/-- The part of the members of `MainWindow` that the acquisition pipeline reads
or writes. `series` holds the points of the main `QLineSeries`, `saturating`
the last value handed to `updateSaturationIndicator`, `storedSeries` the points
and the hue of each chart series of a stored trace. -/
structure MainWindow where
  dataBuffer : List Byte
  lastTenFrames : List (List Point)
  allFramesData : List (List Point)
  isRecording : Bool
  showingAverage : Bool
  showSubtracted : Bool
  backgroundData : List Point
  currentMinRange : Int
  currentMaxRange : Int
  series : List Point
  saturating : Bool
  storedTraces : List (List Point)
  storedSeries : List (List Point × Nat)
  handlesValid : Bool

/-- The window as its constructor and the member initialisers of `mainwindow.h`
leave it, with the given validity of the two device handles. -/
def initialWindow (handlesValid : Bool) : MainWindow where
  dataBuffer := []
  lastTenFrames := []
  allFramesData := []
  isRecording := false
  showingAverage := false
  showSubtracted := false
  backgroundData := []
  currentMinRange := 0
  currentMaxRange := 1023
  series := []
  saturating := false
  storedTraces := []
  storedSeries := []
  handlesValid := handlesValid

/-- The function `MainWindow::filterPointsByRange`. -/
def filterPointsByRange (w : MainWindow) (points : List Point) : List Point :=
  points.filter (fun point =>
    decide ((w.currentMinRange : ℚ) ≤ point.x) && decide (point.x ≤ (w.currentMaxRange : ℚ)))

/-- The function `MainWindow::updatePlotWithPoints`: the range-filtered points replace the main
series (`updateMainSeries`); the peak arrow, the axis ranges and the labels are
renderings of those same points and hold no state of their own. -/
def updatePlotWithPoints (w : MainWindow) (points : List Point) : MainWindow :=
  { w with series := filterPointsByRange w points }

/-- The function `MainWindow::updateSaturationIndicator`. -/
def updateSaturationIndicator (w : MainWindow) (isSaturating : Bool) : MainWindow :=
  { w with saturating := isSaturating }

/-! ## `processFrame` -/

/-- The value `(uint8(frameData[i]) << 8) | uint8(frameData[i + 1])` narrowed to
`uint16_t`. -/
def decodeValue (hi lo : Byte) : Nat :=
  ((hi.val <<< 8) ||| lo.val) % 65536

/-- The guarded background subtraction of `processFrame` at loop index `i`:
`if (showSubtracted && !backgroundData.isEmpty() && (i / 2) - 2 < backgroundData.size())`
then `adjustedValue - backgroundData.at((i / 2) - 2).y()`. The loop index is at
least 4, so `(i / 2) - 2` is not negative. -/
def subtractBackground (showSubtracted : Bool) (backgroundData : List Point) (i : Nat)
    (adjustedValue : ℚ) : ℚ :=
  if h : showSubtracted = true ∧ backgroundData ≠ [] ∧ i / 2 - 2 < backgroundData.length then
    doubleSub adjustedValue (backgroundData.get ⟨i / 2 - 2, h.2.2⟩).y
  else adjustedValue

/-- The loop `for (int i = 4; i < frameData.size(); i += 2)` of `processFrame`,
carrying `newPoints` and `isSaturating`. The first argument bounds the number of
iterations; reading `frameData[i + 1]` past the end is `none`. -/
def processFrameLoop (showSubtracted : Bool) (backgroundData : List Point)
    (frameData : List Byte) : Nat → Nat → List Point → Bool → Option (List Point × Bool)
  | 0, _, _, _ => none
  | fuel + 1, i, newPoints, isSaturating =>
    if i < frameData.length then
      match frameData[i]?, frameData[i + 1]? with
      | some hi, some lo =>
        let value : ℚ := (decodeValue hi lo : ℚ)
        let isSaturating1 := if value ≥ 65535 then true else isSaturating
        let adjustedValue := subtractBackground showSubtracted backgroundData i value
        processFrameLoop showSubtracted backgroundData frameData fuel (i + 2)
          (newPoints ++ [⟨((i : ℚ) - 4) / 2, adjustedValue⟩]) isSaturating1
      | _, _ => none
    else some (newPoints, isSaturating)

/-- The function `MainWindow::processFrame`: decodes the frame, appends it to the recording when
`isRecording`, and hands the saturation flag to the indicator. The loop runs at
most `frameData.size()` times. -/
def processFrame (w : MainWindow) (frameData : List Byte) : Option (List Point × MainWindow) :=
  match processFrameLoop w.showSubtracted w.backgroundData frameData
      (frameData.length + 1) 4 [] false with
  | none => none
  | some (newPoints, isSaturating) =>
    let w1 := if w.isRecording then
      { w with allFramesData := w.allFramesData ++ [newPoints] } else w
    some (newPoints, updateSaturationIndicator w1 isSaturating)

/-! ## `updateAveragePlot` -/

/-- The inner loop of `updateAveragePlot`: `sum += frame[i].y()` over the frames of
the window, from the running value `sum`. -/
def sumAt (i : Nat) : List (List Point) → ℚ → Option ℚ
  | [], sum => some sum
  | frame :: rest, sum =>
    match frame[i]? with
    | some p => sumAt i rest (doubleAdd sum p.y)
    | none => none

/-- The outer loop `for (int i = 0; i < numPoints; ++i)` of `updateAveragePlot`;
the first argument is the number of iterations still to run. -/
def averagePointsLoop (frames : List (List Point)) (first : List Point) :
    Nat → Nat → List Point → Option (List Point)
  | 0, _, averagePoints => some averagePoints
  | n + 1, i, averagePoints =>
    match sumAt i frames 0, first[i]? with
    | some sum, some p =>
      averagePointsLoop frames first n (i + 1)
        (averagePoints ++ [⟨p.x, doubleDiv sum (frames.length : ℚ)⟩])
    | _, _ => none

/-- The function `MainWindow::updateAveragePlot`. -/
def updateAveragePlot (w : MainWindow) : Option MainWindow :=
  match w.lastTenFrames with
  | [] => some w
  | first :: rest =>
    match averagePointsLoop (first :: rest) first first.length 0 [] with
    | some averagePoints => some (updatePlotWithPoints w averagePoints)
    | none => none

/-! ## `updatePlot` -/

/-- Lines 797-806 of `updatePlot`: the oldest frame leaves `lastTenFrames` when it
already holds 10, the new frame is appended, and it is drawn at once unless the
average view is on. -/
def pushFrame (w : MainWindow) (newPoints : List Point) : MainWindow :=
  let w1 := if 10 ≤ w.lastTenFrames.length then
    { w with lastTenFrames := w.lastTenFrames.tail } else w
  let w2 := { w1 with lastTenFrames := w1.lastTenFrames ++ [newPoints] }
  if w2.showingAverage then w2 else updatePlotWithPoints w2 newPoints

/-- The `while` loop of `updatePlot` (lines 776-809). The first argument bounds
the number of iterations, the third is `maxFramesToProcess`; the last argument
collects the successive values of `newPoints`, the frames decoded so far in this
tick, in decoding order. -/
def updatePlotLoop : Nat → MainWindow → Nat → List (List Point) →
    Option (MainWindow × List (List Point))
  | 0, _, _, _ => none
  | fuel + 1, w, maxFramesToProcess, frames =>
    if expectedFrameSize ≤ w.dataBuffer.length ∧ 0 < maxFramesToProcess then
      let frameStart := findFrameStart w.dataBuffer
      if frameStart = -1 then
        some ({ w with dataBuffer := w.dataBuffer.drop 4 }, frames)
      else if 0 < frameStart then
        updatePlotLoop fuel { w with dataBuffer := w.dataBuffer.drop frameStart.toNat }
          maxFramesToProcess frames
      else if w.dataBuffer.length < expectedFrameSize then
        some (w, frames)
      else
        let frameData := w.dataBuffer.take expectedFrameSize
        let w1 := { w with dataBuffer := w.dataBuffer.drop expectedFrameSize }
        match processFrame w1 frameData with
        | none => none
        | some (newPoints, w2) =>
          updatePlotLoop fuel (pushFrame w2 newPoints) (maxFramesToProcess - 1)
            (frames ++ [newPoints])
    else some (w, frames)

/-- The decoding loop of one tick: `int maxFramesToProcess = 10;` followed by the
`while` loop. Every iteration that stays in the loop removes a byte from the
accumulator or lowers `maxFramesToProcess`, so `size + 11` iterations are enough. -/
def decodeFrames (w : MainWindow) : Option (MainWindow × List (List Point)) :=
  updatePlotLoop (w.dataBuffer.length + 11) w 10 []

/-- The overflow guard of `updatePlot` (lines 812-814):
`dataBuffer = dataBuffer.right(expectedFrameSize * 50)` once the accumulator
exceeds `expectedFrameSize * 100`. -/
def truncateBuffer (w : MainWindow) : MainWindow :=
  if expectedFrameSize * 100 < w.dataBuffer.length then
    { w with dataBuffer := w.dataBuffer.drop (w.dataBuffer.length - expectedFrameSize * 50) }
  else w

/-- Lines 774-814 of `updatePlot`: the decoding loop followed by the overflow
guard. -/
def updatePlotDecode (w : MainWindow) : Option (MainWindow × List (List Point)) :=
  match decodeFrames w with
  | none => none
  | some (w1, frames) => some (truncateBuffer w1, frames)

/-- What the data channel delivers to one tick (lines 758-772 of `updatePlot`). -/
inductive DataRead where
  /-- No byte is available according to `FT_GetQueueStatus`: no read is made. -/
  | noBytes
  /-- The call of `FT_Read` returns a status other than `FT_OK`. -/
  | failed
  /-- The call of `FT_Read` succeeds and delivers these bytes (`bytesRead` of them). -/
  | ok (bytes : List Byte)

/-- The body of `updatePlot` behind its handle check (lines 755-819), for one
tick: the read, the decoding loop, the overflow guard and the average view. A
failed read ends the tick with the state untouched. -/
def updatePlotTick (w : MainWindow) (rd : DataRead) : Option MainWindow :=
  match rd with
  | DataRead.failed => some w
  | DataRead.noBytes =>
    match updatePlotDecode w with
    | none => none
    | some (w1, _) => if w1.showingAverage then updateAveragePlot w1 else some w1
  | DataRead.ok bytes =>
    match updatePlotDecode { w with dataBuffer := w.dataBuffer ++ bytes } with
    | none => none
    | some (w1, _) => if w1.showingAverage then updateAveragePlot w1 else some w1

/-- The function `MainWindow::onSetBackgroundClicked`: behind the handle check, the points of
the main series become the background, cut to 1044 entries. -/
def onSetBackgroundClicked (w : MainWindow) : MainWindow :=
  if w.handlesValid then { w with backgroundData := w.series.take 1044 } else w

/-! ## Control link: `trig_on`, `trig_off`, `set_exp` -/

/-- A driver call made on the control handle `fthandle_uart`. -/
inductive Call where
  /-- A call of `FT_Purge(handle, FT_PURGE_RX | FT_PURGE_TX)`. -/
  | purge
  /-- A call of `FT_Write` with these bytes. -/
  | write (payload : List Byte)
  /-- A call of `FT_Read` for up to this many bytes. -/
  | read (count : Nat)
deriving DecidableEq

/-- The vendor driver behind the control handle, as a machine with states `σ`.
`write` gives whether the status is `FT_OK` and the value of `bytesWritten`;
`read` gives whether the status is `FT_OK` and the bytes stored in the caller's
array (`bytesRead` is their number); `purge` gives whether the status is `FT_OK`. -/
structure Transport (σ : Type) where
  write : σ → List Byte → (Bool × Nat) × σ
  read : σ → Nat → (Bool × List Byte) × σ
  purge : σ → Bool × σ

/-- The `std::runtime_error`s thrown by the three commands: a failed or short
write, a failed or short read, and the exhaustion of the attempts without an
accepted acknowledgment. -/
inductive CommandError where
  | commandWriteFailed
  | commandReadFailed
  | acknowledgmentTimeout
deriving DecidableEq

/-- A finished command: how it ended, the state the driver is left in, and the
driver calls it made, in order. -/
structure CommandRun (σ : Type) where
  outcome : Except CommandError Unit
  device : σ
  calls : List Call

/-- The number of `FT_Write` calls in a call sequence. -/
def countWrites : List Call → Nat
  | [] => 0
  | Call.write _ :: rest => countWrites rest + 1
  | _ :: rest => countWrites rest

/-- The number of `FT_Read` calls in a call sequence. -/
def countReads : List Call → Nat
  | [] => 0
  | Call.read _ :: rest => countReads rest + 1
  | _ :: rest => countReads rest

/-- The constant `maxRetries` of the three commands. -/
def maxRetries : Nat := 5

/-- The content of `ex[0]` after a read into `ex`: the first byte delivered, or
the old content when no byte was delivered. -/
def storeRead (ex0 : Byte) (received : List Byte) : Byte :=
  match received with
  | b :: _ => b
  | [] => ex0

/-- The `do ... while (ex[0] != 't' && retries < maxRetries)` loop of `trig_on`
and the check behind it. `ex0` is `ex[0]`; the other three bytes of `ex` stay 0.
The first argument bounds the number of iterations. -/
def trig_onLoop {σ : Type} (T : Transport σ) :
    Nat → σ → Byte → Nat → List Call → Option (CommandRun σ)
  | 0, _, _, _, _ => none
  | fuel + 1, s, ex0, retries, calls =>
    let wr := T.write s [ex0, 0, 0, 0]
    let calls1 := calls ++ [Call.write [ex0, 0, 0, 0]]
    if wr.1.1 = false ∨ wr.1.2 ≠ 4 then
      some ⟨Except.error CommandError.commandWriteFailed, wr.2, calls1⟩
    else
      let rd := T.read wr.2 1
      let calls2 := calls1 ++ [Call.read 1]
      if rd.1.1 = false ∨ rd.1.2.length ≠ 1 then
        some ⟨Except.error CommandError.commandReadFailed, rd.2, calls2⟩
      else
        let ex1 := storeRead ex0 rd.1.2
        if ex1 ≠ 0x74 ∧ retries + 1 < maxRetries then
          trig_onLoop T fuel rd.2 ex1 (retries + 1) calls2
        else if ex1 ≠ 0x74 then
          some ⟨Except.error CommandError.acknowledgmentTimeout, rd.2, calls2⟩
        else some ⟨Except.ok (), rd.2, calls2⟩

/-- The function `MainWindow::trig_on`: `ex = {2, 0, 0, 0}`, `retries = 0`. Every iteration
that stays in the loop raises `retries`, so `maxRetries` iterations are enough. -/
def trig_on {σ : Type} (T : Transport σ) (s : σ) : Option (CommandRun σ) :=
  trig_onLoop T maxRetries s 2 0 []

/-- The `do ... while (retries < maxRetries)` loop of `trig_off` and the throw
behind it. A `continue` goes to the loop test with `retries` as it is. The first
argument bounds the number of iterations. -/
def trig_offLoop {σ : Type} (T : Transport σ) :
    Nat → σ → Byte → Nat → List Call → Option (CommandRun σ)
  | 0, _, _, _, _ => none
  | fuel + 1, s, ex0, retries, calls =>
    let pg := T.purge s
    let wr := T.write pg.2 [ex0, 0, 0, 0]
    let calls1 := calls ++ [Call.purge, Call.write [ex0, 0, 0, 0]]
    if wr.1.1 = false ∨ wr.1.2 ≠ 4 then
      if retries = maxRetries - 1 then
        some ⟨Except.error CommandError.commandWriteFailed, wr.2, calls1⟩
      else if retries < maxRetries then trig_offLoop T fuel wr.2 ex0 retries calls1
      else some ⟨Except.error CommandError.acknowledgmentTimeout, wr.2, calls1⟩
    else
      let rd := T.read wr.2 1
      let calls2 := calls1 ++ [Call.read 1]
      let ex1 := storeRead ex0 rd.1.2
      if rd.1.1 = false ∨ rd.1.2.length ≠ 1 then
        if retries = maxRetries - 1 then
          some ⟨Except.error CommandError.commandReadFailed, rd.2, calls2⟩
        else if retries < maxRetries then trig_offLoop T fuel rd.2 ex1 retries calls2
        else some ⟨Except.error CommandError.acknowledgmentTimeout, rd.2, calls2⟩
      else if ex1 = 0x74 ∨ ex1 = 0x54 ∨ ex1 = 0x74 then
        some ⟨Except.ok (), rd.2, calls2⟩
      else if retries + 1 < maxRetries then trig_offLoop T fuel rd.2 ex1 (retries + 1) calls2
      else some ⟨Except.error CommandError.acknowledgmentTimeout, rd.2, calls2⟩

/-- The function `MainWindow::trig_off`: `ex = {3, 0, 0, 0}`, `retries = 0`. The loop has no
bound of its own on the number of iterations, so the bound is an argument. -/
def trig_off {σ : Type} (T : Transport σ) (fuel : Nat) (s : σ) : Option (CommandRun σ) :=
  trig_offLoop T fuel s 3 0 []

/-- The four bytes of a `uint32_t` as `FT_Write(handle, &exp, sizeof(exp), ...)`
sends them from a little-endian host. -/
def exposureBytes (exp : Nat) : List Byte :=
  [Fin.ofNat (exp % 4294967296), Fin.ofNat (exp % 4294967296 / 256),
   Fin.ofNat (exp % 4294967296 / 65536), Fin.ofNat (exp % 4294967296 / 16777216)]

/-- The `do ... while (ex[0] != 'A' && retries < maxRetries)` loop of `set_exp`
and the check behind it. The first argument bounds the number of iterations. -/
def set_expLoop {σ : Type} (T : Transport σ) (exp : Nat) :
    Nat → σ → Byte → Nat → List Call → Option (CommandRun σ)
  | 0, _, _, _, _ => none
  | fuel + 1, s, ex0, retries, calls =>
    let wr := T.write s (exposureBytes exp)
    let calls1 := calls ++ [Call.write (exposureBytes exp)]
    if wr.1.1 = false then
      some ⟨Except.error CommandError.commandWriteFailed, wr.2, calls1⟩
    else if wr.1.2 ≠ 4 then
      some ⟨Except.error CommandError.commandWriteFailed, wr.2, calls1⟩
    else
      let rd := T.read wr.2 1
      let calls2 := calls1 ++ [Call.read 1]
      if rd.1.1 = false then
        some ⟨Except.error CommandError.commandReadFailed, rd.2, calls2⟩
      else if rd.1.2.length ≠ 1 then
        some ⟨Except.error CommandError.commandReadFailed, rd.2, calls2⟩
      else
        let ex1 := storeRead ex0 rd.1.2
        if ex1 ≠ 0x41 ∧ retries + 1 < maxRetries then
          set_expLoop T exp fuel rd.2 ex1 (retries + 1) calls2
        else if ex1 ≠ 0x41 then
          some ⟨Except.error CommandError.acknowledgmentTimeout, rd.2, calls2⟩
        else some ⟨Except.ok (), rd.2, calls2⟩

/-- The function `MainWindow::set_exp`: `retries = 0`; `ex[0]` is only looked at after a read
has filled it, so its first content does not matter. -/
def set_exp {σ : Type} (T : Transport σ) (exp : Nat) (s : σ) : Option (CommandRun σ) :=
  set_expLoop T exp maxRetries s 0 0 []

/-! ## Stored traces -/

/-- The constant `MAX_STORED_TRACES` of `mainwindow.h`. -/
def MAX_STORED_TRACES : Nat := 5

/-- The function `MainWindow::onStoreTraceClicked`: nothing is stored from an empty
series; otherwise the oldest trace leaves when the store already holds
`MAX_STORED_TRACES`, the range-filtered points of the series are appended, and
the new chart series gets the hue `(storedTraces.size() * 60) % 360`. -/
def onStoreTraceClicked (w : MainWindow) : MainWindow :=
  if w.series.isEmpty then w
  else
    let w1 := if MAX_STORED_TRACES ≤ w.storedTraces.length then
      { w with storedTraces := w.storedTraces.tail, storedSeries := w.storedSeries.tail }
      else w
    let rangeFilteredPoints := filterPointsByRange w1 w1.series
    let w2 := { w1 with storedTraces := w1.storedTraces ++ [rangeFilteredPoints] }
    let hue := (w2.storedTraces.length * 60) % 360
    { w2 with storedSeries := w2.storedSeries ++ [(rangeFilteredPoints, hue)] }

/-- A run of store requests: before each one the main series holds the next of
the given point sequences. -/
def storeTraces (w : MainWindow) (current : List (List Point)) : MainWindow :=
  current.foldl (fun w1 points => onStoreTraceClicked { w1 with series := points }) w

/-- A run of pushes into the rolling window, as the decoding loop makes them. -/
def pushFrames (w : MainWindow) (frames : List (List Point)) : MainWindow :=
  frames.foldl pushFrame w

/-! ## Statistics and peak -/

/-- The struct `Statistics` of `mainwindow.h`, with its member initialisers. -/
structure Statistics where
  variance : ℚ := 0
  stdDev : ℚ := 0
  mean : ℚ := 0
  median : ℚ := 0

/-- The function `MainWindow::calculateStatistics`. The function `std::sort` is a sort into
ascending order; the indices `size / 2 - 1` and `size / 2` lie inside `values`,
which is not empty at that point. -/
def calculateStatistics (w : MainWindow) (points : List Point) : Statistics :=
  let rangePoints := points.filter (fun point =>
    decide ((w.currentMinRange : ℚ) ≤ point.x) && decide (point.x ≤ (w.currentMaxRange : ℚ)))
  if rangePoints.isEmpty then {}
  else
    let values := rangePoints.map (fun point => point.y)
    let sum := values.foldl (fun sum y => doubleAdd sum y) 0
    let mean := doubleDiv sum (rangePoints.length : ℚ)
    let squaredSum := values.foldl
      (fun squaredSum value =>
        doubleAdd squaredSum (doubleMul (doubleSub value mean) (doubleSub value mean))) 0
    let variance := doubleDiv squaredSum (rangePoints.length : ℚ)
    let stdDev := doubleSqrt variance
    let sorted := values.insertionSort (fun a b => a ≤ b)
    let median :=
      if sorted.length % 2 = 0 then
        doubleDiv
          (doubleAdd (sorted.getD (sorted.length / 2 - 1) 0) (sorted.getD (sorted.length / 2) 0)) 2
      else sorted.getD (sorted.length / 2) 0
    { variance := variance, stdDev := stdDev, mean := mean, median := median }

/-- The conversion `static_cast<int>` of a `double`: the fraction is cut off
towards zero. -/
def truncateToInt (x : ℚ) : Int :=
  if 0 ≤ x then Int.floor x else Int.ceil x

/-- The loop `for (const auto& point : filteredPoints)` of `updateLabels` and of
`updatePeakIndicator`, as far as `peakValue` and `peakPixel` go. -/
def peakLoop : List Point → ℚ → Int → ℚ × Int
  | [], peakValue, peakPixel => (peakValue, peakPixel)
  | point :: rest, peakValue, peakPixel =>
    if point.y > peakValue then peakLoop rest point.y (truncateToInt point.x)
    else peakLoop rest peakValue peakPixel

/-- The peak that `updateLabels` and `updatePeakIndicator` report:
`double peakValue = 0; int peakPixel = 0;` followed by the loop. -/
def detectPeak (filteredPoints : List Point) : ℚ × Int :=
  peakLoop filteredPoints 0 0

/-! ## Replaying a call sequence -/

/-- What a driver call gave back. -/
inductive Reply where
  /-- The call `FT_Purge` returned. -/
  | purged
  /-- The call `FT_Write` returned this status (`true` for `FT_OK`) and this
  value of `bytesWritten`. -/
  | wrote (ok : Bool) (bytesWritten : Nat)
  /-- The call `FT_Read` returned this status and these bytes. -/
  | received (ok : Bool) (bytes : List Byte)
deriving DecidableEq

/-- The state a device reaches, and the replies it gives, when the calls of a
sequence are made on it in order from the state `s`. -/
def replay {σ : Type} (T : Transport σ) : σ → List Call → σ × List Reply
  | s, [] => (s, [])
  | s, Call.purge :: rest =>
    let r := replay T (T.purge s).2 rest
    (r.1, Reply.purged :: r.2)
  | s, Call.write payload :: rest =>
    let r := replay T (T.write s payload).2 rest
    (r.1, Reply.wrote (T.write s payload).1.1 (T.write s payload).1.2 :: r.2)
  | s, Call.read count :: rest =>
    let r := replay T (T.read s count).2 rest
    (r.1, Reply.received (T.read s count).1.1 (T.read s count).1.2 :: r.2)

/-- The acknowledgment bytes among the replies: the bytes that the reads
delivered, in order. -/
def acknowledgments : List Reply → List Byte
  | [] => []
  | Reply.received _ bytes :: rest => bytes ++ acknowledgments rest
  | _ :: rest => acknowledgments rest

/-- A write that did not go through: the status is not `FT_OK` or fewer or more
than 4 bytes were written. -/
def Reply.isFailedWrite : Reply → Bool
  | Reply.wrote ok n => !ok || n != 4
  | _ => false

/-- A read that did not go through: the status is not `FT_OK` or the number of
bytes read is not 1. -/
def Reply.isFailedRead : Reply → Bool
  | Reply.received ok bytes => !ok || bytes.length != 1
  | _ => false

/-! ## Session: handles, devices and controls -/

/-- A driver call made on the data handle `ftHandle`. -/
inductive DataCall where
  /-- A call of `FT_Purge(ftHandle, FT_PURGE_RX | FT_PURGE_TX)`. -/
  | purge
  /-- A call of `FT_ResetDevice(ftHandle)`. -/
  | resetDevice
  /-- A call of `FT_GetQueueStatus(ftHandle, &bytesAvailable)`. -/
  | getQueueStatus
  /-- A call of `FT_Read(ftHandle, ...)`. -/
  | read
deriving DecidableEq

/-- The vendor driver behind the data handle, as a machine with states `δ`.
`purge` and `resetDevice` give whether the status is `FT_OK`; `poll` gives what
`FT_GetQueueStatus` followed, when bytes are available, by `FT_Read` delivers. -/
structure DataPort (δ : Type) where
  purge : δ → Bool × δ
  resetDevice : δ → Bool × δ
  poll : δ → DataRead × δ

/-- The two devices: the control device behind `fthandle_uart`, with the two calls
that only `setupDevice` makes on it, and the data device behind `ftHandle`. -/
structure Hardware (σ δ : Type) where
  control : Transport σ
  setBaudRate : σ → Bool × σ
  resetControl : σ → Bool × σ
  data : DataPort δ

/-- The driver as seen through a handle: a call on a null handle returns a status
other than `FT_OK` and reaches no device. -/
def onHandle {σ : Type} (valid : Bool) (T : Transport σ) : Transport σ where
  write := fun s payload => if valid then T.write s payload else ((false, 0), s)
  read := fun s count => if valid then T.read s count else ((false, []), s)
  purge := fun s => if valid then T.purge s else (false, s)

/-- The message boxes and status messages that report a failure to the operator. -/
inductive Report where
  /-- The text "Devices are not properly initialized". -/
  | notInitialized
  /-- The warning "Failed to purge device buffers". -/
  | purgeWarning
  /-- The text "Failed to set exposure time". -/
  | exposureFailed
  /-- The text "Failed to turn on trigger". -/
  | triggerFailed
  /-- The text "Failed to stop data acquisition". -/
  | stopFailed
deriving DecidableEq

/-- The window together with what surrounds the pipeline: the two handles (`true`
for a handle that is not null), the states of the two devices, the driver calls
made so far on each handle, the state of the timer and of the start and stop
buttons, the exposure setting, and the failures reported so far. -/
structure Session (σ δ : Type) where
  window : MainWindow
  ftHandle : Bool
  fthandle_uart : Bool
  control : σ
  data : δ
  controlCalls : List Call
  dataCalls : List DataCall
  timerActive : Bool
  startEnabled : Bool
  stopEnabled : Bool
  defaultExposureTime : Nat
  reports : List Report

/-- The session as the constructor leaves it, before `setupDevice`: both handles
null, the timer stopped, the stop button disabled, the exposure 10000. -/
def initialSession {σ δ : Type} (control : σ) (data : δ) : Session σ δ where
  window := initialWindow false
  ftHandle := false
  fthandle_uart := false
  control := control
  data := data
  controlCalls := []
  dataCalls := []
  timerActive := false
  startEnabled := true
  stopEnabled := false
  defaultExposureTime := 10000
  reports := []

/-- How `setupDevice` ends: normally, or with one of its exceptions. -/
inductive SetupOutcome where
  | complete
  | openFailed
  | baudRateFailed
  | resetFailed
  | commandFailed (e : CommandError)
deriving DecidableEq

/-- The function `MainWindow::setupDevice`, for the given outcomes of the two calls
of `FT_OpenEx` in `setupDeviceHelper` (the control device first). A failed open
leaves its handle null; `ft_status` is the status of the last open, the one of the
data device. The field `handlesValid` of the window, which stands there for the two
handles, follows them. The first argument bounds the iterations of `trig_off`. -/
def setupDevice {σ δ : Type} (H : Hardware σ δ) (fuel : Nat) (openControl openData : Bool)
    (a : Session σ δ) : Option (SetupOutcome × Session σ δ) :=
  let a1 := { a with fthandle_uart := openControl }
  let a2 := { a1 with ftHandle := openData,
                      window := { a1.window with handlesValid := openControl && openData } }
  let ft_status := openData
  if ft_status = false then some (SetupOutcome.openFailed, a2)
  else
    let baud := if a2.fthandle_uart then H.setBaudRate a2.control else (false, a2.control)
    let a3 := { a2 with control := baud.2 }
    if baud.1 = false then some (SetupOutcome.baudRateFailed, a3)
    else
      let rs := if a3.fthandle_uart then H.resetControl a3.control else (false, a3.control)
      let a4 := { a3 with control := rs.2 }
      if rs.1 = false then some (SetupOutcome.resetFailed, a4)
      else
        match trig_off (onHandle a4.fthandle_uart H.control) fuel a4.control with
        | none => none
        | some run1 =>
          let a5 := { a4 with control := run1.device,
                              controlCalls := a4.controlCalls ++ run1.calls }
          match run1.outcome with
          | Except.error e => some (SetupOutcome.commandFailed e, a5)
          | Except.ok _ =>
            match set_exp (onHandle a5.fthandle_uart H.control) a5.defaultExposureTime
                a5.control with
            | none => none
            | some run2 =>
              let a6 := { a5 with control := run2.device,
                                  controlCalls := a5.controlCalls ++ run2.calls }
              match run2.outcome with
              | Except.error e => some (SetupOutcome.commandFailed e, a6)
              | Except.ok _ => some (SetupOutcome.complete, a6)

/-- How `startDataAcquisition` ends. -/
inductive StartOutcome where
  | notInitialized
  | exposureFailed
  | triggerFailed
  | started
deriving DecidableEq

/-- The function `MainWindow::startDataAcquisition`. The queue `frameBuffer`, which
nothing reads, is left out. -/
def startDataAcquisition {σ δ : Type} (H : Hardware σ δ) (a : Session σ δ) :
    Option (StartOutcome × Session σ δ) :=
  if a.ftHandle = false ∨ a.fthandle_uart = false then
    some (StartOutcome.notInitialized, { a with reports := a.reports ++ [Report.notInitialized] })
  else
    let w1 := { a.window with storedTraces := [], storedSeries := [], dataBuffer := [] }
    let pg := H.data.purge a.data
    let a1 := { a with window := w1, data := pg.2, dataCalls := a.dataCalls ++ [DataCall.purge],
                       reports := if pg.1 then a.reports else a.reports ++ [Report.purgeWarning] }
    match set_exp (onHandle a1.fthandle_uart H.control) a1.defaultExposureTime a1.control with
    | none => none
    | some run1 =>
      let a2 := { a1 with control := run1.device, controlCalls := a1.controlCalls ++ run1.calls }
      match run1.outcome with
      | Except.error _ =>
        some (StartOutcome.exposureFailed,
          { a2 with reports := a2.reports ++ [Report.exposureFailed] })
      | Except.ok _ =>
        match trig_on (onHandle a2.fthandle_uart H.control) a2.control with
        | none => none
        | some run2 =>
          let a3 := { a2 with control := run2.device,
                              controlCalls := a2.controlCalls ++ run2.calls }
          match run2.outcome with
          | Except.error _ =>
            some (StartOutcome.triggerFailed,
              { a3 with reports := a3.reports ++ [Report.triggerFailed] })
          | Except.ok _ =>
            some (StartOutcome.started,
              { a3 with
                window := { a3.window with
                  allFramesData := []
                  isRecording := true
                  lastTenFrames := [] }
                timerActive := true
                startEnabled := false
                stopEnabled := true })

/-- The function `MainWindow::stopDataAcquisition`. It has no handle check: its
driver calls are made whatever the handles are. The first argument bounds the
iterations of `trig_off`. -/
def stopDataAcquisition {σ δ : Type} (H : Hardware σ δ) (fuel : Nat) (a : Session σ δ) :
    Option (Session σ δ) :=
  let a1 := { a with timerActive := false }
  match trig_off (onHandle a1.fthandle_uart H.control) fuel a1.control with
  | none => none
  | some run =>
    let a2 := { a1 with control := run.device, controlCalls := a1.controlCalls ++ run.calls }
    match run.outcome with
    | Except.error _ => some { a2 with reports := a2.reports ++ [Report.stopFailed] }
    | Except.ok _ =>
      let pg := if a2.ftHandle then H.data.purge a2.data else (false, a2.data)
      let a3 := { a2 with data := pg.2, dataCalls := a2.dataCalls ++ [DataCall.purge] }
      if pg.1 = false then some { a3 with reports := a3.reports ++ [Report.stopFailed] }
      else
        let rs := if a3.ftHandle then H.data.resetDevice a3.data else (false, a3.data)
        let a4 := { a3 with data := rs.2, dataCalls := a3.dataCalls ++ [DataCall.resetDevice] }
        if rs.1 = false then some { a4 with reports := a4.reports ++ [Report.stopFailed] }
        else
          some { a4 with
            window := { a4.window with
              dataBuffer := []
              isRecording := false }
            startEnabled := true
            stopEnabled := false }

/-- The driver calls of one tick on the data handle: the queue query, and the read
when bytes are available. -/
def pollCalls : DataRead → List DataCall
  | DataRead.noBytes => [DataCall.getQueueStatus]
  | _ => [DataCall.getQueueStatus, DataCall.read]

/-- The function `MainWindow::updatePlot`: with a null handle it reports and calls
`stopDataAcquisition`; otherwise it polls the data device and runs the tick. -/
def updatePlot {σ δ : Type} (H : Hardware σ δ) (fuel : Nat) (a : Session σ δ) :
    Option (Session σ δ) :=
  if a.ftHandle = false ∨ a.fthandle_uart = false then
    stopDataAcquisition H fuel { a with reports := a.reports ++ [Report.notInitialized] }
  else
    let polled := H.data.poll a.data
    match updatePlotTick a.window polled.1 with
    | none => none
    | some w1 =>
      some { a with window := w1, data := polled.2,
                    dataCalls := a.dataCalls ++ pollCalls polled.1 }

/-! ## Statement helpers and concrete inputs -/

/-- The point that `processFrame` emits for byte pair `j` of the payload, read at
loop index `4 + 2 * j`. -/
def pointAt (sub : Bool) (bg : List Point) (frame : List Byte) (j : Nat) : Point :=
  ⟨(j : ℚ), subtractBackground sub bg (4 + 2 * j) (bigEndianAt frame j : ℚ)⟩

/-- An accumulator with a sync marker at offset 0 and another at offset 4, whose
bytes 8 and 9 are `01 00`. -/
def twoMarkers : List Byte := [0, 0, 0, 1, 0, 0, 0, 1, 1, 0] ++ List.replicate 2082 0

/-- A frame whose pixels 1 and 2 hold the intensities 5 and 7, all others 0. -/
def referenceFrame : List Byte := [0, 0, 0, 1, 0, 0, 0, 5, 0, 7] ++ List.replicate 2078 0

/-- A frame whose pixels all hold the intensity 0. -/
def darkFrame : List Byte := [0, 0, 0, 1] ++ List.replicate 2084 0

/-- A window whose inspection range has been set to pixels 1 to 2. -/
def narrowWindow : MainWindow :=
  { initialWindow true with currentMinRange := 1, currentMaxRange := 2 }

/-- A window with subtraction enabled and a background of two points, of pixels 1
and 2. -/
def subtractingWindow : MainWindow :=
  { initialWindow true with
    showSubtracted := true
    backgroundData := [⟨1, 5⟩, ⟨2, 7⟩] }

/-- A control device whose writes succeed and whose reads always deliver the
byte 0, which no command accepts. -/
def silentDevice : Transport Unit where
  write := fun _ payload => ((true, payload.length), ())
  read := fun _ _ => ((true, [0]), ())
  purge := fun _ => (true, ())

/-- A control device on which every `FT_Write` fails. -/
def writeFailDevice : Transport Unit where
  write := fun _ _ => ((false, 0), ())
  read := fun _ _ => ((true, [0x74]), ())
  purge := fun _ => (true, ())

/-- A control device on which every `FT_Read` fails. -/
def readFailDevice : Transport Unit where
  write := fun _ payload => ((true, payload.length), ())
  read := fun _ _ => ((false, []), ())
  purge := fun _ => (true, ())

/-- Two bytes of garbage, a sync marker, and a payload whose first pair is `01 02`. -/
def garbageThenFrame : List Byte := [7, 9, 0, 0, 0, 1, 1, 2] ++ List.replicate 2082 0

/-- A full frame size of bytes `01`, which holds no sync marker. -/
def noiseBuffer : List Byte := List.replicate 2088 1

/-- An accumulator of 208801 bytes `01`, one byte above 100 frame sizes. -/
def overflowNoise : List Byte := List.replicate 208801 1

/-- A finished command stopped at the first accepted acknowledgment: it made as
many writes as reads, between 1 and 5, each read delivered one acknowledgment
byte, it succeeded exactly when one of those bytes is in the accept set, an
accepted byte is the last one received, and a command that did not succeed ended
with the acknowledgment timeout after 5 attempts. -/
def stopsAtFirstAccepted {σ : Type} (T : Transport σ) (s0 : σ) (accept : Byte → Prop)
    (r : CommandRun σ) : Prop :=
  (acknowledgments (replay T s0 r.calls).2).length = countWrites r.calls ∧
  countReads r.calls = countWrites r.calls ∧
  1 ≤ countWrites r.calls ∧ countWrites r.calls ≤ 5 ∧
  (r.outcome = Except.ok () ↔ ∃ b ∈ acknowledgments (replay T s0 r.calls).2, accept b) ∧
  (∀ i b, (acknowledgments (replay T s0 r.calls).2)[i]? = some b → accept b →
    i + 1 = countWrites r.calls) ∧
  (r.outcome = Except.ok () ∨
    (r.outcome = Except.error CommandError.acknowledgmentTimeout ∧ countWrites r.calls = 5))

/-- A finished command ended at its first failed driver call: it made between 1
and 5 writes, every call before the last one went through, and it ended with the
write (read) failure exactly when its last call is a failed write (read). -/
def endsAtFirstFailure {σ : Type} (T : Transport σ) (s0 : σ) (r : CommandRun σ) : Prop :=
  1 ≤ countWrites r.calls ∧ countWrites r.calls ≤ 5 ∧
  (∀ i reply, (replay T s0 r.calls).2[i]? = some reply → i + 1 < (replay T s0 r.calls).2.length →
    reply.isFailedWrite = false ∧ reply.isFailedRead = false) ∧
  (r.outcome = Except.error CommandError.commandWriteFailed ↔
    ∃ reply, (replay T s0 r.calls).2.getLast? = some reply ∧ reply.isFailedWrite = true) ∧
  (r.outcome = Except.error CommandError.commandReadFailed ↔
    ∃ reply, (replay T s0 r.calls).2.getLast? = some reply ∧ reply.isFailedRead = true)

/-- A control device whose writes succeed and whose reads always deliver the
byte `'T'`. -/
def upperCaseDevice : Transport Unit where
  write := fun _ payload => ((true, payload.length), ())
  read := fun _ _ => ((true, [0x54]), ())
  purge := fun _ => (true, ())

/-- Eleven frames of one sample each, told apart by their intensity. -/
def elevenFrames : List (List Point) :=
  (List.range 11).map (fun i => [⟨0, (i : ℚ)⟩])

/-- Six point sequences of one sample each, told apart by their intensity. -/
def sixTraces : List (List Point) :=
  (List.range 6).map (fun i => [⟨0, (i : ℚ)⟩])

/-- An accumulator of 208805 bytes `01`. -/
def deepNoise : List Byte := List.replicate 208805 1

/-- Four points whose intensities 3, 1, 4, 2 are not in ascending order. -/
def shuffledPoints : List Point := [⟨0, 3⟩, ⟨1, 1⟩, ⟨2, 4⟩, ⟨3, 2⟩]

/-- Three points with the intensities 1, 2 and 2, whose mean 5/3 is no binary64
value. -/
def oneTwoTwo : List Point := [⟨0, 1⟩, ⟨1, 2⟩, ⟨2, 2⟩]

/-- Four points with the intensities 1, 2, 3 and 4. -/
def oneToFour : List Point := [⟨0, 1⟩, ⟨1, 2⟩, ⟨2, 3⟩, ⟨3, 4⟩]

/-- Two points whose intensities are the binary64 values nearest to 1/3 and to 2/3,
as the average view produces them. -/
def thirds : List Point :=
  [⟨0, 6004799503160661 / 18014398509481984⟩, ⟨1, 6004799503160661 / 9007199254740992⟩]

/-- A rolling window of three frames of one point, with the intensities 1, 2, 2. -/
def threeFrameWindow : MainWindow :=
  { initialWindow true with lastTenFrames := [[⟨0, 1⟩], [⟨0, 2⟩], [⟨0, 2⟩]] }

/-- A frame whose pixel 0 holds the intensity 65535, all others 0. -/
def brightFrame : List Byte := [0, 0, 0, 1, 255, 255] ++ List.replicate 2082 0

/-- A window with subtraction enabled whose background, captured from the average
view of `threeFrameWindow`, holds the binary64 value nearest to 5/3 at pixel 0. -/
def fractionalWindow : MainWindow :=
  { initialWindow true with
    showSubtracted := true
    backgroundData := [⟨0, 7505999378950827 / 4503599627370496⟩] }

/-- The initial window with `deepNoise` in its accumulator. -/
def deepNoiseWindow : MainWindow :=
  { initialWindow true with dataBuffer := deepNoise }

/-! ## Reachable sessions, well-formed frames and further concrete inputs -/

/-- The sessions that the operations on the devices reach from the session of the
constructor: `setupDevice`, `startDataAcquisition`, `stopDataAcquisition` and the
tick `updatePlot`, each with any result it returns, and any other step that leaves
`lastTenFrames` as it is (no other function of `mainwindow.cpp` writes it). -/
inductive Reachable {σ δ : Type} (H : Hardware σ δ) : Session σ δ → Prop where
  | initial (control : σ) (data : δ) : Reachable H (initialSession control data)
  | setup (fuel : Nat) (openControl openData : Bool) (a a1 : Session σ δ)
      (outcome : SetupOutcome) :
      Reachable H a → setupDevice H fuel openControl openData a = some (outcome, a1) →
      Reachable H a1
  | start (a a1 : Session σ δ) (outcome : StartOutcome) :
      Reachable H a → startDataAcquisition H a = some (outcome, a1) → Reachable H a1
  | stop (fuel : Nat) (a a1 : Session σ δ) :
      Reachable H a → stopDataAcquisition H fuel a = some a1 → Reachable H a1
  | tick (fuel : Nat) (a a1 : Session σ δ) :
      Reachable H a → updatePlot H fuel a = some a1 → Reachable H a1
  | other (a a1 : Session σ δ) :
      Reachable H a → a1.window.lastTenFrames = a.window.lastTenFrames → Reachable H a1

/-- A frame of the rolling window as `processFrame` builds it from 2088 bytes: 1042
points whose pixel indices are 0, 1, ..., 1041 in this order. -/
def wellFormedFrame (frame : List Point) : Prop :=
  frame.map Point.x = (List.range 1042).map (fun j : Nat => (j : ℚ))

instance (frame : List Point) : Decidable (wellFormedFrame frame) := by
  unfold wellFormedFrame
  infer_instance

/-- The intensity `frame[i].y()` of point `i` of a frame (0 past its end). -/
def intensityAt (frame : List Point) (i : Nat) : ℚ := (frame[i]?.map Point.y).getD 0

/-- The pixel index `frame[i].x()` of point `i` of a frame (0 past its end). -/
def pixelAt (frame : List Point) (i : Nat) : ℚ := (frame[i]?.map Point.x).getD 0

/-- The sum of a sequence of `double` values as a loop `sum += value` from `0.0`
computes it: every addition rounds. -/
def doubleSum (values : List ℚ) : ℚ := values.foldl doubleAdd 0

/-- The point of index `i` of the average view, in the words of the specification,
with the arithmetic of `double`: the pixel index of point `i` of the first frame,
and the sum over all frames of the intensity of point `i` divided by the number of
frames. -/
def meanPoint (first : List Point) (frames : List (List Point)) (i : Nat) : Point :=
  ⟨pixelAt first i,
    doubleDiv (doubleSum (frames.map (fun frame => intensityAt frame i))) (frames.length : ℚ)⟩

/-- A frame whose payload begins with the bytes `00 00 00 01` of the sync marker:
its pixel 1 holds the intensity 1, all others 0. -/
def echoFrame : List Byte := [0, 0, 0, 1, 0, 0, 0, 1] ++ List.replicate 2080 0

/-- A window whose accumulator holds `echoFrame` followed by `darkFrame`. -/
def echoWindow : MainWindow :=
  { initialWindow true with dataBuffer := [echoFrame, darkFrame].flatten }

/-- A window whose accumulator holds `darkFrame`. -/
def darkWindow : MainWindow := { initialWindow true with dataBuffer := darkFrame }

/-- A window whose rolling window holds two frames of two points each. -/
def averagingWindow : MainWindow :=
  { initialWindow true with lastTenFrames := [[⟨0, 1⟩, ⟨1, 2⟩], [⟨0, 3⟩, ⟨1, 6⟩]] }

/-- A control device, with the first byte of the last command written as its state,
that acknowledges the trigger commands (first byte 2 or 3) with `t` and every other
command with `A`. -/
def obedientDevice : Transport Byte where
  write := fun _ payload => ((true, payload.length), payload.headD 0)
  read := fun command _ => ((true, [if command = 2 ∨ command = 3 then 0x74 else 0x41]), command)
  purge := fun command => (true, command)

/-- A data device whose calls all succeed and that delivers `darkFrame` to every
tick. -/
def steadyPort : DataPort Unit where
  purge := fun _ => (true, ())
  resetDevice := fun _ => (true, ())
  poll := fun _ => (DataRead.ok darkFrame, ())

/-- A data device on which `FT_Purge` fails, and that has no bytes for a tick. -/
def stuckPort : DataPort Unit where
  purge := fun _ => (false, ())
  resetDevice := fun _ => (true, ())
  poll := fun _ => (DataRead.noBytes, ())

/-- The devices `obedientDevice` and `steadyPort`, with a control device that accepts
the baud rate and the reset. -/
def workingHardware : Hardware Byte Unit where
  control := obedientDevice
  setBaudRate := fun command => (true, command)
  resetControl := fun command => (true, command)
  data := steadyPort

/-- The devices `obedientDevice` and `stuckPort`. -/
def purgeFailHardware : Hardware Byte Unit where
  control := obedientDevice
  setBaudRate := fun command => (true, command)
  resetControl := fun command => (true, command)
  data := stuckPort

/-- The session that `setupDevice` leaves on `workingHardware` when both opens
succeed. -/
def readySession : Session Byte Unit :=
  { initialSession 16 () with
    window := initialWindow true
    ftHandle := true
    fthandle_uart := true
    controlCalls := [Call.purge, Call.write [3, 0, 0, 0], Call.read 1,
      Call.write (exposureBytes 10000), Call.read 1] }

/-- The session `readySession` with one stored trace. -/
def tracedSession : Session Byte Unit :=
  { readySession with window := { initialWindow true with storedTraces := [[⟨0, 1⟩]] } }

/-- The session that `startDataAcquisition` leaves on `workingHardware` from
`readySession`. -/
def runningSession : Session Byte Unit :=
  { readySession with
    window := { initialWindow true with isRecording := true }
    control := 2
    controlCalls := [Call.purge, Call.write [3, 0, 0, 0], Call.read 1,
      Call.write (exposureBytes 10000), Call.read 1, Call.write (exposureBytes 10000),
      Call.read 1, Call.write [2, 0, 0, 0], Call.read 1]
    dataCalls := [DataCall.purge]
    timerActive := true
    startEnabled := false
    stopEnabled := true }

/-! ## Properties -/

/-! ### Arithmetic on `double` -/

theorem roundHalfEven_intCast (z : Int) : roundHalfEven (z : ℚ) = z := by
  unfold roundHalfEven
  rw [Int.floor_intCast]
  simp

theorem roundHalfEven_of_close (q : ℚ) (m : Int) (h1 : (m : ℚ) - 1 / 2 < q)
    (h2 : q < (m : ℚ) + 1 / 2) : roundHalfEven q = m := by
  have hf1 : (Int.floor q : ℚ) ≤ q := Int.floor_le q
  have hf2 : q < (Int.floor q : ℚ) + 1 := Int.lt_floor_add_one q
  unfold roundHalfEven
  split_ifs with ha hb hc
  · have h3 : (m : ℚ) < (Int.floor q : ℚ) + 1 := by linarith
    have h4 : (Int.floor q : ℚ) < (m : ℚ) + 1 := by linarith
    have h3' : m < Int.floor q + 1 := by exact_mod_cast h3
    have h4' : Int.floor q < m + 1 := by exact_mod_cast h4
    omega
  · have h3 : (Int.floor q : ℚ) < (m : ℚ) := by linarith
    have h4 : (m : ℚ) < (Int.floor q : ℚ) + 2 := by linarith
    have h3' : Int.floor q < m := by exact_mod_cast h3
    have h4' : m < Int.floor q + 2 := by exact_mod_cast h4
    omega
  · exfalso
    have he : q - (Int.floor q : ℚ) = 1 / 2 := le_antisymm (not_lt.1 hb) (not_lt.1 ha)
    have h3 : (m : ℚ) < (Int.floor q : ℚ) + 1 := by linarith
    have h4 : (Int.floor q : ℚ) < (m : ℚ) := by linarith
    have h3' : m < Int.floor q + 1 := by exact_mod_cast h3
    have h4' : Int.floor q < m := by exact_mod_cast h4
    omega
  · exfalso
    have he : q - (Int.floor q : ℚ) = 1 / 2 := le_antisymm (not_lt.1 hb) (not_lt.1 ha)
    have h3 : (m : ℚ) < (Int.floor q : ℚ) + 1 := by linarith
    have h4 : (Int.floor q : ℚ) < (m : ℚ) := by linarith
    have h3' : m < Int.floor q + 1 := by exact_mod_cast h3
    have h4' : Int.floor q < m := by exact_mod_cast h4
    omega

theorem roundHalfEven_tie (q : ℚ) (m : Int) (h : q = (m : ℚ) + 1 / 2) :
    roundHalfEven q = if m % 2 = 0 then m else m + 1 := by
  have hfl : Int.floor q = m := by
    rw [Int.floor_eq_iff]
    constructor <;> rw [h] <;> linarith
  unfold roundHalfEven
  rw [hfl, h]
  norm_num

theorem roundHalfEven_nonneg (q : ℚ) (h : 0 ≤ q) : 0 ≤ roundHalfEven q := by
  have hf : 0 ≤ Int.floor q := Int.floor_nonneg.2 h
  unfold roundHalfEven
  split_ifs <;> omega

theorem log_two_eq (r : ℚ) (k : Int) (h1 : (2 : ℚ) ^ k ≤ r) (h2 : r < (2 : ℚ) ^ (k + 1)) :
    Int.log 2 r = k := by
  have hr : 0 < r := lt_of_lt_of_le (by positivity) h1
  have a := (Int.zpow_le_iff_le_log (by norm_num : 1 < 2) hr).1 h1
  have b := (Int.lt_zpow_iff_log_lt (by norm_num : 1 < 2) hr).1 h2
  omega

theorem toDouble_eq (q : ℚ) (e m : Int) (hlo : (2 : ℚ) ^ (e + 52) ≤ |q|)
    (hhi : |q| < (2 : ℚ) ^ (e + 52 + 1)) (he : -1074 ≤ e)
    (hm : roundHalfEven (q / (2 : ℚ) ^ e) = m) : toDouble q = (m : ℚ) * (2 : ℚ) ^ e := by
  have hq : quantumExponent q = e := by
    unfold quantumExponent
    rw [log_two_eq |q| (e + 52) hlo hhi]
    omega
  unfold toDouble
  rw [hq, hm]

theorem toDouble_zero : toDouble 0 = 0 := by
  unfold toDouble
  rw [zero_div]
  have : roundHalfEven 0 = 0 := by simpa using roundHalfEven_intCast 0
  rw [this]
  simp

theorem quantumExponent_le (q : ℚ) (b : Int) (hq : q ≠ 0) (h : |q| < (2 : ℚ) ^ (b + 53))
    (hb : -1074 ≤ b) : quantumExponent q ≤ b := by
  have hr : 0 < |q| := abs_pos.2 hq
  have := (Int.lt_zpow_iff_log_lt (by norm_num : 1 < 2) hr).1 h
  unfold quantumExponent
  omega

/-- A rational `m * 2 ^ e` with `|m| < 2 ^ 53` and `e` not below the least binary64
exponent is a binary64 value: rounding leaves it as it is. -/
theorem toDouble_exact (q : ℚ) (m e : Int) (hq : q = (m : ℚ) * (2 : ℚ) ^ e)
    (hm : |m| < 2 ^ 53) (he : -1074 ≤ e) : toDouble q = q := by
  by_cases h0 : q = 0
  · rw [h0]; exact toDouble_zero
  · have hlt : |q| < (2 : ℚ) ^ (e + 53) := by
      rw [hq, abs_mul, abs_of_pos (by positivity : (0 : ℚ) < (2 : ℚ) ^ e), zpow_add₀ (by norm_num),
        mul_comm]
      have : (|(m : ℚ)|) < (2 : ℚ) ^ (53 : Int) := by
        have h1 : ((|m| : Int) : ℚ) < ((2 ^ 53 : Int) : ℚ) := by exact_mod_cast hm
        rw [Int.cast_abs] at h1
        calc |(m : ℚ)| < ((2 ^ 53 : Int) : ℚ) := h1
          _ = (2 : ℚ) ^ (53 : Int) := by norm_num
      exact mul_lt_mul_of_pos_left this (by positivity)
    have hE := quantumExponent_le q e h0 hlt he
    have key : ∀ E : Int, E ≤ e →
        (roundHalfEven (q / (2 : ℚ) ^ E) : ℚ) * (2 : ℚ) ^ E = q := by
      intro E hE
      obtain ⟨d, hd⟩ : ∃ d : Nat, e = E + d := ⟨(e - E).toNat, by omega⟩
      have hdiv : q / (2 : ℚ) ^ E = ((m * 2 ^ d : Int) : ℚ) := by
        rw [hq, hd, zpow_add₀ (by norm_num)]
        field_simp
        ring
      rw [hdiv, roundHalfEven_intCast, hq, hd, zpow_add₀ (by norm_num)]
      push_cast
      rw [zpow_natCast]
      ring
    unfold toDouble
    exact key _ hE

theorem toDouble_intCast (z : Int) (h : |z| < 2 ^ 53) : toDouble (z : ℚ) = z :=
  toDouble_exact (z : ℚ) z 0 (by simp) h (by norm_num)

theorem toDouble_nonneg (q : ℚ) (h : 0 ≤ q) : 0 ≤ toDouble q := by
  unfold toDouble
  have h1 : (0 : ℚ) ≤ q / (2 : ℚ) ^ quantumExponent q := div_nonneg h (by positivity)
  have h2 := roundHalfEven_nonneg _ h1
  have h3 : (0 : ℚ) ≤ (roundHalfEven (q / (2 : ℚ) ^ quantumExponent q) : ℚ) := by exact_mod_cast h2
  exact mul_nonneg h3 (by positivity)

theorem toDouble_five_thirds : toDouble (5 / 3) = 7505999378950827 / 4503599627370496 := by
  rw [toDouble_eq (5 / 3) (-52) 7505999378950827 (by norm_num [abs_of_pos])
    (by norm_num [abs_of_pos]) (by norm_num)
    (roundHalfEven_of_close _ _ (by norm_num) (by norm_num))]
  norm_num

theorem doubleSqrt_nonneg (x : ℚ) : 0 ≤ doubleSqrt x := by
  unfold doubleSqrt
  split_ifs
  · exact le_refl _
  · dsimp only
    positivity

/-- The value of `doubleSqrt` from a floor of the square root that is known. -/
theorem doubleSqrt_eq (x : ℚ) (k : Int) (n : Nat) (hx : 0 < x)
    (hk1 : (2 : ℚ) ^ k ≤ x) (hk2 : x < (2 : ℚ) ^ (k + 1))
    (hn1 : n * n ≤ Nat.floor (x / (4 : ℚ) ^ (k / 2 - 52)))
    (hn2 : Nat.floor (x / (4 : ℚ) ^ (k / 2 - 52)) < (n + 1) * (n + 1)) :
    doubleSqrt x =
      ((if x / (4 : ℚ) ^ (k / 2 - 52) < (n : ℚ) * n + n + 1 / 4 then n
        else if (n : ℚ) * n + n + 1 / 4 < x / (4 : ℚ) ^ (k / 2 - 52) then n + 1
        else if n % 2 = 0 then n else n + 1 : Nat) : ℚ) * (2 : ℚ) ^ (k / 2 - 52) := by
  have hlog : Int.log 2 x = k := log_two_eq x k hk1 hk2
  have hsqrt : Nat.sqrt (Nat.floor (x / (4 : ℚ) ^ (k / 2 - 52))) = n :=
    (Nat.eq_sqrt.2 ⟨hn1, hn2⟩).symm
  unfold doubleSqrt
  rw [if_neg (not_le.2 hx)]
  dsimp only
  rw [hlog, hsqrt]

/-- Between two consecutive integers, the choice that `doubleSqrt` makes is within one
half of the square root. -/
theorem sqrt_choice (y : ℚ) (n : Nat) (hq1 : (n : ℚ) * n ≤ y)
    (hq2 : y < ((n : ℚ) + 1) * ((n : ℚ) + 1)) (hn1 : (1 : ℚ) ≤ n) (m : Nat)
    (hm : m = if y < (n : ℚ) * n + n + 1 / 4 then n
        else if (n : ℚ) * n + n + 1 / 4 < y then n + 1
        else if n % 2 = 0 then n else n + 1) :
    n ≤ m ∧ m ≤ n + 1 ∧ ((m : ℚ) - 1 / 2) ^ 2 ≤ y ∧ y ≤ ((m : ℚ) + 1 / 2) ^ 2 := by
  split_ifs at hm with h1 h2 h3
  · rw [hm]
    refine ⟨le_refl _, Nat.le_succ _, ?_, ?_⟩ <;> nlinarith
  · rw [hm]
    refine ⟨Nat.le_succ _, le_refl _, ?_, ?_⟩ <;> push_cast <;> nlinarith
  · rw [hm]
    have he : y = (n : ℚ) * n + n + 1 / 4 := le_antisymm (not_lt.1 h2) (not_lt.1 h1)
    refine ⟨le_refl _, Nat.le_succ _, ?_, ?_⟩ <;> nlinarith
  · rw [hm]
    have he : y = (n : ℚ) * n + n + 1 / 4 := le_antisymm (not_lt.1 h2) (not_lt.1 h1)
    refine ⟨Nat.le_succ _, le_refl _, ?_, ?_⟩ <;> push_cast <;> nlinarith

/-- The function `doubleSqrt` gives the 53-bit value nearest to the square root. -/
theorem doubleSqrt_nearest (x : ℚ) (hx : 0 < x) :
    ∃ (m : Nat) (e : Int), doubleSqrt x = (m : ℚ) * (2 : ℚ) ^ e ∧ 2 ^ 52 ≤ m ∧ m ≤ 2 ^ 53 ∧
      ((m : ℚ) - 1 / 2) ^ 2 * (4 : ℚ) ^ e ≤ x ∧ x ≤ ((m : ℚ) + 1 / 2) ^ 2 * (4 : ℚ) ^ e := by
  have hk1 : (2 : ℚ) ^ Int.log 2 x ≤ x := Int.zpow_log_le_self (by norm_num) hx
  have hk2 : x < (2 : ℚ) ^ (Int.log 2 x + 1) := Int.lt_zpow_succ_log_self (by norm_num) x
  obtain ⟨k, hk⟩ : ∃ k, Int.log 2 x = k := ⟨_, rfl⟩
  rw [hk] at hk1 hk2
  have hval := doubleSqrt_eq x k (Nat.sqrt (Nat.floor (x / (4 : ℚ) ^ (k / 2 - 52)))) hx hk1 hk2
    (Nat.sqrt_le _) (Nat.lt_succ_sqrt _)
  have h4 : (0 : ℚ) < (4 : ℚ) ^ (k / 2 - 52) := by positivity
  have h4e : (4 : ℚ) ^ (k / 2 - 52) = (2 : ℚ) ^ (2 * (k / 2) - 104) := by
    rw [show (4 : ℚ) = 2 ^ (2 : Int) by norm_num, ← zpow_mul]
    congr 1
    ring
  have hy1 : (2 : ℚ) ^ (104 : Int) ≤ x / (4 : ℚ) ^ (k / 2 - 52) := by
    rw [le_div_iff₀ h4, h4e, ← zpow_add₀ (by norm_num)]
    refine le_trans ?_ hk1
    exact zpow_le_zpow_right₀ (by norm_num) (by omega)
  have hy2 : x / (4 : ℚ) ^ (k / 2 - 52) < (2 : ℚ) ^ (106 : Int) := by
    rw [div_lt_iff₀ h4, h4e, ← zpow_add₀ (by norm_num)]
    refine lt_of_lt_of_le hk2 ?_
    exact zpow_le_zpow_right₀ (by norm_num) (by omega)
  have hxy : x = x / (4 : ℚ) ^ (k / 2 - 52) * (4 : ℚ) ^ (k / 2 - 52) := by
    field_simp
  obtain ⟨y, hyd⟩ : ∃ y, x / (4 : ℚ) ^ (k / 2 - 52) = y := ⟨_, rfl⟩
  rw [hyd] at hy1 hy2 hval hxy
  have hy0 : 0 ≤ y := le_trans (by positivity) hy1
  have hfl1 : ((Nat.floor y : Nat) : ℚ) ≤ y := Nat.floor_le hy0
  have hfl2 : y < ((Nat.floor y : Nat) : ℚ) + 1 := Nat.lt_floor_add_one y
  have hs1 : Nat.sqrt (Nat.floor y) * Nat.sqrt (Nat.floor y) ≤ Nat.floor y := Nat.sqrt_le _
  have hs2 : Nat.floor y < (Nat.sqrt (Nat.floor y) + 1) * (Nat.sqrt (Nat.floor y) + 1) :=
    Nat.lt_succ_sqrt _
  have hfl3 : 2 ^ 104 ≤ Nat.floor y := by
    apply Nat.le_floor
    calc ((2 ^ 104 : Nat) : ℚ) = (2 : ℚ) ^ (104 : Int) := by norm_num
      _ ≤ y := hy1
  have hfl4 : Nat.floor y < 2 ^ 106 := by
    apply (Nat.floor_lt hy0).2
    calc y < (2 : ℚ) ^ (106 : Int) := hy2
      _ = ((2 ^ 106 : Nat) : ℚ) := by norm_num
  have hn52 : 2 ^ 52 ≤ Nat.sqrt (Nat.floor y) := by
    apply Nat.le_sqrt.2
    calc 2 ^ 52 * 2 ^ 52 = 2 ^ 104 := by norm_num
      _ ≤ Nat.floor y := hfl3
  have hn53 : Nat.sqrt (Nat.floor y) < 2 ^ 53 := by
    apply Nat.sqrt_lt.2
    calc Nat.floor y < 2 ^ 106 := hfl4
      _ = 2 ^ 53 * 2 ^ 53 := by norm_num
  obtain ⟨n, hnd⟩ : ∃ n, Nat.sqrt (Nat.floor y) = n := ⟨_, rfl⟩
  rw [hnd] at hs1 hs2 hn52 hn53 hval
  have hq1 : (n : ℚ) * n ≤ y := by
    have : ((n * n : Nat) : ℚ) ≤ ((Nat.floor y : Nat) : ℚ) := by exact_mod_cast hs1
    push_cast at this
    linarith
  have hq2 : y < ((n : ℚ) + 1) * ((n : ℚ) + 1) := by
    have h1 : Nat.floor y + 1 ≤ (n + 1) * (n + 1) := hs2
    have : ((Nat.floor y + 1 : Nat) : ℚ) ≤ (((n + 1) * (n + 1) : Nat) : ℚ) := by
      exact_mod_cast h1
    push_cast at this
    linarith
  have hn1 : (1 : ℚ) ≤ n := by
    have : 1 ≤ n := le_trans (by norm_num) hn52
    exact_mod_cast this
  obtain ⟨m, hmd⟩ : ∃ m : Nat, m = if y < (n : ℚ) * n + n + 1 / 4 then n
      else if (n : ℚ) * n + n + 1 / 4 < y then n + 1
      else if n % 2 = 0 then n else n + 1 := ⟨_, rfl⟩
  rw [← hmd] at hval
  obtain ⟨hm1, hm2, hb1, hb2⟩ := sqrt_choice y n hq1 hq2 hn1 m hmd
  refine ⟨m, k / 2 - 52, hval, by omega, by omega, ?_, ?_⟩
  · rw [hxy]; exact mul_le_mul_of_nonneg_right hb1 h4.le
  · nth_rewrite 1 [hxy]; exact mul_le_mul_of_nonneg_right hb2 h4.le

theorem doubleSqrt_five_fourths :
    doubleSqrt (5 / 4) = 5035177455121576 / 4503599627370496 := by
  rw [doubleSqrt_eq (5 / 4) 0 5035177455121575 (by norm_num) (by norm_num) (by norm_num)
    (by norm_num [Nat.floor_div_eq_div]) (by norm_num)]
  norm_num

/-! ### `findFrameStart` -/

theorem syncAt_lt (data : List Byte) (i : Nat) (h : syncAt data i) : i + 3 < data.length := by
  have h4 := h.2.2.2
  by_contra hc
  rw [List.getElem?_eq_none (by omega)] at h4
  cases h4

theorem findFrameStartLoop_spec (data : List Byte) :
    ∀ n i, (∀ j, j < i → ¬ syncAt data j) →
      (findFrameStartLoop data n i = -1 ∧ ∀ j, j < i + n → ¬ syncAt data j) ∨
      (∃ k, i ≤ k ∧ k < i + n ∧ findFrameStartLoop data n i = (k : Int) ∧ syncAt data k ∧
        ∀ j, j < k → ¬ syncAt data j) := by
  intro n
  induction n with
  | zero => intro i h; left; exact ⟨rfl, by simpa using h⟩
  | succ n ih =>
    intro i h
    by_cases hs : syncAt data i
    · right
      exact ⟨i, le_refl _, by omega, by simp [findFrameStartLoop, hs], hs, h⟩
    · have h1 : ∀ j, j < i + 1 → ¬ syncAt data j := by
        intro j hj
        rcases Nat.lt_succ_iff_lt_or_eq.mp hj with hlt | heq
        · exact h j hlt
        · rw [heq]; exact hs
      have hstep : findFrameStartLoop data (n + 1) i = findFrameStartLoop data n (i + 1) := by
        simp [findFrameStartLoop, hs]
      rcases ih (i + 1) h1 with ⟨he, hall⟩ | ⟨k, hk1, hk2, he, hsk, hmin⟩
      · left
        refine ⟨by rw [hstep, he], ?_⟩
        intro j hj
        exact hall j (by omega)
      · right
        exact ⟨k, by omega, by omega, by rw [hstep, he], hsk, hmin⟩

theorem findFrameStart_cases (data : List Byte) :
    (findFrameStart data = -1 ∧ ∀ j, ¬ syncAt data j) ∨
    (∃ k : Nat, findFrameStart data = (k : Int) ∧ syncAt data k ∧ ∀ j, j < k → ¬ syncAt data j) := by
  unfold findFrameStart
  by_cases hlen : data.length < 4
  · left
    refine ⟨by simp [hlen], ?_⟩
    intro j hj
    have := syncAt_lt data j hj
    omega
  · rw [if_neg hlen]
    rcases findFrameStartLoop_spec data (data.length - 3) 0 (by intro j hj; omega) with
      ⟨he, hall⟩ | ⟨k, _, _, he, hsk, hmin⟩
    · left
      refine ⟨he, ?_⟩
      intro j hj
      have := syncAt_lt data j hj
      exact hall j (by omega) hj
    · right
      exact ⟨k, he, hsk, hmin⟩

theorem findFrameStart_eq_of_first (data : List Byte) (k : Nat) (hk : syncAt data k)
    (hmin : ∀ j, j < k → ¬ syncAt data j) : findFrameStart data = (k : Int) := by
  rcases findFrameStart_cases data with ⟨_, hall⟩ | ⟨k', he, hsk, hmin'⟩
  · exact absurd hk (hall k)
  · have : k' = k := by
      rcases Nat.lt_trichotomy k' k with h | h | h
      · exact absurd hsk (hmin k' h)
      · exact h
      · exact absurd hk (hmin' k h)
    rw [he, this]

theorem findFrameStart_eq_neg_one (data : List Byte) (h : ∀ j, ¬ syncAt data j) :
    findFrameStart data = -1 := by
  rcases findFrameStart_cases data with ⟨he, _⟩ | ⟨k', _, hsk, _⟩
  · exact he
  · exact absurd hsk (h k')

/-- C2. For every byte sequence, `findFrameStart` returns the offset `i` exactly
when the four bytes at `i .. i + 3` are `00 00 00 01` and no smaller offset holds
that pattern; it returns `-1` exactly when no offset holds the pattern; it returns
nothing else; and it returns `-1` for every sequence shorter than 4 bytes. -/
theorem findFrameStart_first_match (data : List Byte) :
    (∀ i : Nat, findFrameStart data = (i : Int) ↔
      (syncAt data i ∧ ∀ j, j < i → ¬ syncAt data j)) ∧
    (findFrameStart data = -1 ↔ ∀ i, ¬ syncAt data i) ∧
    (findFrameStart data = -1 ∨ 0 ≤ findFrameStart data) ∧
    (data.length < 4 → findFrameStart data = -1) := by
  refine ⟨?_, ?_, ?_, ?_⟩
  · intro i
    constructor
    · intro h
      rcases findFrameStart_cases data with ⟨he, _⟩ | ⟨k, he, hsk, hmin⟩
      · rw [he] at h; omega
      · rw [he] at h
        have : k = i := by exact_mod_cast h
        subst this
        exact ⟨hsk, hmin⟩
    · rintro ⟨h1, h2⟩
      exact findFrameStart_eq_of_first data i h1 h2
  · constructor
    · intro h
      rcases findFrameStart_cases data with ⟨_, hall⟩ | ⟨k, he, _, _⟩
      · exact hall
      · rw [he] at h; omega
    · exact findFrameStart_eq_neg_one data
  · rcases findFrameStart_cases data with ⟨he, _⟩ | ⟨k, he, _, _⟩
    · left; exact he
    · right; rw [he]; omega
  · intro h
    simp [findFrameStart, h]

/-! ### `processFrame` -/

theorem decodeValue_eq (hi lo : Byte) : decodeValue hi lo = 256 * hi.val + lo.val := by
  unfold decodeValue
  have h1 : hi.val <<< 8 = 2 ^ 8 * hi.val := by rw [Nat.shiftLeft_eq, Nat.mul_comm]
  rw [h1, ← Nat.mul_add_lt_is_or (by simp) hi.val]
  have := hi.isLt
  have := lo.isLt
  omega

theorem bigEndianAt_le (frame : List Byte) (j : Nat) : bigEndianAt frame j ≤ 65535 := by
  unfold bigEndianAt
  have := (frame.getD (4 + 2 * j) 0).isLt
  have := (frame.getD (5 + 2 * j) 0).isLt
  omega

theorem processFrameLoop_spec (sub : Bool) (bg : List Point) (frame : List Byte) :
    ∀ n j0 pts sat fuel, 4 + 2 * (j0 + n) = frame.length → n < fuel →
      processFrameLoop sub bg frame fuel (4 + 2 * j0) pts sat =
        some (pts ++ (List.range' j0 n).map (pointAt sub bg frame),
          sat || (List.range' j0 n).any (fun j => decide (bigEndianAt frame j = 65535))) := by
  intro n
  induction n with
  | zero =>
    intro j0 pts sat fuel hlen hfuel
    obtain ⟨f, rfl⟩ : ∃ f, fuel = f + 1 := ⟨fuel - 1, by omega⟩
    simp [processFrameLoop]
    omega
  | succ n ih =>
    intro j0 pts sat fuel hlen hfuel
    obtain ⟨f, rfl⟩ : ∃ f, fuel = f + 1 := ⟨fuel - 1, by omega⟩
    have hi : 4 + 2 * j0 < frame.length := by omega
    have hi1 : 4 + 2 * j0 + 1 < frame.length := by omega
    have e0 : frame[4 + 2 * j0]? = some (frame.getD (4 + 2 * j0) 0) := by
      rw [List.getD_eq_getElem?_getD, List.getElem?_eq_getElem hi]; rfl
    have e1 : frame[4 + 2 * j0 + 1]? = some (frame.getD (5 + 2 * j0) 0) := by
      have : 5 + 2 * j0 = 4 + 2 * j0 + 1 := by omega
      rw [this, List.getD_eq_getElem?_getD, List.getElem?_eq_getElem hi1]; rfl
    have hstep := ih (j0 + 1) (pts ++ [pointAt sub bg frame j0])
      (sat || decide (bigEndianAt frame j0 = 65535)) f (by omega) (by omega)
    have hidx : 4 + 2 * (j0 + 1) = 4 + 2 * j0 + 2 := by omega
    rw [hidx] at hstep
    have hval : decodeValue (frame.getD (4 + 2 * j0) 0) (frame.getD (5 + 2 * j0) 0)
        = bigEndianAt frame j0 := by
      rw [decodeValue_eq]; rfl
    have hx : (((4 + 2 * j0 : Nat) : ℚ) - 4) / 2 = (j0 : ℚ) := by
      push_cast; ring
    have hsat : (if ((bigEndianAt frame j0 : Nat) : ℚ) ≥ 65535 then true else sat)
        = (sat || decide (bigEndianAt frame j0 = 65535)) := by
      have hle := bigEndianAt_le frame j0
      by_cases h : bigEndianAt frame j0 = 65535
      · simp [h]
      · have hlt : bigEndianAt frame j0 < 65535 := by omega
        have : ¬ ((bigEndianAt frame j0 : ℚ) ≥ 65535) := by
          intro hc
          have : (65535 : ℚ) ≤ (bigEndianAt frame j0 : ℚ) := hc
          have : (65535 : Nat) ≤ bigEndianAt frame j0 := by exact_mod_cast this
          omega
        simp [h, this]
    rw [processFrameLoop, if_pos hi]
    simp only [e0, e1, hval, hx, hsat]
    rw [show (⟨(j0 : ℚ), subtractBackground sub bg (4 + 2 * j0) (bigEndianAt frame j0 : ℚ)⟩ : Point)
        = pointAt sub bg frame j0 from rfl]
    rw [hstep]
    simp [List.range'_succ, Bool.or_assoc]

theorem processFrame_eq (w : MainWindow) (frame : List Byte) (n : Nat)
    (hlen : frame.length = 4 + 2 * n) :
    processFrame w frame =
      some ((List.range n).map (pointAt w.showSubtracted w.backgroundData frame),
        updateSaturationIndicator
          (if w.isRecording then
            { w with allFramesData := w.allFramesData ++
                [(List.range n).map (pointAt w.showSubtracted w.backgroundData frame)] }
           else w)
          ((List.range n).any (fun j => decide (bigEndianAt frame j = 65535)))) := by
  have h := processFrameLoop_spec w.showSubtracted w.backgroundData frame n 0 [] false
    (frame.length + 1) (by omega) (by omega)
  unfold processFrame
  simp only [Nat.mul_zero, Nat.add_zero] at h
  rw [h]
  simp [List.range_eq_range']

theorem subtractBackground_off (bg : List Point) (i : Nat) (v : ℚ) :
    subtractBackground false bg i v = v := by
  simp [subtractBackground]

theorem subtractBackground_some (bg : List Point) (j : Nat) (v : ℚ) (p : Point)
    (hp : bg[j]? = some p) :
    subtractBackground true bg (4 + 2 * j) v = doubleSub v p.y := by
  have hj : j < bg.length := by
    by_contra hc
    rw [List.getElem?_eq_none (by omega)] at hp
    cases hp
  have hidx : (4 + 2 * j) / 2 - 2 = j := by omega
  have hne : bg ≠ [] := by
    intro h; rw [h] at hj; simp at hj
  have hcond : (true = true ∧ bg ≠ [] ∧ (4 + 2 * j) / 2 - 2 < bg.length) := ⟨rfl, hne, by omega⟩
  unfold subtractBackground
  rw [dif_pos hcond]
  have : bg.get ⟨(4 + 2 * j) / 2 - 2, hcond.2.2⟩ = p := by
    have h2 : bg[(4 + 2 * j) / 2 - 2]? = some p := by rw [hidx]; exact hp
    rw [List.getElem?_eq_getElem hcond.2.2] at h2
    simpa using h2
  rw [this]

theorem subtractBackground_beyond (sub : Bool) (bg : List Point) (j : Nat) (v : ℚ)
    (hj : bg.length ≤ j) : subtractBackground sub bg (4 + 2 * j) v = v := by
  unfold subtractBackground
  rw [dif_neg]
  intro h
  have := h.2.2
  omega

theorem pointAt_getElem? (sub : Bool) (bg : List Point) (frame : List Byte) (n j : Nat)
    (hj : j < n) :
    ((List.range n).map (pointAt sub bg frame))[j]? = some (pointAt sub bg frame j) := by
  simp [List.getElem?_map, List.getElem?_range hj]

/-- C3. For every 2088-byte frame, with background subtraction disabled,
`processFrame` returns exactly 1042 samples; sample `j` has pixel index `j` and the
big-endian value `256 * frame[4 + 2 j] + frame[5 + 2 j]` as intensity, which is at
most 65535; the pixel indices are strictly ascending. -/
theorem processFrame_decodes_big_endian (w : MainWindow) (frame : List Byte)
    (hlen : frame.length = 2088) (hsub : w.showSubtracted = false) :
    ∃ pts w1, processFrame w frame = some (pts, w1) ∧ pts.length = 1042 ∧
      (∀ j, j < 1042 →
        pts[j]? = some ⟨(j : ℚ), (bigEndianAt frame j : ℚ)⟩ ∧ bigEndianAt frame j ≤ 65535) ∧
      pts.Pairwise (fun p q => p.x < q.x) := by
  refine ⟨_, _, processFrame_eq w frame 1042 (by omega), by simp, ?_, ?_⟩
  · intro j hj
    refine ⟨?_, bigEndianAt_le frame j⟩
    rw [pointAt_getElem? _ _ _ _ _ hj, hsub]
    simp [pointAt, subtractBackground_off]
  · rw [List.pairwise_map]
    have h := List.pairwise_lt_range 1042
    refine h.imp ?_
    intro a b hab
    simp [pointAt]
    exact hab

/-- C6, amended. For every 2088-byte frame and every background reference, with
subtraction enabled, `processFrame` emits at pixel index `j` the binary64 value
nearest to `raw - reference[j].y` when the reference has an entry `j`, which is
`raw - reference[j].y` itself when that intensity is an integer of magnitude at
most `2 ^ 52`, negative differences included; and it emits the raw value when `j`
is at or beyond the length of the reference. -/
theorem processFrame_subtracts_by_position (w : MainWindow) (frame : List Byte)
    (hlen : frame.length = 2088) (hsub : w.showSubtracted = true) :
    ∃ pts w1, processFrame w frame = some (pts, w1) ∧ pts.length = 1042 ∧
      ∀ j, j < 1042 →
        (∀ p, w.backgroundData[j]? = some p →
          pts[j]? = some ⟨(j : ℚ), toDouble ((bigEndianAt frame j : ℚ) - p.y)⟩ ∧
          (∀ z : Int, p.y = (z : ℚ) → |z| ≤ 2 ^ 52 →
            pts[j]? = some ⟨(j : ℚ), (bigEndianAt frame j : ℚ) - (z : ℚ)⟩)) ∧
        (w.backgroundData.length ≤ j →
          pts[j]? = some ⟨(j : ℚ), (bigEndianAt frame j : ℚ)⟩) := by
  refine ⟨_, _, processFrame_eq w frame 1042 (by omega), by simp, ?_⟩
  intro j hj
  rw [pointAt_getElem? _ _ _ _ _ hj, hsub]
  constructor
  · intro p hp
    have hval : pointAt true w.backgroundData frame j =
        ⟨(j : ℚ), toDouble ((bigEndianAt frame j : ℚ) - p.y)⟩ := by
      simp [pointAt, subtractBackground_some _ _ _ _ hp, doubleSub]
    refine ⟨by rw [hval], ?_⟩
    intro z hz hbound
    rw [hval, hz]
    have hraw := bigEndianAt_le frame j
    have hexact : toDouble ((bigEndianAt frame j : ℚ) - (z : ℚ)) =
        (bigEndianAt frame j : ℚ) - (z : ℚ) := by
      have h1 := toDouble_intCast ((bigEndianAt frame j : Int) - z) (by
        rw [abs_le] at hbound
        rw [abs_lt]
        constructor <;> omega)
      push_cast at h1
      exact h1
    rw [hexact]
  · intro hge
    simp [pointAt, subtractBackground_beyond _ _ _ _ hge]

theorem bigEndianAt_saturated (frame : List Byte) (j : Nat) :
    bigEndianAt frame j = 65535 ↔
      (frame.getD (4 + 2 * j) 0 = 255 ∧ frame.getD (5 + 2 * j) 0 = 255) := by
  unfold bigEndianAt
  have h1 := (frame.getD (4 + 2 * j) 0).isLt
  have h2 := (frame.getD (5 + 2 * j) 0).isLt
  constructor
  · intro h
    constructor
    · apply Fin.ext
      show (frame.getD (4 + 2 * j) 0).val = 255
      omega
    · apply Fin.ext
      show (frame.getD (5 + 2 * j) 0).val = 255
      omega
  · rintro ⟨ha, hb⟩
    rw [ha, hb]; rfl

/-- C8. For every 2088-byte frame, the saturation flag that `processFrame` hands to
the indicator is true exactly when some byte pair of the payload is `FF FF`, that
is decodes to 65535; two windows, whatever their subtraction setting and
background, get the same flag from the same frame. -/
theorem processFrame_saturation_flag (w w2 : MainWindow) (frame : List Byte)
    (hlen : frame.length = 2088) :
    ∃ pts w1 pts2 w3, processFrame w frame = some (pts, w1) ∧
      processFrame w2 frame = some (pts2, w3) ∧ w1.saturating = w3.saturating ∧
      (w1.saturating = true ↔ ∃ j, j < 1042 ∧ bigEndianAt frame j = 65535) ∧
      (w1.saturating = true ↔
        ∃ j, j < 1042 ∧ frame.getD (4 + 2 * j) 0 = 255 ∧ frame.getD (5 + 2 * j) 0 = 255) := by
  have hsat : ((List.range 1042).any (fun j => decide (bigEndianAt frame j = 65535)) = true ↔
      ∃ j, j < 1042 ∧ bigEndianAt frame j = 65535) := by
    simp [List.any_eq_true]
  refine ⟨_, _, _, _, processFrame_eq w frame 1042 (by omega),
    processFrame_eq w2 frame 1042 (by omega), rfl, ?_, ?_⟩
  · simp only [updateSaturationIndicator]
    exact hsat
  · simp only [updateSaturationIndicator]
    rw [hsat]
    constructor
    · rintro ⟨j, hj, h⟩
      exact ⟨j, hj, (bigEndianAt_saturated frame j).mp h⟩
    · rintro ⟨j, hj, h⟩
      exact ⟨j, hj, (bigEndianAt_saturated frame j).mpr h⟩

/-! ### The decoding loop of `updatePlot` -/

theorem pushFrame_dataBuffer (w : MainWindow) (pts : List Point) :
    (pushFrame w pts).dataBuffer = w.dataBuffer := by
  unfold pushFrame updatePlotWithPoints
  dsimp only
  split_ifs <;> rfl

/-- The frame that `processFrame` decodes from the first 2088 bytes of a buffer, and
what it leaves untouched in the window. -/
theorem processFrame_take (w : MainWindow) (buf : List Byte) (hlen : 2088 ≤ buf.length) :
    ∃ pts w2, processFrame w (buf.take expectedFrameSize) = some (pts, w2) ∧
      pts = (List.range 1042).map
        (pointAt w.showSubtracted w.backgroundData (buf.take expectedFrameSize)) ∧
      w2.dataBuffer = w.dataBuffer ∧ w2.showSubtracted = w.showSubtracted ∧
      w2.backgroundData = w.backgroundData := by
  have hl : (buf.take expectedFrameSize).length = 4 + 2 * 1042 := by
    simp [expectedFrameSize]; omega
  refine ⟨_, _, processFrame_eq w _ 1042 hl, rfl, ?_, ?_, ?_⟩ <;>
  · unfold updateSaturationIndicator
    split_ifs <;> rfl

theorem updatePlotLoop_stop (fuel : Nat) (w : MainWindow) (m : Nat) (frames : List (List Point))
    (h : ¬ (expectedFrameSize ≤ w.dataBuffer.length ∧ 0 < m)) :
    updatePlotLoop (fuel + 1) w m frames = some (w, frames) := by
  rw [updatePlotLoop, if_neg h]

theorem updatePlotLoop_nosync (fuel : Nat) (w : MainWindow) (m : Nat)
    (frames : List (List Point))
    (h : expectedFrameSize ≤ w.dataBuffer.length ∧ 0 < m)
    (hf : findFrameStart w.dataBuffer = -1) :
    updatePlotLoop (fuel + 1) w m frames =
      some ({ w with dataBuffer := w.dataBuffer.drop 4 }, frames) := by
  rw [updatePlotLoop, if_pos h]
  simp [hf]

theorem updatePlotLoop_skip (fuel : Nat) (w : MainWindow) (m : Nat)
    (frames : List (List Point)) (k : Nat)
    (h : expectedFrameSize ≤ w.dataBuffer.length ∧ 0 < m)
    (hf : findFrameStart w.dataBuffer = (k : Int)) (hk : 0 < k) :
    updatePlotLoop (fuel + 1) w m frames =
      updatePlotLoop fuel { w with dataBuffer := w.dataBuffer.drop k } m frames := by
  rw [updatePlotLoop, if_pos h]
  have h1 : ¬ ((k : Int) = -1) := by omega
  have h2 : (0 : Int) < (k : Int) := by omega
  simp only [hf, h1, h2, if_true, if_false, Int.toNat_ofNat]

theorem updatePlotLoop_frame (fuel : Nat) (w : MainWindow) (m : Nat)
    (frames : List (List Point)) (pts : List Point) (w2 : MainWindow)
    (h : expectedFrameSize ≤ w.dataBuffer.length ∧ 0 < m)
    (hf : findFrameStart w.dataBuffer = 0)
    (hp : processFrame { w with dataBuffer := w.dataBuffer.drop expectedFrameSize }
      (w.dataBuffer.take expectedFrameSize) = some (pts, w2)) :
    updatePlotLoop (fuel + 1) w m frames =
      updatePlotLoop fuel (pushFrame w2 pts) (m - 1) (frames ++ [pts]) := by
  rw [updatePlotLoop, if_pos h]
  have h3 : ¬ (w.dataBuffer.length < expectedFrameSize) := by omega
  simp only [hf, h3, if_false]
  simp [hp]

/-- With more iterations allowed than `size + maxFramesToProcess`, the loop of
`updatePlot` leaves, and the frames it has decoded extend those it started from. -/
theorem updatePlotLoop_total :
    ∀ fuel (w : MainWindow) (m : Nat) (frames : List (List Point)),
      w.dataBuffer.length + m < fuel →
      ∃ w1 more, updatePlotLoop fuel w m frames = some (w1, frames ++ more) := by
  intro fuel
  induction fuel with
  | zero => intro w m frames h; omega
  | succ fuel ih =>
    intro w m frames hfuel
    by_cases h : expectedFrameSize ≤ w.dataBuffer.length ∧ 0 < m
    · have hlen : 2088 ≤ w.dataBuffer.length := h.1
      rcases findFrameStart_cases w.dataBuffer with ⟨he, _⟩ | ⟨k, he, _, _⟩
      · exact ⟨{ w with dataBuffer := w.dataBuffer.drop 4 }, [],
          by rw [updatePlotLoop_nosync fuel w m frames h he]; simp⟩
      · rcases Nat.eq_zero_or_pos k with hk | hk
        · subst hk
          obtain ⟨pts, w2, hp, _, hbuf, _, _⟩ :=
            processFrame_take { w with dataBuffer := w.dataBuffer.drop expectedFrameSize }
              w.dataBuffer hlen
          have hstep := updatePlotLoop_frame fuel w m frames pts w2 h (by simpa using he) hp
          have hl : (pushFrame w2 pts).dataBuffer.length + (m - 1) < fuel := by
            rw [pushFrame_dataBuffer, hbuf]
            simp [expectedFrameSize]
            omega
          obtain ⟨w1, more, hrec⟩ := ih _ (m - 1) (frames ++ [pts]) hl
          refine ⟨w1, pts :: more, ?_⟩
          rw [hstep, hrec]
          simp
        · have hstep := updatePlotLoop_skip fuel w m frames k h he hk
          have hl : ({ w with dataBuffer := w.dataBuffer.drop k } : MainWindow).dataBuffer.length
              + m < fuel := by
            simp
            omega
          obtain ⟨w1, more, hrec⟩ := ih _ m frames hl
          exact ⟨w1, more, by rw [hstep, hrec]⟩
    · exact ⟨w, [], by rw [updatePlotLoop_stop fuel w m frames h]; simp⟩

/-! ### The average view and the tick on a short accumulator -/

theorem sumAt_isSome (i : Nat) :
    ∀ (frames : List (List Point)) (sum : ℚ), (∀ f ∈ frames, i < f.length) →
      ∃ s, sumAt i frames sum = some s := by
  intro frames
  induction frames with
  | nil => intro sum _; exact ⟨sum, rfl⟩
  | cons f rest ih =>
    intro sum h
    have hf : i < f.length := h f (List.mem_cons_self _ _)
    obtain ⟨s, hs⟩ := ih (doubleAdd sum (f[i]).y) (fun g hg => h g (List.mem_cons_of_mem _ hg))
    refine ⟨s, ?_⟩
    rw [sumAt, List.getElem?_eq_getElem hf]
    exact hs

theorem averagePointsLoop_isSome (frames : List (List Point)) (first : List Point) :
    ∀ n i acc, (∀ f ∈ frames, i + n ≤ f.length) → i + n ≤ first.length →
      ∃ r, averagePointsLoop frames first n i acc = some r := by
  intro n
  induction n with
  | zero => intro i acc _ _; exact ⟨acc, rfl⟩
  | succ n ih =>
    intro i acc h hfirst
    obtain ⟨s, hs⟩ := sumAt_isSome i frames 0 (fun f hf => by have := h f hf; omega)
    have hi : i < first.length := by omega
    obtain ⟨r, hr⟩ := ih (i + 1) (acc ++ [⟨(first[i]).x, doubleDiv s (frames.length : ℚ)⟩])
      (fun f hf => by have := h f hf; omega) (by omega)
    refine ⟨r, ?_⟩
    rw [averagePointsLoop, hs, List.getElem?_eq_getElem hi]
    exact hr

theorem updateAveragePlot_frame (w w1 : MainWindow) (h : updateAveragePlot w = some w1) :
    w1.dataBuffer = w.dataBuffer ∧ w1.lastTenFrames = w.lastTenFrames ∧
      w1.allFramesData = w.allFramesData := by
  unfold updateAveragePlot at h
  split at h
  · cases h; exact ⟨rfl, rfl, rfl⟩
  · split at h
    · cases h; exact ⟨rfl, rfl, rfl⟩
    · cases h

theorem updateAveragePlot_isSome (w : MainWindow) (h : framesCover w.lastTenFrames) :
    ∃ w1, updateAveragePlot w = some w1 := by
  unfold updateAveragePlot
  split
  · exact ⟨w, rfl⟩
  · rename_i first rest heq
    rw [heq] at h
    have hc : ∀ f ∈ first :: rest, 0 + first.length ≤ f.length := by
      intro f hf
      have := h first (by simp) f hf
      omega
    obtain ⟨r, hr⟩ := averagePointsLoop_isSome (first :: rest) first first.length 0 [] hc
      (by omega)
    rw [hr]
    exact ⟨_, rfl⟩

theorem decodeFrames_short (w : MainWindow) (h : w.dataBuffer.length < 2088) :
    decodeFrames w = some (w, []) := by
  unfold decodeFrames
  exact updatePlotLoop_stop _ w 10 [] (by simp [expectedFrameSize]; omega)

theorem truncateBuffer_small (w : MainWindow) (h : w.dataBuffer.length ≤ 208800) :
    truncateBuffer w = w := by
  unfold truncateBuffer
  rw [if_neg]
  simp [expectedFrameSize]
  omega

theorem updatePlotDecode_short (w : MainWindow) (h : w.dataBuffer.length < 2088) :
    updatePlotDecode w = some (w, []) := by
  unfold updatePlotDecode
  rw [decodeFrames_short w h]
  simp only
  rw [truncateBuffer_small w (by omega)]

/-- C4. For every accumulator shorter than 2088 bytes, with no new bytes read, the
decoding loop and the overflow guard of the tick decode no frame and leave the
whole window state as it is, whatever the accumulator holds; the tick returns that
same state when the average view is off, and in any case, for a window on which
the average can be computed, a state with the same accumulator, rolling window and
recording. -/
theorem tick_incomplete_below_frame_size (w : MainWindow) (h : w.dataBuffer.length < 2088) :
    updatePlotDecode w = some (w, []) ∧
    (w.showingAverage = false → updatePlotTick w DataRead.noBytes = some w) ∧
    (framesCover w.lastTenFrames →
      ∃ w1, updatePlotTick w DataRead.noBytes = some w1 ∧ w1.dataBuffer = w.dataBuffer ∧
        w1.lastTenFrames = w.lastTenFrames ∧ w1.allFramesData = w.allFramesData) := by
  have hd := updatePlotDecode_short w h
  refine ⟨hd, ?_, ?_⟩
  · intro hs
    simp [updatePlotTick, hd, hs]
  · intro hc
    by_cases hs : w.showingAverage = true
    · obtain ⟨w1, h1⟩ := updateAveragePlot_isSome w hc
      refine ⟨w1, ?_, updateAveragePlot_frame w w1 h1⟩
      simp [updatePlotTick, hd, hs, h1]
    · exact ⟨w, by simp [updatePlotTick, hd, hs], rfl, rfl, rfl⟩

theorem decodeFrames_noise (w : MainWindow) (hlen : 2088 ≤ w.dataBuffer.length)
    (hno : ∀ i, ¬ syncAt w.dataBuffer i) :
    decodeFrames w = some ({ w with dataBuffer := w.dataBuffer.drop 4 }, []) := by
  unfold decodeFrames
  exact updatePlotLoop_nosync _ w 10 [] ⟨hlen, by omega⟩ (findFrameStart_eq_neg_one _ hno)

/-- C5, amended. For every accumulator of at least 2088 bytes that holds no sync
marker, the decoding loop of one tick decodes no frame and removes exactly the
first 4 bytes; when the accumulator held at most 208804 bytes the overflow guard
leaves that result alone, and so does the whole tick with the average view off. -/
theorem tick_drops_four_bytes_of_noise (w : MainWindow) (hlen : 2088 ≤ w.dataBuffer.length)
    (hno : ∀ i, ¬ syncAt w.dataBuffer i) :
    decodeFrames w = some ({ w with dataBuffer := w.dataBuffer.drop 4 }, []) ∧
    (w.dataBuffer.drop 4).length + 4 = w.dataBuffer.length ∧
    (w.dataBuffer.length ≤ 208804 →
      updatePlotDecode w = some ({ w with dataBuffer := w.dataBuffer.drop 4 }, []) ∧
      (w.showingAverage = false → updatePlotTick w DataRead.noBytes =
        some { w with dataBuffer := w.dataBuffer.drop 4 })) := by
  have hd := decodeFrames_noise w hlen hno
  refine ⟨hd, by simp; omega, ?_⟩
  intro hle
  have hdec : updatePlotDecode w = some ({ w with dataBuffer := w.dataBuffer.drop 4 }, []) := by
    unfold updatePlotDecode
    rw [hd]
    simp only
    rw [truncateBuffer_small _ (by simp; omega)]
  refine ⟨hdec, ?_⟩
  intro hs
  simp [updatePlotTick, hdec, hs]

/-- C5, counterexample. An accumulator of the 4 bytes `01 01 01 01` holds no sync
marker, and one tick with no new bytes read leaves all 4 bytes in it. -/
theorem tick_keeps_short_noise :
    4 ≤ ({ initialWindow true with dataBuffer := [1, 1, 1, 1] } : MainWindow).dataBuffer.length ∧
    findFrameStart [1, 1, 1, 1] = -1 ∧
    (updatePlotTick { initialWindow true with dataBuffer := [1, 1, 1, 1] } DataRead.noBytes).map
      (fun w => w.dataBuffer) = some [1, 1, 1, 1] := by
  refine ⟨by decide, by decide, ?_⟩
  rfl

/-! ### The first frame of a tick -/

theorem syncAt_drop (buf : List Byte) (k i : Nat) :
    syncAt (buf.drop k) i ↔ syncAt buf (k + i) := by
  unfold syncAt
  simp only [List.getElem?_drop, Nat.add_assoc]

/-- A frame at the front of the accumulator is decoded first. -/
theorem updatePlotLoop_front (fuel : Nat) (w : MainWindow) (m : Nat)
    (frames : List (List Point)) (hs : syncAt w.dataBuffer 0)
    (hlen : 2088 ≤ w.dataBuffer.length) (hm : 0 < m) (hfuel : w.dataBuffer.length + m < fuel) :
    ∃ w1 more, updatePlotLoop fuel w m frames =
      some (w1, frames ++ (List.range 1042).map
        (pointAt w.showSubtracted w.backgroundData (w.dataBuffer.take expectedFrameSize))
          :: more) := by
  obtain ⟨f, rfl⟩ : ∃ f, fuel = f + 1 := ⟨fuel - 1, by omega⟩
  obtain ⟨pts, w2, hp, hpts, hbuf, _, _⟩ :=
    processFrame_take { w with dataBuffer := w.dataBuffer.drop expectedFrameSize }
      w.dataBuffer hlen
  have he : findFrameStart w.dataBuffer = 0 := by
    simpa using findFrameStart_eq_of_first w.dataBuffer 0 hs (by intro j hj; omega)
  have hstep := updatePlotLoop_frame f w m frames pts w2 ⟨hlen, hm⟩ he hp
  have hl : (pushFrame w2 pts).dataBuffer.length + (m - 1) < f := by
    rw [pushFrame_dataBuffer, hbuf]
    simp [expectedFrameSize]
    omega
  obtain ⟨w1, more, hrec⟩ := updatePlotLoop_total f _ (m - 1) (frames ++ [pts]) hl
  refine ⟨w1, more, ?_⟩
  rw [hstep, hrec, hpts]
  simp

/-- The first frame decoded is the one behind the first sync marker. -/
theorem updatePlotLoop_first (fuel : Nat) (w : MainWindow) (m k : Nat)
    (frames : List (List Point)) (hk : syncAt w.dataBuffer k)
    (hfirst : ∀ j, j < k → ¬ syncAt w.dataBuffer j)
    (hlen : k + 2088 ≤ w.dataBuffer.length) (hm : 0 < m)
    (hfuel : w.dataBuffer.length + m < fuel) :
    ∃ w1 more, updatePlotLoop fuel w m frames =
      some (w1, frames ++ (List.range 1042).map
        (pointAt w.showSubtracted w.backgroundData
          ((w.dataBuffer.drop k).take expectedFrameSize)) :: more) := by
  rcases Nat.eq_zero_or_pos k with h0 | hpos
  · subst h0
    simpa using updatePlotLoop_front fuel w m frames hk (by omega) hm hfuel
  · obtain ⟨f, rfl⟩ : ∃ f, fuel = f + 1 := ⟨fuel - 1, by omega⟩
    have he := findFrameStart_eq_of_first w.dataBuffer k hk hfirst
    have hstep := updatePlotLoop_skip f w m frames k ⟨by simp [expectedFrameSize]; omega, hm⟩ he hpos
    have h2 := updatePlotLoop_front f { w with dataBuffer := w.dataBuffer.drop k } m frames
      ((syncAt_drop w.dataBuffer k 0).mpr (by simpa using hk))
      (by simp; omega) hm (by simp; omega)
    obtain ⟨w1, more, h3⟩ := h2
    exact ⟨w1, more, by rw [hstep, h3]⟩

theorem pointAt_zero_off (bg : List Point) (buf : List Byte) (k : Nat) :
    pointAt false bg ((buf.drop k).take expectedFrameSize) 0 =
      ⟨0, ((256 * (buf.getD (k + 4) 0).val + (buf.getD (k + 5) 0).val : Nat) : ℚ)⟩ := by
  have h4 : ((buf.drop k).take expectedFrameSize).getD 4 0 = buf.getD (k + 4) 0 := by
    simp [List.getD_eq_getElem?_getD, List.getElem?_take, expectedFrameSize, List.getElem?_drop]
  have h5 : ((buf.drop k).take expectedFrameSize).getD 5 0 = buf.getD (k + 5) 0 := by
    simp [List.getD_eq_getElem?_getD, List.getElem?_take, expectedFrameSize, List.getElem?_drop]
  simp only [pointAt, subtractBackground_off, bigEndianAt, Nat.mul_zero, Nat.add_zero, h4, h5]
  simp

theorem range_map_cons (f : Nat → Point) (n : Nat) :
    (List.range (n + 1)).map f = f 0 :: (List.range' 1 n).map f := by
  rw [List.range_eq_range', List.range'_succ, List.map_cons]

/-- C1, amended. When the first sync marker of the accumulator is at offset `k` and
at least 2084 bytes follow it, with background subtraction disabled, the first
frame decoded by the tick starts with the sample of pixel 0 and intensity
`256 * b[k + 4] + b[k + 5]`, whatever the `k` bytes before the marker are, as
long as they hold no marker. -/
theorem decodeFrames_first_sample (w : MainWindow) (k : Nat)
    (hsub : w.showSubtracted = false) (hk : syncAt w.dataBuffer k)
    (hfirst : ∀ j, j < k → ¬ syncAt w.dataBuffer j)
    (hlen : k + 2088 ≤ w.dataBuffer.length) :
    ∃ w1 frame rest p ps, decodeFrames w = some (w1, frame :: rest) ∧
      (updatePlotDecode w).map Prod.snd = some (frame :: rest) ∧
      frame = p :: ps ∧ p.x = 0 ∧
      p.y = ((256 * (w.dataBuffer.getD (k + 4) 0).val
        + (w.dataBuffer.getD (k + 5) 0).val : Nat) : ℚ) := by
  obtain ⟨w1, more, h⟩ := updatePlotLoop_first (w.dataBuffer.length + 11) w 10 k [] hk hfirst
    hlen (by omega) (by omega)
  rw [range_map_cons, hsub, pointAt_zero_off] at h
  refine ⟨w1, _, more, _, _, h, ?_, rfl, rfl, rfl⟩
  unfold updatePlotDecode
  unfold decodeFrames at *
  rw [h]
  rfl

/-- Exactly one frame is decoded from an accumulator that starts with a sync marker
and holds less than two frames. -/
theorem decodeFrames_single (w : MainWindow) (hs : syncAt w.dataBuffer 0)
    (hlen : 2088 ≤ w.dataBuffer.length) (hlt : w.dataBuffer.length < 4176) :
    ∃ w1, decodeFrames w = some (w1, [(List.range 1042).map
      (pointAt w.showSubtracted w.backgroundData (w.dataBuffer.take expectedFrameSize))]) := by
  obtain ⟨pts, w2, hp, hpts, hbuf, _, _⟩ :=
    processFrame_take { w with dataBuffer := w.dataBuffer.drop expectedFrameSize }
      w.dataBuffer hlen
  have he : findFrameStart w.dataBuffer = 0 := by
    simpa using findFrameStart_eq_of_first w.dataBuffer 0 hs (by intro j hj; omega)
  have hstep := updatePlotLoop_frame (w.dataBuffer.length + 10) w 10 [] pts w2
    ⟨hlen, by omega⟩ he hp
  obtain ⟨f, hf⟩ : ∃ f, w.dataBuffer.length + 10 = f + 1 := ⟨w.dataBuffer.length + 9, by omega⟩
  have hstop := updatePlotLoop_stop f (pushFrame w2 pts) 9 ([] ++ [pts]) (by
    rw [pushFrame_dataBuffer, hbuf]
    simp [expectedFrameSize]
    omega)
  refine ⟨pushFrame w2 pts, ?_⟩
  unfold decodeFrames
  rw [show w.dataBuffer.length + 11 = (w.dataBuffer.length + 10) + 1 from rfl, hstep, hf, hstop,
    hpts]
  rfl

theorem twoMarkers_length : twoMarkers.length = 2092 := by
  simp only [twoMarkers, List.length_append, List.length_replicate, List.length_cons,
    List.length_nil]

theorem syncAt_append_left (l r : List Byte) (i : Nat) (h : syncAt l i) : syncAt (l ++ r) i := by
  have hlt := syncAt_lt l i h
  unfold syncAt at *
  rw [List.getElem?_append_left (by omega), List.getElem?_append_left (by omega),
    List.getElem?_append_left (by omega), List.getElem?_append_left (by omega)]
  exact h

theorem twoMarkers_sync_four : syncAt twoMarkers 4 :=
  syncAt_append_left _ _ 4 (by decide)

theorem twoMarkers_sync_zero : syncAt twoMarkers 0 :=
  syncAt_append_left _ _ 0 (by decide)

/-- C1, counterexample. The accumulator `twoMarkers` holds a marker at offset 4 with
2084 bytes behind it, and its bytes 8 and 9 give 256, but the tick decodes one
frame only, from the marker at offset 0, and its first intensity is 0. -/
theorem decodeFrames_earlier_marker_wins :
    syncAt twoMarkers 4 ∧ 4 + 2088 ≤ twoMarkers.length ∧
    256 * (twoMarkers.getD (4 + 4) 0).val + (twoMarkers.getD (4 + 5) 0).val = 256 ∧
    (decodeFrames { initialWindow true with dataBuffer := twoMarkers }).map
      (fun r => r.2.map (fun frame => frame.head?.map Point.y)) = some [some 0] := by
  refine ⟨twoMarkers_sync_four, by rw [twoMarkers_length], by rfl, ?_⟩
  obtain ⟨w1, h⟩ := decodeFrames_single { initialWindow true with dataBuffer := twoMarkers }
    twoMarkers_sync_zero (by show 2088 ≤ twoMarkers.length; rw [twoMarkers_length]; omega)
    (by show twoMarkers.length < 4176; rw [twoMarkers_length]; omega)
  rw [h, range_map_cons]
  have h0 := pointAt_zero_off [] twoMarkers 0
  simp only [List.drop_zero] at h0
  rw [show twoMarkers.getD (0 + 4) 0 = 0 from rfl, show twoMarkers.getD (0 + 5) 0 = 0 from rfl]
    at h0
  simp only [initialWindow, h0]
  simp

/-! ### Background capture under an inspection range -/

theorem referenceFrame_length : referenceFrame.length = 4 + 2 * 1042 := by
  simp only [referenceFrame, List.length_append, List.length_replicate, List.length_cons,
    List.length_nil]

theorem darkFrame_length : darkFrame.length = 4 + 2 * 1042 := by
  simp only [darkFrame, List.length_append, List.length_replicate, List.length_cons,
    List.length_nil]

theorem range_1042 : List.range 1042 = 0 :: 1 :: 2 :: List.range' 3 1039 := by
  rw [List.range_eq_range', show (1042 : Nat) = 1039 + 1 + 1 + 1 from rfl, List.range'_succ,
    List.range'_succ, List.range'_succ]

theorem pointAt_off (bg : List Point) (frame : List Byte) (j : Nat) :
    pointAt false bg frame j = ⟨(j : ℚ), (bigEndianAt frame j : ℚ)⟩ := by
  simp [pointAt, subtractBackground_off]

theorem filter_beyond_range (w : MainWindow) (f : Nat → Point) (hf : ∀ j, (f j).x = (j : ℚ))
    (s n : Nat) (h : w.currentMaxRange < (s : Int)) :
    filterPointsByRange w ((List.range' s n).map f) = [] := by
  unfold filterPointsByRange
  rw [List.filter_eq_nil_iff]
  intro a ha
  obtain ⟨j, hj, rfl⟩ := List.mem_map.1 ha
  have hj1 : s ≤ j := (List.mem_range'_1.1 hj).1
  have hlt : (w.currentMaxRange : ℚ) < (j : ℚ) := by
    have : w.currentMaxRange < (j : Int) := by omega
    exact_mod_cast this
  simp [hf j]
  intro _
  exact hlt

theorem narrow_series :
    filterPointsByRange narrowWindow ((List.range 1042).map (pointAt false [] referenceFrame))
      = [⟨1, 5⟩, ⟨2, 7⟩] := by
  have htail := filter_beyond_range narrowWindow (pointAt false [] referenceFrame)
    (fun j => by rw [pointAt_off]) 3 1039 (by decide)
  rw [range_1042, List.map_cons, List.map_cons, List.map_cons]
  unfold filterPointsByRange at *
  rw [List.filter_cons, List.filter_cons, List.filter_cons, htail]
  rw [pointAt_off, pointAt_off, pointAt_off]
  rw [show bigEndianAt referenceFrame 0 = 0 from rfl, show bigEndianAt referenceFrame 1 = 5 from rfl,
    show bigEndianAt referenceFrame 2 = 7 from rfl]
  simp [narrowWindow, initialWindow]

theorem filterPointsByRange_congr (w w1 : MainWindow) (pts : List Point)
    (h1 : w1.currentMinRange = w.currentMinRange) (h2 : w1.currentMaxRange = w.currentMaxRange) :
    filterPointsByRange w1 pts = filterPointsByRange w pts := by
  unfold filterPointsByRange
  rw [h1, h2]

theorem processFrame_fields (w w1 : MainWindow) (frame : List Byte) (pts : List Point)
    (h : processFrame w frame = some (pts, w1)) :
    w1.showingAverage = w.showingAverage ∧ w1.currentMinRange = w.currentMinRange ∧
      w1.currentMaxRange = w.currentMaxRange ∧ w1.handlesValid = w.handlesValid ∧
      w1.lastTenFrames = w.lastTenFrames := by
  unfold processFrame at h
  split at h
  · cases h
  · simp only [Option.some.injEq, Prod.mk.injEq] at h
    obtain ⟨_, h2⟩ := h
    subst h2
    unfold updateSaturationIndicator
    split_ifs <;> exact ⟨rfl, rfl, rfl, rfl, rfl⟩

theorem pushFrame_series (w : MainWindow) (pts : List Point) (h : w.showingAverage = false) :
    (pushFrame w pts).series = filterPointsByRange w pts ∧
      (pushFrame w pts).handlesValid = w.handlesValid := by
  unfold pushFrame updatePlotWithPoints
  dsimp only
  split_ifs with h1 h2 h3
  · simp [h] at h2
  · exact ⟨filterPointsByRange_congr _ _ _ rfl rfl, rfl⟩
  · simp [h] at h3
  · exact ⟨filterPointsByRange_congr _ _ _ rfl rfl, rfl⟩

theorem onSetBackgroundClicked_background (w : MainWindow) (h : w.handlesValid = true) :
    (onSetBackgroundClicked w).backgroundData = w.series.take 1044 := by
  unfold onSetBackgroundClicked
  rw [if_pos h]

theorem narrow_background :
    ∃ pts w1, processFrame narrowWindow referenceFrame = some (pts, w1) ∧
      (onSetBackgroundClicked (pushFrame w1 pts)).backgroundData = [⟨1, 5⟩, ⟨2, 7⟩] := by
  have hp := processFrame_eq narrowWindow referenceFrame 1042 referenceFrame_length
  obtain ⟨h1, h2, h3, h4, _⟩ := processFrame_fields _ _ _ _ hp
  refine ⟨_, _, hp, ?_⟩
  have hps := pushFrame_series _ ((List.range 1042).map
    (pointAt narrowWindow.showSubtracted narrowWindow.backgroundData referenceFrame))
    (h1.trans rfl)
  rw [onSetBackgroundClicked_background _ (hps.2.trans (h4.trans rfl)), hps.1,
    filterPointsByRange_congr narrowWindow _ _ h2 h3]
  rw [show narrowWindow.showSubtracted = false from rfl,
    show narrowWindow.backgroundData = [] from rfl, narrow_series]
  rfl

theorem dark_points (w : MainWindow) (hs : w.showSubtracted = true)
    (hb : w.backgroundData = [⟨1, 5⟩, ⟨2, 7⟩]) :
    (processFrame w darkFrame).map (fun r => r.1.take 3) =
      some [⟨0, -5⟩, ⟨1, -7⟩, ⟨2, 0⟩] := by
  rw [processFrame_eq w darkFrame 1042 darkFrame_length, hs, hb, range_1042]
  simp only [Option.map_some', List.map_cons, List.take_succ_cons, List.take_zero]
  have e0 : pointAt true [⟨1, 5⟩, ⟨2, 7⟩] darkFrame 0 = ⟨0, -5⟩ := by
    simp only [pointAt]
    rw [subtractBackground_some _ 0 _ ⟨1, 5⟩ rfl, show bigEndianAt darkFrame 0 = 0 from rfl]
    have h : doubleSub ((0 : Nat) : ℚ) 5 = -5 := by
      have := toDouble_intCast (-5) (by norm_num)
      unfold doubleSub
      norm_num at this ⊢
      exact this
    rw [h]
    norm_num
  have e1 : pointAt true [⟨1, 5⟩, ⟨2, 7⟩] darkFrame 1 = ⟨1, -7⟩ := by
    simp only [pointAt]
    rw [subtractBackground_some _ 1 _ ⟨2, 7⟩ rfl, show bigEndianAt darkFrame 1 = 0 from rfl]
    have h : doubleSub ((0 : Nat) : ℚ) 7 = -7 := by
      have := toDouble_intCast (-7) (by norm_num)
      unfold doubleSub
      norm_num at this ⊢
      exact this
    rw [h]
    norm_num
  have e2 : pointAt true [⟨1, 5⟩, ⟨2, 7⟩] darkFrame 2 = ⟨2, 0⟩ := by
    simp only [pointAt]
    rw [subtractBackground_beyond _ _ 2 _ (by simp), show bigEndianAt darkFrame 2 = 0 from rfl]
    norm_num
  rw [e0, e1, e2]

/-- C7. With the inspection range set to pixels 1 to 2, the background captured
from a decoded frame is the two points of pixels 1 and 2 (intensities 5 and 7).
Decoding a dark frame with subtraction enabled then gives -5 at pixel 0, where the
reference has no sample, -7 at pixel 1, where the reference intensity is 5, and 0
at pixel 2, where it is 7: the reference is indexed by position, not by pixel. -/
theorem background_subtracted_by_position :
    (processFrame narrowWindow referenceFrame).bind (fun r =>
      (processFrame { onSetBackgroundClicked (pushFrame r.2 r.1) with showSubtracted := true }
        darkFrame).map
        (fun r2 => ((onSetBackgroundClicked (pushFrame r.2 r.1)).backgroundData, r2.1.take 3)))
      = some ([⟨1, 5⟩, ⟨2, 7⟩], [⟨0, -5⟩, ⟨1, -7⟩, ⟨2, 0⟩]) := by
  obtain ⟨pts, w1, h1, h2⟩ := narrow_background
  have h3 := dark_points
    { onSetBackgroundClicked (pushFrame w1 pts) with showSubtracted := true } rfl h2
  obtain ⟨r, hr, hr3⟩ := Option.map_eq_some'.1 h3
  rw [h1, Option.some_bind]
  refine (congrArg (Option.map _) hr).trans ?_
  simp only [Option.map_some']
  rw [hr3, h2]

/-! ### The control link -/

theorem countWrites_append (a b : List Call) :
    countWrites (a ++ b) = countWrites a + countWrites b := by
  induction a with
  | nil => simp [countWrites]
  | cons c rest ih =>
    cases c <;> simp [countWrites, ih]
    omega

theorem countReads_append (a b : List Call) :
    countReads (a ++ b) = countReads a + countReads b := by
  induction a with
  | nil => simp [countReads]
  | cons c rest ih =>
    cases c <;> simp [countReads, ih]
    omega

theorem trig_onLoop_timeout {σ : Type} (T : Transport σ)
    (hW : ∀ s p, (T.write s p).1 = (true, p.length))
    (hR : ∀ s, ∃ b, (T.read s 1).1 = (true, [b]) ∧ b ≠ 0x74) :
    ∀ fuel s ex0 retries calls, retries < 5 → 5 - retries ≤ fuel →
      ∃ r, trig_onLoop T fuel s ex0 retries calls = some r ∧
        r.outcome = Except.error CommandError.acknowledgmentTimeout ∧
        countWrites r.calls = countWrites calls + (5 - retries) ∧
        countReads r.calls = countReads calls + (5 - retries) := by
  intro fuel
  induction fuel with
  | zero => intro s ex0 retries calls h1 h2; omega
  | succ fuel ih =>
    intro s ex0 retries calls h1 h2
    have hw := hW s [ex0, 0, 0, 0]
    obtain ⟨b, hr, hb⟩ := hR (T.write s [ex0, 0, 0, 0]).2
    by_cases hlast : retries + 1 < 5
    · obtain ⟨r, hr1, hr2, hr3, hr4⟩ := ih (T.read (T.write s [ex0, 0, 0, 0]).2 1).2 b
        (retries + 1) (calls ++ [Call.write [ex0, 0, 0, 0]] ++ [Call.read 1]) hlast (by omega)
      refine ⟨r, ?_, hr2, ?_, ?_⟩
      · rw [trig_onLoop]
        simp [hw, hr, storeRead, hb, maxRetries, hlast]
        simpa using hr1
      · rw [hr3]; simp [countWrites_append, countWrites]; omega
      · rw [hr4]; simp [countReads_append, countReads]; omega
    · have h4 : retries = 4 := by omega
      subst h4
      refine ⟨⟨Except.error CommandError.acknowledgmentTimeout,
        (T.read (T.write s [ex0, 0, 0, 0]).2 1).2,
        calls ++ [Call.write [ex0, 0, 0, 0]] ++ [Call.read 1]⟩, ?_, rfl, ?_, ?_⟩
      · rw [trig_onLoop]
        simp [hw, hr, storeRead, hb, maxRetries]
      · simp [countWrites_append, countWrites]
      · simp [countReads_append, countReads]

theorem set_expLoop_timeout {σ : Type} (T : Transport σ) (exp : Nat)
    (hW : ∀ s p, (T.write s p).1 = (true, p.length))
    (hR : ∀ s, ∃ b, (T.read s 1).1 = (true, [b]) ∧ b ≠ 0x41) :
    ∀ fuel s ex0 retries calls, retries < 5 → 5 - retries ≤ fuel →
      ∃ r, set_expLoop T exp fuel s ex0 retries calls = some r ∧
        r.outcome = Except.error CommandError.acknowledgmentTimeout ∧
        countWrites r.calls = countWrites calls + (5 - retries) ∧
        countReads r.calls = countReads calls + (5 - retries) := by
  intro fuel
  induction fuel with
  | zero => intro s ex0 retries calls h1 h2; omega
  | succ fuel ih =>
    intro s ex0 retries calls h1 h2
    have hw := hW s (exposureBytes exp)
    have hlen : (exposureBytes exp).length = 4 := rfl
    rw [hlen] at hw
    obtain ⟨b, hr, hb⟩ := hR (T.write s (exposureBytes exp)).2
    by_cases hlast : retries + 1 < 5
    · obtain ⟨r, hr1, hr2, hr3, hr4⟩ := ih (T.read (T.write s (exposureBytes exp)).2 1).2 b
        (retries + 1) (calls ++ [Call.write (exposureBytes exp)] ++ [Call.read 1]) hlast (by omega)
      refine ⟨r, ?_, hr2, ?_, ?_⟩
      · rw [set_expLoop]
        simp [hw, hr, storeRead, hb, maxRetries, hlast]
        simpa using hr1
      · rw [hr3]; simp [countWrites_append, countWrites]; omega
      · rw [hr4]; simp [countReads_append, countReads]; omega
    · have h4 : retries = 4 := by omega
      subst h4
      refine ⟨⟨Except.error CommandError.acknowledgmentTimeout,
        (T.read (T.write s (exposureBytes exp)).2 1).2,
        calls ++ [Call.write (exposureBytes exp)] ++ [Call.read 1]⟩, ?_, rfl, ?_, ?_⟩
      · rw [set_expLoop]
        simp [hw, hr, storeRead, hb, maxRetries]
      · simp [countWrites_append, countWrites]
      · simp [countReads_append, countReads]

theorem trig_offLoop_timeout {σ : Type} (T : Transport σ)
    (hW : ∀ s p, (T.write s p).1 = (true, p.length))
    (hR : ∀ s, ∃ b, (T.read s 1).1 = (true, [b]) ∧ b ≠ 0x74 ∧ b ≠ 0x54) :
    ∀ fuel s ex0 retries calls, retries < 5 → 5 - retries ≤ fuel →
      ∃ r, trig_offLoop T fuel s ex0 retries calls = some r ∧
        r.outcome = Except.error CommandError.acknowledgmentTimeout ∧
        countWrites r.calls = countWrites calls + (5 - retries) ∧
        countReads r.calls = countReads calls + (5 - retries) := by
  intro fuel
  induction fuel with
  | zero => intro s ex0 retries calls h1 h2; omega
  | succ fuel ih =>
    intro s ex0 retries calls h1 h2
    have hw := hW (T.purge s).2 [ex0, 0, 0, 0]
    obtain ⟨b, hr, hb, hb2⟩ := hR (T.write (T.purge s).2 [ex0, 0, 0, 0]).2
    by_cases hlast : retries + 1 < 5
    · obtain ⟨r, hr1, hr2, hr3, hr4⟩ :=
        ih (T.read (T.write (T.purge s).2 [ex0, 0, 0, 0]).2 1).2 b
        (retries + 1) (calls ++ [Call.purge, Call.write [ex0, 0, 0, 0]] ++ [Call.read 1])
        hlast (by omega)
      refine ⟨r, ?_, hr2, ?_, ?_⟩
      · rw [trig_offLoop]
        simp [hw, hr, storeRead, hb, hb2, maxRetries, hlast]
        simpa using hr1
      · rw [hr3]; simp [countWrites_append, countWrites]; omega
      · rw [hr4]; simp [countReads_append, countReads]; omega
    · have h4 : retries = 4 := by omega
      subst h4
      refine ⟨⟨Except.error CommandError.acknowledgmentTimeout,
        (T.read (T.write (T.purge s).2 [ex0, 0, 0, 0]).2 1).2,
        calls ++ [Call.purge, Call.write [ex0, 0, 0, 0]] ++ [Call.read 1]⟩, ?_, rfl, ?_, ?_⟩
      · rw [trig_offLoop]
        simp [hw, hr, storeRead, hb, hb2, maxRetries]
      · simp [countWrites_append, countWrites]
      · simp [countReads_append, countReads]

/-- C9. On a transport whose writes all succeed in full, and whose reads all
succeed with one byte outside the accept set of the command, each of `trig_on`,
`trig_off` and `set_exp` makes exactly 5 writes and 5 reads and then fails with
the acknowledgment timeout. -/
theorem commands_time_out_after_five_attempts {σ : Type} (T : Transport σ) (s : σ) (exp : Nat)
    (hW : ∀ s p, (T.write s p).1 = (true, p.length)) :
    ((∀ s, ∃ b, (T.read s 1).1 = (true, [b]) ∧ b ≠ 0x74) →
      ∃ r, trig_on T s = some r ∧
        r.outcome = Except.error CommandError.acknowledgmentTimeout ∧
        countWrites r.calls = 5 ∧ countReads r.calls = 5) ∧
    ((∀ s, ∃ b, (T.read s 1).1 = (true, [b]) ∧ b ≠ 0x74 ∧ b ≠ 0x54) →
      ∀ fuel, 5 ≤ fuel → ∃ r, trig_off T fuel s = some r ∧
        r.outcome = Except.error CommandError.acknowledgmentTimeout ∧
        countWrites r.calls = 5 ∧ countReads r.calls = 5) ∧
    ((∀ s, ∃ b, (T.read s 1).1 = (true, [b]) ∧ b ≠ 0x41) →
      ∃ r, set_exp T exp s = some r ∧
        r.outcome = Except.error CommandError.acknowledgmentTimeout ∧
        countWrites r.calls = 5 ∧ countReads r.calls = 5) := by
  refine ⟨?_, ?_, ?_⟩
  · intro hR
    simpa [countWrites, countReads] using
      trig_onLoop_timeout T hW hR maxRetries s 2 0 [] (by omega) (by simp [maxRetries])
  · intro hR fuel hfuel
    simpa [countWrites, countReads] using
      trig_offLoop_timeout T hW hR fuel s 3 0 [] (by omega) (by omega)
  · intro hR
    simpa [countWrites, countReads] using
      set_expLoop_timeout T exp hW hR maxRetries s 0 0 [] (by omega) (by simp [maxRetries])

/-- C9 at the device whose reads always deliver the byte 0. -/
theorem commands_time_out_on_silent_device :
    (∀ s p, (silentDevice.write s p).1 = (true, p.length)) ∧
    (∃ r, trig_on silentDevice () = some r ∧
      r.outcome = Except.error CommandError.acknowledgmentTimeout ∧
      countWrites r.calls = 5 ∧ countReads r.calls = 5) ∧
    (∃ r, trig_off silentDevice 5 () = some r ∧
      r.outcome = Except.error CommandError.acknowledgmentTimeout ∧
      countWrites r.calls = 5 ∧ countReads r.calls = 5) ∧
    (∃ r, set_exp silentDevice 10000 () = some r ∧
      r.outcome = Except.error CommandError.acknowledgmentTimeout ∧
      countWrites r.calls = 5 ∧ countReads r.calls = 5) :=
  have hW : ∀ s p, (silentDevice.write s p).1 = (true, p.length) := fun _ _ => rfl
  have h := commands_time_out_after_five_attempts silentDevice () 10000 hW
  ⟨hW, h.1 (fun _ => ⟨0, rfl, by decide⟩),
    h.2.1 (fun _ => ⟨0, rfl, by decide, by decide⟩) 5 (le_refl 5),
    h.2.2 (fun _ => ⟨0, rfl, by decide⟩)⟩

theorem trig_offLoop_write_fail :
    ∀ fuel ex0 calls, trig_offLoop writeFailDevice fuel () ex0 0 calls = none := by
  intro fuel
  induction fuel with
  | zero => intro ex0 calls; rfl
  | succ fuel ih =>
    intro ex0 calls
    rw [trig_offLoop]
    simp [writeFailDevice, maxRetries]
    exact ih _ _

theorem trig_offLoop_read_fail :
    ∀ fuel ex0 calls, trig_offLoop readFailDevice fuel () ex0 0 calls = none := by
  intro fuel
  induction fuel with
  | zero => intro ex0 calls; rfl
  | succ fuel ih =>
    intro ex0 calls
    rw [trig_offLoop]
    simp [readFailDevice, maxRetries, storeRead]
    exact ih _ _

/-- C10. On a device whose writes all fail, and on one whose reads all fail,
`trig_off` does not return within any number of loop iterations: the `continue`
of a failed attempt leaves `retries` at 0. -/
theorem trig_off_never_returns_on_io_failure :
    (∀ fuel, trig_off writeFailDevice fuel () = none) ∧
    (∀ fuel, trig_off readFailDevice fuel () = none) :=
  ⟨fun fuel => trig_offLoop_write_fail fuel 3 [], fun fuel => trig_offLoop_read_fail fuel 3 []⟩

/-! ### The properties at concrete inputs -/

theorem garbageThenFrame_length : garbageThenFrame.length = 2090 := by
  simp only [garbageThenFrame, List.length_append, List.length_replicate, List.length_cons,
    List.length_nil]

theorem garbageThenFrame_first (j : Nat) (hj : j < 2) : ¬ syncAt garbageThenFrame j := by
  intro h
  have h0 := h.1
  unfold garbageThenFrame at h0
  rw [List.getElem?_append_left (by simp; omega)] at h0
  interval_cases j
  · exact absurd h0 (by decide)
  · exact absurd h0 (by decide)

theorem noiseBuffer_no_sync (i : Nat) : ¬ syncAt noiseBuffer i := by
  intro h
  have h0 := h.1
  unfold noiseBuffer at h0
  rw [List.getElem?_replicate] at h0
  split_ifs at h0
  exact absurd h0 (by decide)

theorem noiseBuffer_length : noiseBuffer.length = 2088 := by
  simp only [noiseBuffer, List.length_replicate]

theorem darkFrame_size : darkFrame.length = 2088 := darkFrame_length

/-- C1, amended, at two bytes of garbage followed by one frame. -/
theorem decodeFrames_first_sample_after_garbage :
    ({ initialWindow true with dataBuffer := garbageThenFrame } : MainWindow).showSubtracted
      = false ∧
    syncAt garbageThenFrame 2 ∧ (∀ j, j < 2 → ¬ syncAt garbageThenFrame j) ∧
    2 + 2088 ≤ garbageThenFrame.length ∧
    ∃ w1 frame rest p ps,
      decodeFrames { initialWindow true with dataBuffer := garbageThenFrame }
        = some (w1, frame :: rest) ∧
      (updatePlotDecode { initialWindow true with dataBuffer := garbageThenFrame }).map Prod.snd
        = some (frame :: rest) ∧
      frame = p :: ps ∧ p.x = 0 ∧
      p.y = ((256 * (garbageThenFrame.getD (2 + 4) 0).val
        + (garbageThenFrame.getD (2 + 5) 0).val : Nat) : ℚ) :=
  have hk : syncAt garbageThenFrame 2 := syncAt_append_left _ _ 2 (by decide)
  have hlen : 2 + 2088 ≤ garbageThenFrame.length := by rw [garbageThenFrame_length]
  ⟨rfl, hk, garbageThenFrame_first, hlen,
    decodeFrames_first_sample { initialWindow true with dataBuffer := garbageThenFrame } 2 rfl hk
      garbageThenFrame_first hlen⟩

/-- C5, amended, at 2088 bytes `01`. -/
theorem tick_drops_four_bytes_of_ones :
    2088 ≤ ({ initialWindow true with dataBuffer := noiseBuffer } : MainWindow).dataBuffer.length ∧
    (∀ i, ¬ syncAt noiseBuffer i) ∧
    decodeFrames { initialWindow true with dataBuffer := noiseBuffer } =
      some ({ initialWindow true with dataBuffer := noiseBuffer.drop 4 }, []) ∧
    (noiseBuffer.drop 4).length + 4 = noiseBuffer.length :=
  have hlen : 2088 ≤
      ({ initialWindow true with dataBuffer := noiseBuffer } : MainWindow).dataBuffer.length :=
    le_of_eq noiseBuffer_length.symm
  have h := tick_drops_four_bytes_of_noise { initialWindow true with dataBuffer := noiseBuffer }
    hlen noiseBuffer_no_sync
  ⟨hlen, noiseBuffer_no_sync, h.1, h.2.1⟩

/-- C4 at an accumulator that holds a sync marker and nothing else. -/
theorem tick_incomplete_on_lone_marker :
    ({ initialWindow true with dataBuffer := [0, 0, 0, 1] } : MainWindow).dataBuffer.length < 2088 ∧
    updatePlotDecode { initialWindow true with dataBuffer := [0, 0, 0, 1] } =
      some ({ initialWindow true with dataBuffer := [0, 0, 0, 1] }, []) :=
  ⟨by decide, (tick_incomplete_below_frame_size
    { initialWindow true with dataBuffer := [0, 0, 0, 1] } (by decide)).1⟩

/-- C3 at the dark frame. -/
theorem processFrame_decodes_dark_frame :
    darkFrame.length = 2088 ∧ (initialWindow true).showSubtracted = false ∧
    ∃ pts w1, processFrame (initialWindow true) darkFrame = some (pts, w1) ∧ pts.length = 1042 ∧
      (∀ j, j < 1042 →
        pts[j]? = some ⟨(j : ℚ), (bigEndianAt darkFrame j : ℚ)⟩ ∧
          bigEndianAt darkFrame j ≤ 65535) ∧
      pts.Pairwise (fun p q => p.x < q.x) :=
  ⟨darkFrame_size, rfl, processFrame_decodes_big_endian (initialWindow true) darkFrame
    darkFrame_size rfl⟩

/-- C6, amended, at the dark frame and a background of two points. -/
theorem processFrame_subtracts_from_dark_frame :
    darkFrame.length = 2088 ∧ subtractingWindow.showSubtracted = true ∧
    ∃ pts w1, processFrame subtractingWindow darkFrame = some (pts, w1) ∧
      pts.length = 1042 ∧
      ∀ j, j < 1042 →
        (∀ p, subtractingWindow.backgroundData[j]? = some p →
          pts[j]? = some ⟨(j : ℚ), toDouble ((bigEndianAt darkFrame j : ℚ) - p.y)⟩ ∧
          (∀ z : Int, p.y = (z : ℚ) → |z| ≤ 2 ^ 52 →
            pts[j]? = some ⟨(j : ℚ), (bigEndianAt darkFrame j : ℚ) - (z : ℚ)⟩)) ∧
        (subtractingWindow.backgroundData.length ≤ j →
          pts[j]? = some ⟨(j : ℚ), (bigEndianAt darkFrame j : ℚ)⟩) :=
  ⟨darkFrame_size, rfl,
    processFrame_subtracts_by_position subtractingWindow darkFrame darkFrame_size rfl⟩

/-- C8 at the dark frame, decoded by the initial window and by the narrow one. -/
theorem processFrame_dark_frame_not_saturated :
    darkFrame.length = 2088 ∧
    ∃ pts w1 pts2 w3, processFrame (initialWindow true) darkFrame = some (pts, w1) ∧
      processFrame narrowWindow darkFrame = some (pts2, w3) ∧ w1.saturating = w3.saturating ∧
      (w1.saturating = true ↔ ∃ j, j < 1042 ∧ bigEndianAt darkFrame j = 65535) ∧
      (w1.saturating = true ↔
        ∃ j, j < 1042 ∧ darkFrame.getD (4 + 2 * j) 0 = 255 ∧
          darkFrame.getD (5 + 2 * j) 0 = 255) :=
  ⟨darkFrame_size, processFrame_saturation_flag (initialWindow true) narrowWindow darkFrame
    darkFrame_size⟩

/-! ### The opcode written on a retry -/

/-- C11. On the device whose reads always deliver the byte 0, `trig_on` writes
`02 00 00 00` on the first attempt only and `trig_off` writes `03 00 00 00` on the
first attempt only: every retry writes `00 00 00 00`, the acknowledgment byte that
the read before it stored in `ex[0]`, followed by three zero bytes. -/
theorem retries_write_the_acknowledgment :
    (trig_on silentDevice ()).map (fun r => r.calls) =
      some [Call.write [2, 0, 0, 0], Call.read 1, Call.write [0, 0, 0, 0], Call.read 1,
        Call.write [0, 0, 0, 0], Call.read 1, Call.write [0, 0, 0, 0], Call.read 1,
        Call.write [0, 0, 0, 0], Call.read 1] ∧
    (trig_off silentDevice 5 ()).map (fun r => r.calls) =
      some [Call.purge, Call.write [3, 0, 0, 0], Call.read 1,
        Call.purge, Call.write [0, 0, 0, 0], Call.read 1,
        Call.purge, Call.write [0, 0, 0, 0], Call.read 1,
        Call.purge, Call.write [0, 0, 0, 0], Call.read 1,
        Call.purge, Call.write [0, 0, 0, 0], Call.read 1] := by
  constructor <;> rfl

/-! ### The rolling window and the trace store -/

theorem pushFrame_lastTenFrames (w : MainWindow) (pts : List Point) :
    (pushFrame w pts).lastTenFrames =
      (if 10 ≤ w.lastTenFrames.length then w.lastTenFrames.tail else w.lastTenFrames) ++ [pts] := by
  unfold pushFrame updatePlotWithPoints
  dsimp only
  split_ifs <;> rfl

theorem pushFrames_lastTenFrames :
    ∀ (frames : List (List Point)) (w : MainWindow), w.lastTenFrames.length ≤ 10 →
      (pushFrames w frames).lastTenFrames =
        (w.lastTenFrames ++ frames).drop ((w.lastTenFrames ++ frames).length - 10) := by
  intro frames
  induction frames with
  | nil =>
    intro w h
    show w.lastTenFrames = _
    rw [List.append_nil, show w.lastTenFrames.length - 10 = 0 by omega, List.drop_zero]
  | cons f rest ih =>
    intro w h
    have hstep : pushFrames w (f :: rest) = pushFrames (pushFrame w f) rest := rfl
    rw [hstep]
    have hp := pushFrame_lastTenFrames w f
    by_cases h10 : 10 ≤ w.lastTenFrames.length
    · rw [if_pos h10] at hp
      have hlen : w.lastTenFrames.length = 10 := by omega
      obtain ⟨a, t, hw⟩ : ∃ a t, w.lastTenFrames = a :: t := by
        cases hw : w.lastTenFrames with
        | nil => rw [hw] at hlen; simp at hlen
        | cons a t => exact ⟨a, t, rfl⟩
      rw [hw] at hlen hp
      simp only [List.length_cons] at hlen
      simp only [List.tail_cons] at hp
      rw [ih _ (by rw [hp]; simp; omega), hp, hw]
      have e1 : (a :: t) ++ f :: rest = a :: (t ++ [f] ++ rest) := by simp
      have e2 : (a :: (t ++ [f] ++ rest)).length - 10 = ((t ++ [f] ++ rest).length - 10) + 1 := by
        simp; omega
      rw [e1, e2, List.drop_succ_cons]
    · rw [if_neg h10] at hp
      rw [ih _ (by rw [hp]; simp; omega), hp]
      simp

/-- C17. Starting from an empty rolling window, after the frames of a list have
been pushed in order the window holds exactly the last `min n 10` of them, in
push order, so never more than 10; after 11 pushes it holds all but the first. -/
theorem rolling_window_keeps_last_ten (w : MainWindow) (frames : List (List Point))
    (hempty : w.lastTenFrames = []) :
    (pushFrames w frames).lastTenFrames = frames.drop (frames.length - 10) ∧
    (pushFrames w frames).lastTenFrames.length = min frames.length 10 ∧
    (pushFrames w frames).lastTenFrames.length ≤ 10 ∧
    (frames.length = 11 → (pushFrames w frames).lastTenFrames = frames.tail) := by
  have h := pushFrames_lastTenFrames frames w (by rw [hempty]; simp)
  rw [hempty] at h
  simp only [List.nil_append] at h
  rw [h]
  refine ⟨rfl, ?_, ?_, ?_⟩
  · simp; omega
  · simp; omega
  · intro h11
    rw [h11]
    exact List.drop_one _

theorem onStoreTraceClicked_storedTraces (w : MainWindow) (points : List Point)
    (hne : points ≠ []) :
    (onStoreTraceClicked { w with series := points }).storedTraces =
      (if 5 ≤ w.storedTraces.length then w.storedTraces.tail else w.storedTraces)
        ++ [filterPointsByRange w points] ∧
    (onStoreTraceClicked { w with series := points }).currentMinRange = w.currentMinRange ∧
    (onStoreTraceClicked { w with series := points }).currentMaxRange = w.currentMaxRange := by
  have hs : points.isEmpty = false := by
    cases points with
    | nil => exact absurd rfl hne
    | cons a t => rfl
  unfold onStoreTraceClicked
  simp only [hs, Bool.false_eq_true, if_false, MAX_STORED_TRACES]
  split_ifs
  · exact ⟨congrArg (fun x => w.storedTraces.tail ++ [x])
      (filterPointsByRange_congr w _ points rfl rfl), rfl, rfl⟩
  · exact ⟨congrArg (fun x => w.storedTraces ++ [x])
      (filterPointsByRange_congr w _ points rfl rfl), rfl, rfl⟩

theorem storeTraces_storedTraces :
    ∀ (current : List (List Point)) (w : MainWindow), w.storedTraces.length ≤ 5 →
      (∀ points ∈ current, points ≠ []) →
      (storeTraces w current).storedTraces =
        (w.storedTraces ++ current.map (filterPointsByRange w)).drop
          ((w.storedTraces ++ current.map (filterPointsByRange w)).length - 5) := by
  intro current
  induction current with
  | nil =>
    intro w h _
    show w.storedTraces = _
    rw [List.map_nil, List.append_nil, show w.storedTraces.length - 5 = 0 by omega,
      List.drop_zero]
  | cons s rest ih =>
    intro w h hall
    have hstep : storeTraces w (s :: rest) =
        storeTraces (onStoreTraceClicked { w with series := s }) rest := rfl
    rw [hstep]
    obtain ⟨hp, hmin, hmax⟩ := onStoreTraceClicked_storedTraces w s
      (hall s (List.mem_cons_self _ _))
    have hrest : ∀ points ∈ rest, points ≠ [] := fun p hp => hall p (List.mem_cons_of_mem _ hp)
    have hf : (filterPointsByRange (onStoreTraceClicked { w with series := s })) =
        filterPointsByRange w := by
      funext pts
      exact filterPointsByRange_congr w _ pts hmin hmax
    by_cases h5 : 5 ≤ w.storedTraces.length
    · rw [if_pos h5] at hp
      have hlen : w.storedTraces.length = 5 := by omega
      obtain ⟨a, t, hw⟩ : ∃ a t, w.storedTraces = a :: t := by
        cases hw : w.storedTraces with
        | nil => rw [hw] at hlen; simp at hlen
        | cons a t => exact ⟨a, t, rfl⟩
      have htail : w.storedTraces.tail = t := by rw [hw]; rfl
      rw [htail] at hp
      rw [hw] at hlen
      simp only [List.length_cons] at hlen
      rw [ih _ (by rw [hp]; simp; omega) hrest, hf, hp, hw, List.map_cons]
      generalize filterPointsByRange w s = f
      generalize rest.map (filterPointsByRange w) = r
      have e1 : (a :: t) ++ f :: r = a :: (t ++ [f] ++ r) := by simp
      have e2 : (a :: (t ++ [f] ++ r)).length - 5 = ((t ++ [f] ++ r).length - 5) + 1 := by
        simp; omega
      rw [e1, e2, List.drop_succ_cons]
    · rw [if_neg h5] at hp
      rw [ih _ (by rw [hp]; simp; omega) hrest, hp, hf]
      simp

/-- C18. Starting from an empty store, after store requests made on non-empty
series the store holds exactly the last `min n 5` of the stored (range-filtered)
traces, in store order, so never more than 5; after 6 it holds all but the
first. -/
theorem trace_store_keeps_last_five (w : MainWindow) (current : List (List Point))
    (hempty : w.storedTraces = []) (hne : ∀ points ∈ current, points ≠ []) :
    (storeTraces w current).storedTraces =
      (current.map (filterPointsByRange w)).drop (current.length - 5) ∧
    (storeTraces w current).storedTraces.length = min current.length 5 ∧
    (storeTraces w current).storedTraces.length ≤ 5 ∧
    (current.length = 6 → (storeTraces w current).storedTraces =
      (current.map (filterPointsByRange w)).tail) := by
  have h := storeTraces_storedTraces current w (by rw [hempty]; simp) hne
  rw [hempty] at h
  simp only [List.nil_append, List.length_map] at h
  rw [h]
  refine ⟨rfl, ?_, ?_, ?_⟩
  · simp; omega
  · simp; omega
  · intro h6
    rw [h6]
    exact List.drop_one _

/-! ### Peak detection -/

/-- The loop of peak detection either keeps the values it started from, when no
sample exceeds `peakValue`, or ends on the first sample that attains the largest
intensity. -/
theorem peakLoop_spec :
    ∀ (points : List Point) (peakValue : ℚ) (peakPixel : Int),
      (peakLoop points peakValue peakPixel = (peakValue, peakPixel) ∧
        ∀ p ∈ points, p.y ≤ peakValue) ∨
      (∃ before p after, points = before ++ p :: after ∧
        peakLoop points peakValue peakPixel = (p.y, truncateToInt p.x) ∧
        peakValue < p.y ∧ (∀ q ∈ before, q.y < p.y) ∧ ∀ q ∈ after, q.y ≤ p.y) := by
  intro points
  induction points with
  | nil => intro v px; left; exact ⟨rfl, by simp⟩
  | cons a rest ih =>
    intro v px
    by_cases h : a.y > v
    · have hstep : peakLoop (a :: rest) v px = peakLoop rest a.y (truncateToInt a.x) := by
        rw [peakLoop, if_pos h]
      rcases ih a.y (truncateToInt a.x) with ⟨he, hall⟩ | ⟨before, p, after, hsplit, he, hlt, hb, ha⟩
      · right
        exact ⟨[], a, rest, rfl, by rw [hstep, he], h, by simp, hall⟩
      · right
        refine ⟨a :: before, p, after, by rw [hsplit]; rfl, by rw [hstep, he], lt_trans h hlt, ?_, ha⟩
        intro q hq
        rcases List.mem_cons.1 hq with hq | hq
        · rw [hq]; exact hlt
        · exact hb q hq
    · have hstep : peakLoop (a :: rest) v px = peakLoop rest v px := by
        rw [peakLoop, if_neg h]
      have hle : a.y ≤ v := not_lt.1 h
      rcases ih v px with ⟨he, hall⟩ | ⟨before, p, after, hsplit, he, hlt, hb, ha⟩
      · left
        refine ⟨by rw [hstep, he], ?_⟩
        intro q hq
        rcases List.mem_cons.1 hq with hq | hq
        · rw [hq]; exact hle
        · exact hall q hq
      · right
        refine ⟨a :: before, p, after, by rw [hsplit]; rfl, by rw [hstep, he], hlt, ?_, ha⟩
        intro q hq
        rcases List.mem_cons.1 hq with hq | hq
        · rw [hq]; exact lt_of_le_of_lt hle hlt
        · exact hb q hq

/-- When some sample has a positive intensity, the reported peak is the first
sample that attains the largest intensity. -/
theorem detectPeak_of_positive (points : List Point) (hpos : ∃ p ∈ points, 0 < p.y) :
    ∃ before p after, points = before ++ p :: after ∧
      detectPeak points = (p.y, truncateToInt p.x) ∧
      (∀ q ∈ before, q.y < p.y) ∧ ∀ q ∈ after, q.y ≤ p.y := by
  rcases peakLoop_spec points 0 0 with ⟨_, hall⟩ | ⟨before, p, after, hsplit, he, _, hb, ha⟩
  · obtain ⟨p, hp, hlt⟩ := hpos
    exact absurd (hall p hp) (not_le.2 hlt)
  · exact ⟨before, p, after, hsplit, he, hb, ha⟩

/-- C16. For the range-filtered sequence of the two samples (5, -3) and (6, -1), as a
background-subtracted frame gives them, peak detection reports the value 0 at
pixel 0, which is no sample of the sequence; the maximum -1 is at pixel 6. -/
theorem peak_of_negative_trace_is_no_sample :
    detectPeak [⟨5, -3⟩, ⟨6, -1⟩] = (0, 0) := by
  norm_num [detectPeak, peakLoop]

/-! ### The overflow guard -/

theorem replicate_one_no_sync (n i : Nat) : ¬ syncAt (List.replicate n (1 : Byte)) i := by
  intro h
  have h0 := h.1
  rw [List.getElem?_replicate] at h0
  split_ifs at h0
  exact absurd h0 (by decide)

theorem updatePlotDecode_noise_overflow (w : MainWindow)
    (hno : ∀ i, ¬ syncAt w.dataBuffer i) (hlen : 208804 < w.dataBuffer.length) :
    updatePlotDecode w = some ({ w with
      dataBuffer := w.dataBuffer.drop (w.dataBuffer.length - 104400) }, []) := by
  unfold updatePlotDecode
  rw [decodeFrames_noise w (by omega) hno]
  simp only
  unfold truncateBuffer
  have hc : expectedFrameSize * 100 <
      ({ w with dataBuffer := w.dataBuffer.drop 4 } : MainWindow).dataBuffer.length := by
    simp [expectedFrameSize]; omega
  rw [if_pos hc]
  simp only [List.drop_drop, List.length_drop, expectedFrameSize]
  rw [show 4 + (w.dataBuffer.length - 4 - 2088 * 50) = w.dataBuffer.length - 104400 by omega]

/-- C19, amended. For every accumulator of more than 208804 bytes that holds no
sync marker, a tick that reads no new bytes decodes no frame and leaves exactly
the most recent 104400 bytes. -/
theorem tick_truncates_overflowing_noise (w : MainWindow)
    (hno : ∀ i, ¬ syncAt w.dataBuffer i) (hlen : 208804 < w.dataBuffer.length) :
    updatePlotDecode w = some ({ w with
      dataBuffer := w.dataBuffer.drop (w.dataBuffer.length - 104400) }, []) ∧
    (w.dataBuffer.drop (w.dataBuffer.length - 104400)).length = 104400 ∧
    (w.showingAverage = false → updatePlotTick w DataRead.noBytes =
      some { w with dataBuffer := w.dataBuffer.drop (w.dataBuffer.length - 104400) }) := by
  have hd := updatePlotDecode_noise_overflow w hno hlen
  refine ⟨hd, by simp; omega, ?_⟩
  intro hs
  simp [updatePlotTick, hd, hs]

theorem updatePlotTick_noise (w : MainWindow) (hlen : 2088 ≤ w.dataBuffer.length)
    (hle : w.dataBuffer.length ≤ 208804) (hno : ∀ i, ¬ syncAt w.dataBuffer i)
    (hs : w.showingAverage = false) :
    updatePlotTick w DataRead.noBytes = some { w with dataBuffer := w.dataBuffer.drop 4 } := by
  have hdec : updatePlotDecode w = some ({ w with dataBuffer := w.dataBuffer.drop 4 }, []) := by
    unfold updatePlotDecode
    rw [decodeFrames_noise w hlen hno]
    simp only
    rw [truncateBuffer_small _ (by simp; omega)]
  simp [updatePlotTick, hdec, hs]

theorem overflowNoise_length : overflowNoise.length = 208801 := by
  simp only [overflowNoise, List.length_replicate]

/-- C19, counterexample. An accumulator of 208801 bytes `01` holds more than 208800
bytes and no sync marker, and the tick leaves 208797 bytes in it: the loop removes
4 bytes before the guard compares the size with 208800. -/
theorem tick_keeps_noise_just_above_limit :
    208800 < overflowNoise.length ∧ (∀ i, ¬ syncAt overflowNoise i) ∧
    (updatePlotTick { initialWindow true with dataBuffer := overflowNoise }
      DataRead.noBytes).map (fun w => w.dataBuffer.length) = some 208797 := by
  have hlen : ({ initialWindow true with dataBuffer := overflowNoise } :
      MainWindow).dataBuffer.length = 208801 := overflowNoise_length
  have h := updatePlotTick_noise { initialWindow true with dataBuffer := overflowNoise }
    (by rw [hlen]; omega) (by rw [hlen]; omega) (replicate_one_no_sync 208801) rfl
  refine ⟨by rw [overflowNoise_length]; omega, replicate_one_no_sync 208801, ?_⟩
  rw [h]
  simp only [Option.map_some', List.length_drop, overflowNoise_length]

theorem pushFrame_showingAverage (w : MainWindow) (pts : List Point) :
    (pushFrame w pts).showingAverage = w.showingAverage := by
  unfold pushFrame updatePlotWithPoints
  dsimp only
  split_ifs <;> rfl

theorem processFrame_dataBuffer (w w1 : MainWindow) (frame : List Byte) (pts : List Point)
    (h : processFrame w frame = some (pts, w1)) : w1.dataBuffer = w.dataBuffer := by
  unfold processFrame at h
  split at h
  · cases h
  · simp only [Option.some.injEq, Prod.mk.injEq] at h
    obtain ⟨_, h2⟩ := h
    subst h2
    unfold updateSaturationIndicator
    split_ifs <;> rfl

/-- The loop of `updatePlot` only removes bytes from the front of the accumulator
and leaves the view mode alone. -/
theorem updatePlotLoop_suffix :
    ∀ fuel (w : MainWindow) (m : Nat) (frames : List (List Point)),
      w.dataBuffer.length + m < fuel →
      ∃ w1 more, updatePlotLoop fuel w m frames = some (w1, frames ++ more) ∧
        w1.dataBuffer <:+ w.dataBuffer ∧ w1.showingAverage = w.showingAverage := by
  intro fuel
  induction fuel with
  | zero => intro w m frames h; omega
  | succ fuel ih =>
    intro w m frames hfuel
    by_cases h : expectedFrameSize ≤ w.dataBuffer.length ∧ 0 < m
    · have hlen : 2088 ≤ w.dataBuffer.length := h.1
      rcases findFrameStart_cases w.dataBuffer with ⟨he, _⟩ | ⟨k, he, _, _⟩
      · exact ⟨{ w with dataBuffer := w.dataBuffer.drop 4 }, [],
          by rw [updatePlotLoop_nosync fuel w m frames h he]; simp,
          List.drop_suffix 4 w.dataBuffer, rfl⟩
      · rcases Nat.eq_zero_or_pos k with hk | hk
        · subst hk
          obtain ⟨pts, w2, hp, _, hbuf, _, _⟩ :=
            processFrame_take { w with dataBuffer := w.dataBuffer.drop expectedFrameSize }
              w.dataBuffer hlen
          have hav := (processFrame_fields _ _ _ _ hp).1
          have hstep := updatePlotLoop_frame fuel w m frames pts w2 h (by simpa using he) hp
          have hl : (pushFrame w2 pts).dataBuffer.length + (m - 1) < fuel := by
            rw [pushFrame_dataBuffer, hbuf]
            simp [expectedFrameSize]
            omega
          obtain ⟨w1, more, hrec, hsuf, hsa⟩ := ih _ (m - 1) (frames ++ [pts]) hl
          refine ⟨w1, pts :: more, ?_, ?_, ?_⟩
          · rw [hstep, hrec]; simp
          · rw [pushFrame_dataBuffer, hbuf] at hsuf
            exact hsuf.trans (List.drop_suffix _ _)
          · rw [hsa, pushFrame_showingAverage, hav]
        · have hstep := updatePlotLoop_skip fuel w m frames k h he hk
          have hl : ({ w with dataBuffer := w.dataBuffer.drop k } : MainWindow).dataBuffer.length
              + m < fuel := by
            simp
            omega
          obtain ⟨w1, more, hrec, hsuf, hsa⟩ := ih _ m frames hl
          exact ⟨w1, more, by rw [hstep, hrec], hsuf.trans (List.drop_suffix _ _), hsa⟩
    · exact ⟨w, [], by rw [updatePlotLoop_stop fuel w m frames h]; simp,
        List.suffix_refl _, rfl⟩

theorem drop_of_suffix (l b : List Byte) (n : Nat) (h : l <:+ b) (hn : n ≤ l.length) :
    l.drop (l.length - n) = b.drop (b.length - n) := by
  obtain ⟨p, rfl⟩ := h
  rw [List.length_append, show p.length + l.length - n = p.length + (l.length - n) by omega,
    List.drop_append]

theorem truncateBuffer_big (w : MainWindow) (h : 208800 < w.dataBuffer.length) :
    truncateBuffer w =
      { w with dataBuffer := w.dataBuffer.drop (w.dataBuffer.length - 104400) } := by
  unfold truncateBuffer
  simp only [expectedFrameSize, Nat.reduceMul]
  rw [if_pos h]

theorem truncateBuffer_big_dataBuffer (w : MainWindow) (h : 208800 < w.dataBuffer.length) :
    (truncateBuffer w).dataBuffer = w.dataBuffer.drop (w.dataBuffer.length - 104400) := by
  rw [truncateBuffer_big w h]

/-- C20. For every accumulator and every bytes read, the decoding loop and the
overflow guard of the tick return, with an accumulator of at most 208800 bytes
that is a suffix of the old accumulator followed by the bytes read; when the guard
fires (the loop left more than 208800 bytes) the result is exactly the most
recent 104400 bytes, otherwise what the loop left; the tick ends with that same
accumulator, and a tick without bytes read is the tick with no bytes appended. -/
theorem tick_bounds_accumulator (w : MainWindow) (bytes : List Byte) :
    ∃ w0 w1 frames,
      decodeFrames { w with dataBuffer := w.dataBuffer ++ bytes } = some (w0, frames) ∧
      updatePlotDecode { w with dataBuffer := w.dataBuffer ++ bytes } = some (w1, frames) ∧
      w1.dataBuffer.length ≤ 208800 ∧ w1.dataBuffer <:+ w.dataBuffer ++ bytes ∧
      (208800 < w0.dataBuffer.length → w1.dataBuffer =
        (w.dataBuffer ++ bytes).drop ((w.dataBuffer ++ bytes).length - 104400)) ∧
      (w0.dataBuffer.length ≤ 208800 → w1 = w0) ∧
      (∀ w2, updatePlotTick w (DataRead.ok bytes) = some w2 → w2.dataBuffer = w1.dataBuffer) ∧
      (w.showingAverage = false → updatePlotTick w (DataRead.ok bytes) = some w1) ∧
      updatePlotTick w DataRead.noBytes = updatePlotTick w (DataRead.ok []) := by
  obtain ⟨w0, more, hloop, hsuf, hsa⟩ := updatePlotLoop_suffix
    (({ w with dataBuffer := w.dataBuffer ++ bytes } : MainWindow).dataBuffer.length + 11)
    { w with dataBuffer := w.dataBuffer ++ bytes } 10 [] (by omega)
  have hdec : decodeFrames { w with dataBuffer := w.dataBuffer ++ bytes } = some (w0, more) := by
    unfold decodeFrames
    rw [hloop]; rfl
  have hupd : updatePlotDecode { w with dataBuffer := w.dataBuffer ++ bytes } =
      some (truncateBuffer w0, more) := by
    unfold updatePlotDecode
    rw [hdec]
  have hsuf0 : w0.dataBuffer <:+ w.dataBuffer ++ bytes := hsuf
  have htsa : (truncateBuffer w0).showingAverage = w.showingAverage := by
    unfold truncateBuffer
    split_ifs
    · exact hsa
    · exact hsa
  refine ⟨w0, truncateBuffer w0, more, hdec, hupd, ?_, ?_, ?_, ?_, ?_, ?_, ?_⟩
  · by_cases hc : 208800 < w0.dataBuffer.length
    · rw [truncateBuffer_big_dataBuffer w0 hc, List.length_drop]
      omega
    · rw [truncateBuffer_small w0 (by omega)]
      omega
  · by_cases hc : 208800 < w0.dataBuffer.length
    · rw [truncateBuffer_big_dataBuffer w0 hc]
      exact (List.drop_suffix _ _).trans hsuf0
    · rw [truncateBuffer_small w0 (by omega)]
      exact hsuf0
  · intro hbig
    rw [truncateBuffer_big_dataBuffer w0 hbig]
    exact drop_of_suffix _ _ 104400 hsuf0 (by omega)
  · intro hsmall
    exact truncateBuffer_small w0 hsmall
  · intro w2 h2
    unfold updatePlotTick at h2
    simp only [hupd] at h2
    split_ifs at h2
    · exact (updateAveragePlot_frame _ _ h2).1
    · cases h2; rfl
  · intro hs
    unfold updatePlotTick
    simp only [hupd]
    rw [if_neg (by rw [htsa, hs]; simp)]
  · unfold updatePlotTick
    simp only [List.append_nil]

/-! ### Acknowledgments and failures of the commands -/

theorem replay_append {σ : Type} (T : Transport σ) :
    ∀ (a b : List Call) (s0 : σ),
      replay T s0 (a ++ b) =
        ((replay T (replay T s0 a).1 b).1,
          (replay T s0 a).2 ++ (replay T (replay T s0 a).1 b).2) := by
  intro a
  induction a with
  | nil => intro b s0; simp [replay]
  | cons c rest ih =>
    intro b s0
    cases c <;> simp [replay, ih]

theorem acknowledgments_append (a b : List Reply) :
    acknowledgments (a ++ b) = acknowledgments a ++ acknowledgments b := by
  induction a with
  | nil => simp [acknowledgments]
  | cons c rest ih =>
    cases c <;> simp [acknowledgments, ih]

/-- The invariant of the retry loops while every attempt so far went through
without an accepted acknowledgment. -/
theorem attempt_extends {σ : Type} (T : Transport σ) (accept : Byte → Prop) (s0 s : σ)
    (calls more : List Call) (b : Byte) (retries : Nat)
    (hst : (replay T s0 calls).1 = s)
    (hack : (acknowledgments (replay T s0 calls).2).length = retries)
    (hmore : acknowledgments (replay T s more).2 = [b])
    (hw : countWrites calls = retries) (hr : countReads calls = retries)
    (hcw : countWrites more = 1) (hcr : countReads more = 1)
    (hrej : ∀ c ∈ acknowledgments (replay T s0 calls).2, ¬ accept c) :
    (replay T s0 (calls ++ more)).1 = (replay T s more).1 ∧
    acknowledgments (replay T s0 (calls ++ more)).2 =
      acknowledgments (replay T s0 calls).2 ++ [b] ∧
    (acknowledgments (replay T s0 (calls ++ more)).2).length = retries + 1 ∧
    countWrites (calls ++ more) = retries + 1 ∧ countReads (calls ++ more) = retries + 1 ∧
    (¬ accept b → ∀ c ∈ acknowledgments (replay T s0 (calls ++ more)).2, ¬ accept c) ∧
    (∀ i c, (acknowledgments (replay T s0 (calls ++ more)).2)[i]? = some c → accept c →
      i + 1 = retries + 1) := by
  have h2 : acknowledgments (replay T s0 (calls ++ more)).2 =
      acknowledgments (replay T s0 calls).2 ++ [b] := by
    rw [replay_append, acknowledgments_append, hst, hmore]
  refine ⟨by rw [replay_append, hst], h2, by rw [h2]; simp [hack],
    by rw [countWrites_append, hw, hcw], by rw [countReads_append, hr, hcr], ?_, ?_⟩
  · intro hb c hc
    rw [h2] at hc
    rcases List.mem_append.1 hc with h | h
    · exact hrej c h
    · rw [List.mem_singleton.1 h]; exact hb
  · intro i c hi hc
    rw [h2] at hi
    by_cases hlt : i < (acknowledgments (replay T s0 calls).2).length
    · rw [List.getElem?_append_left hlt] at hi
      exact absurd hc (hrej c (List.getElem?_mem hi))
    · have hge : (acknowledgments (replay T s0 calls).2).length ≤ i := by omega
      rw [List.getElem?_append_right hge] at hi
      have : i - (acknowledgments (replay T s0 calls).2).length = 0 := by
        by_contra hne
        rw [List.getElem?_eq_none (by simp; omega)] at hi
        cases hi
      omega

theorem trig_onLoop_acks {σ : Type} (T : Transport σ) (s0 : σ)
    (hW : ∀ s p, (T.write s p).1 = (true, p.length))
    (hR : ∀ s, ∃ b, (T.read s 1).1 = (true, [b])) :
    ∀ fuel s ex0 retries calls, (replay T s0 calls).1 = s →
      (acknowledgments (replay T s0 calls).2).length = retries →
      countWrites calls = retries → countReads calls = retries →
      (∀ c ∈ acknowledgments (replay T s0 calls).2, ¬ c = 0x74) →
      retries < 5 → 5 - retries ≤ fuel →
      ∃ r, trig_onLoop T fuel s ex0 retries calls = some r ∧
        stopsAtFirstAccepted T s0 (fun b => b = 0x74) r := by
  intro fuel
  induction fuel with
  | zero => intro s ex0 retries calls _ _ _ _ _ h1 h2; omega
  | succ fuel ih =>
    intro s ex0 retries calls hst hack hcw hcr hrej hlt hfuel
    have hw := hW s [ex0, 0, 0, 0]
    obtain ⟨b, hr⟩ := hR (T.write s [ex0, 0, 0, 0]).2
    have hmore : acknowledgments (replay T s [Call.write [ex0, 0, 0, 0], Call.read 1]).2 = [b] := by
      simp [replay, acknowledgments, hr]
    obtain ⟨e1, e2, e3, e4, e5, e6, e7⟩ := attempt_extends T (fun b => b = 0x74) s0 s calls
      [Call.write [ex0, 0, 0, 0], Call.read 1] b retries hst hack hmore hcw hcr rfl rfl hrej
    have hcalls : calls ++ [Call.write [ex0, 0, 0, 0]] ++ [Call.read 1] =
        calls ++ [Call.write [ex0, 0, 0, 0], Call.read 1] := by simp
    by_cases hb : b = 0x74
    · refine ⟨⟨Except.ok (), (T.read (T.write s [ex0, 0, 0, 0]).2 1).2,
        calls ++ [Call.write [ex0, 0, 0, 0], Call.read 1]⟩, ?_, ?_⟩
      · rw [trig_onLoop]
        simp [hw, hr, storeRead, hb]
      · refine ⟨by rw [e3, e4], by rw [e5, e4], by rw [e4]; omega, by rw [e4]; omega, ?_, ?_,
          Or.inl rfl⟩
        · constructor
          · intro _
            exact ⟨b, by rw [e2]; simp, hb⟩
          · intro _; rfl
        · intro i c hi hc
          rw [e4]
          exact e7 i c hi hc
    · by_cases hlast : retries + 1 < 5
      · obtain ⟨r, hr1, hr2⟩ := ih (T.read (T.write s [ex0, 0, 0, 0]).2 1).2 b (retries + 1)
          (calls ++ [Call.write [ex0, 0, 0, 0], Call.read 1])
          (by rw [e1]; simp [replay]) e3 e4 e5 (e6 hb) hlast (by omega)
        refine ⟨r, ?_, hr2⟩
        rw [trig_onLoop]
        simp [hw, hr, storeRead, hb, maxRetries, hlast]
        exact hr1
      · have h4 : retries = 4 := by omega
        subst h4
        refine ⟨⟨Except.error CommandError.acknowledgmentTimeout,
          (T.read (T.write s [ex0, 0, 0, 0]).2 1).2,
          calls ++ [Call.write [ex0, 0, 0, 0], Call.read 1]⟩, ?_, ?_⟩
        · rw [trig_onLoop]
          simp [hw, hr, storeRead, hb, maxRetries]
        · refine ⟨by rw [e3, e4], by rw [e5, e4], by rw [e4]; omega, by rw [e4], ?_, ?_,
            Or.inr ⟨rfl, e4⟩⟩
          · constructor
            · intro h; cases h
            · rintro ⟨c, hc, hcc⟩
              exact absurd hcc (e6 hb c hc)
          · intro i c hi hc
            rw [e4]
            exact e7 i c hi hc

theorem set_expLoop_acks {σ : Type} (T : Transport σ) (exp : Nat) (s0 : σ)
    (hW : ∀ s p, (T.write s p).1 = (true, p.length))
    (hR : ∀ s, ∃ b, (T.read s 1).1 = (true, [b])) :
    ∀ fuel s ex0 retries calls, (replay T s0 calls).1 = s →
      (acknowledgments (replay T s0 calls).2).length = retries →
      countWrites calls = retries → countReads calls = retries →
      (∀ c ∈ acknowledgments (replay T s0 calls).2, ¬ c = 0x41) →
      retries < 5 → 5 - retries ≤ fuel →
      ∃ r, set_expLoop T exp fuel s ex0 retries calls = some r ∧
        stopsAtFirstAccepted T s0 (fun b => b = 0x41) r := by
  intro fuel
  induction fuel with
  | zero => intro s ex0 retries calls _ _ _ _ _ h1 h2; omega
  | succ fuel ih =>
    intro s ex0 retries calls hst hack hcw hcr hrej hlt hfuel
    have hw := hW s (exposureBytes exp)
    rw [show (exposureBytes exp).length = 4 from rfl] at hw
    obtain ⟨b, hr⟩ := hR (T.write s (exposureBytes exp)).2
    have hmore : acknowledgments (replay T s [Call.write (exposureBytes exp), Call.read 1]).2 = [b] := by
      simp [replay, acknowledgments, hr]
    obtain ⟨e1, e2, e3, e4, e5, e6, e7⟩ := attempt_extends T (fun b => b = 0x41) s0 s calls
      [Call.write (exposureBytes exp), Call.read 1] b retries hst hack hmore hcw hcr rfl rfl hrej
    have hcalls : calls ++ [Call.write (exposureBytes exp)] ++ [Call.read 1] =
        calls ++ [Call.write (exposureBytes exp), Call.read 1] := by simp
    by_cases hb : b = 0x41
    · refine ⟨⟨Except.ok (), (T.read (T.write s (exposureBytes exp)).2 1).2,
        calls ++ [Call.write (exposureBytes exp), Call.read 1]⟩, ?_, ?_⟩
      · rw [set_expLoop]
        simp [hw, hr, storeRead, hb]
      · refine ⟨by rw [e3, e4], by rw [e5, e4], by rw [e4]; omega, by rw [e4]; omega, ?_, ?_,
          Or.inl rfl⟩
        · constructor
          · intro _
            exact ⟨b, by rw [e2]; simp, hb⟩
          · intro _; rfl
        · intro i c hi hc
          rw [e4]
          exact e7 i c hi hc
    · by_cases hlast : retries + 1 < 5
      · obtain ⟨r, hr1, hr2⟩ := ih (T.read (T.write s (exposureBytes exp)).2 1).2 b (retries + 1)
          (calls ++ [Call.write (exposureBytes exp), Call.read 1])
          (by rw [e1]; simp [replay]) e3 e4 e5 (e6 hb) hlast (by omega)
        refine ⟨r, ?_, hr2⟩
        rw [set_expLoop]
        simp [hw, hr, storeRead, hb, maxRetries, hlast]
        exact hr1
      · have h4 : retries = 4 := by omega
        subst h4
        refine ⟨⟨Except.error CommandError.acknowledgmentTimeout,
          (T.read (T.write s (exposureBytes exp)).2 1).2,
          calls ++ [Call.write (exposureBytes exp), Call.read 1]⟩, ?_, ?_⟩
        · rw [set_expLoop]
          simp [hw, hr, storeRead, hb, maxRetries]
        · refine ⟨by rw [e3, e4], by rw [e5, e4], by rw [e4]; omega, by rw [e4], ?_, ?_,
            Or.inr ⟨rfl, e4⟩⟩
          · constructor
            · intro h; cases h
            · rintro ⟨c, hc, hcc⟩
              exact absurd hcc (e6 hb c hc)
          · intro i c hi hc
            rw [e4]
            exact e7 i c hi hc

theorem trig_offLoop_acks {σ : Type} (T : Transport σ) (s0 : σ)
    (hW : ∀ s p, (T.write s p).1 = (true, p.length))
    (hR : ∀ s, ∃ b, (T.read s 1).1 = (true, [b])) :
    ∀ fuel s ex0 retries calls, (replay T s0 calls).1 = s →
      (acknowledgments (replay T s0 calls).2).length = retries →
      countWrites calls = retries → countReads calls = retries →
      (∀ c ∈ acknowledgments (replay T s0 calls).2, ¬ (c = 0x74 ∨ c = 0x54)) →
      retries < 5 → 5 - retries ≤ fuel →
      ∃ r, trig_offLoop T fuel s ex0 retries calls = some r ∧
        stopsAtFirstAccepted T s0 (fun b => b = 0x74 ∨ b = 0x54) r := by
  intro fuel
  induction fuel with
  | zero => intro s ex0 retries calls _ _ _ _ _ h1 h2; omega
  | succ fuel ih =>
    intro s ex0 retries calls hst hack hcw hcr hrej hlt hfuel
    have hw := hW (T.purge s).2 [ex0, 0, 0, 0]
    obtain ⟨b, hr⟩ := hR (T.write (T.purge s).2 [ex0, 0, 0, 0]).2
    have hmore : acknowledgments (replay T s [Call.purge, Call.write [ex0, 0, 0, 0], Call.read 1]).2 = [b] := by
      simp [replay, acknowledgments, hr]
    obtain ⟨e1, e2, e3, e4, e5, e6, e7⟩ := attempt_extends T (fun b => b = 0x74 ∨ b = 0x54) s0 s calls
      [Call.purge, Call.write [ex0, 0, 0, 0], Call.read 1] b retries hst hack hmore hcw hcr rfl rfl hrej
    have hcalls : calls ++ [Call.purge, Call.write [ex0, 0, 0, 0]] ++ [Call.read 1] =
        calls ++ [Call.purge, Call.write [ex0, 0, 0, 0], Call.read 1] := by simp
    have hcond : (b = 0x74 ∨ b = 0x54 ∨ b = 0x74) ↔ (b = 0x74 ∨ b = 0x54) := by tauto
    by_cases hb : b = 0x74 ∨ b = 0x54
    · refine ⟨⟨Except.ok (), (T.read (T.write (T.purge s).2 [ex0, 0, 0, 0]).2 1).2,
        calls ++ [Call.purge, Call.write [ex0, 0, 0, 0], Call.read 1]⟩, ?_, ?_⟩
      · rw [trig_offLoop]
        simp [hw, hr, storeRead, hcond, hb]
      · refine ⟨by rw [e3, e4], by rw [e5, e4], by rw [e4]; omega, by rw [e4]; omega, ?_, ?_,
          Or.inl rfl⟩
        · constructor
          · intro _
            exact ⟨b, by rw [e2]; simp, hb⟩
          · intro _; rfl
        · intro i c hi hc
          rw [e4]
          exact e7 i c hi hc
    · by_cases hlast : retries + 1 < 5
      · obtain ⟨r, hr1, hr2⟩ := ih (T.read (T.write (T.purge s).2 [ex0, 0, 0, 0]).2 1).2 b (retries + 1)
          (calls ++ [Call.purge, Call.write [ex0, 0, 0, 0], Call.read 1])
          (by rw [e1]; simp [replay]) e3 e4 e5 (e6 hb) hlast (by omega)
        refine ⟨r, ?_, hr2⟩
        rw [trig_offLoop]
        simp [hw, hr, storeRead, hcond, hb, maxRetries, hlast]
        exact hr1
      · have h4 : retries = 4 := by omega
        subst h4
        refine ⟨⟨Except.error CommandError.acknowledgmentTimeout,
          (T.read (T.write (T.purge s).2 [ex0, 0, 0, 0]).2 1).2,
          calls ++ [Call.purge, Call.write [ex0, 0, 0, 0], Call.read 1]⟩, ?_, ?_⟩
        · rw [trig_offLoop]
          simp [hw, hr, storeRead, hcond, hb, maxRetries]
        · refine ⟨by rw [e3, e4], by rw [e5, e4], by rw [e4]; omega, by rw [e4], ?_, ?_,
            Or.inr ⟨rfl, e4⟩⟩
          · constructor
            · intro h; cases h
            · rintro ⟨c, hc, hcc⟩
              exact absurd hcc (e6 hb c hc)
          · intro i c hi hc
            rw [e4]
            exact e7 i c hi hc

/-- Replies that all went through, followed by further replies of which only the
last may have failed. -/
theorem replies_extend (old more : List Reply)
    (hold : ∀ reply ∈ old, reply.isFailedWrite = false ∧ reply.isFailedRead = false)
    (hmore : ∀ i reply, more[i]? = some reply → i + 1 < more.length →
      reply.isFailedWrite = false ∧ reply.isFailedRead = false) :
    ∀ i reply, (old ++ more)[i]? = some reply → i + 1 < (old ++ more).length →
      reply.isFailedWrite = false ∧ reply.isFailedRead = false := by
  intro i reply hi hlt
  by_cases h : i < old.length
  · rw [List.getElem?_append_left h] at hi
    exact hold reply (List.getElem?_mem hi)
  · have hge : old.length ≤ i := by omega
    rw [List.getElem?_append_right hge] at hi
    rw [List.length_append] at hlt
    exact hmore _ reply hi (by omega)

theorem endsAtFirstFailure_of {σ : Type} (T : Transport σ) (s0 : σ) (r : CommandRun σ)
    (old more : List Reply) (last : Reply)
    (hrep : (replay T s0 r.calls).2 = old ++ more)
    (hold : ∀ reply ∈ old, reply.isFailedWrite = false ∧ reply.isFailedRead = false)
    (hmore : ∀ i reply, more[i]? = some reply → i + 1 < more.length →
      reply.isFailedWrite = false ∧ reply.isFailedRead = false)
    (hlast : more.getLast? = some last)
    (h1 : 1 ≤ countWrites r.calls) (h5 : countWrites r.calls ≤ 5)
    (hw : r.outcome = Except.error CommandError.commandWriteFailed ↔ last.isFailedWrite = true)
    (hr : r.outcome = Except.error CommandError.commandReadFailed ↔ last.isFailedRead = true) :
    endsAtFirstFailure T s0 r := by
  have hl : (old ++ more).getLast? = some last := by
    rw [List.getLast?_append, hlast]; rfl
  unfold endsAtFirstFailure
  rw [hrep, hl]
  refine ⟨h1, h5, replies_extend old more hold hmore, ?_, ?_⟩
  · rw [hw]
    constructor
    · intro h; exact ⟨last, rfl, h⟩
    · rintro ⟨reply, e, h⟩
      cases e; exact h
  · rw [hr]
    constructor
    · intro h; exact ⟨last, rfl, h⟩
    · rintro ⟨reply, e, h⟩
      cases e; exact h

theorem trig_onLoop_failures {σ : Type} (T : Transport σ) (s0 : σ) :
    ∀ fuel s ex0 retries calls, (replay T s0 calls).1 = s →
      (∀ reply ∈ (replay T s0 calls).2,
        reply.isFailedWrite = false ∧ reply.isFailedRead = false) →
      countWrites calls = retries → retries < 5 → 5 - retries ≤ fuel →
      ∃ r, trig_onLoop T fuel s ex0 retries calls = some r ∧ endsAtFirstFailure T s0 r := by
  intro fuel
  induction fuel with
  | zero => intro s ex0 retries calls _ _ _ h1 h2; omega
  | succ fuel ih =>
    intro s ex0 retries calls hst hold hcw hlt hfuel
    by_cases hwf : (T.write s [ex0, 0, 0, 0]).1.1 = false ∨ (T.write s [ex0, 0, 0, 0]).1.2 ≠ 4
    · have hrep : (replay T s0 (calls ++ [Call.write [ex0, 0, 0, 0]])).2 =
          (replay T s0 calls).2 ++ [Reply.wrote (T.write s [ex0, 0, 0, 0]).1.1
            (T.write s [ex0, 0, 0, 0]).1.2] := by
        rw [replay_append, hst]; simp [replay]
      have hfail : (Reply.wrote (T.write s [ex0, 0, 0, 0]).1.1
          (T.write s [ex0, 0, 0, 0]).1.2).isFailedWrite = true := by
        rcases hwf with h | h <;> simp [Reply.isFailedWrite, h]
      refine ⟨⟨Except.error CommandError.commandWriteFailed, (T.write s [ex0, 0, 0, 0]).2,
        calls ++ [Call.write [ex0, 0, 0, 0]]⟩, ?_, ?_⟩
      · rw [trig_onLoop]
        simp only [if_pos hwf]
      · exact endsAtFirstFailure_of T s0 _ _ _ _ hrep hold
          (by intro i reply _ h; simp at h) rfl
          (by simp [countWrites_append, countWrites])
          (by simp [countWrites_append, countWrites]; omega)
          (by simp [hfail]) (by simp [Reply.isFailedRead])
    · have hwok : (Reply.wrote (T.write s [ex0, 0, 0, 0]).1.1
          (T.write s [ex0, 0, 0, 0]).1.2).isFailedWrite = false := by
        simp only [not_or, Bool.not_eq_false, not_not] at hwf
        simp [Reply.isFailedWrite, hwf.1, hwf.2]
      have hrep : (replay T s0 (calls ++ [Call.write [ex0, 0, 0, 0], Call.read 1])).2 =
          (replay T s0 calls).2 ++ [Reply.wrote (T.write s [ex0, 0, 0, 0]).1.1
            (T.write s [ex0, 0, 0, 0]).1.2,
            Reply.received (T.read (T.write s [ex0, 0, 0, 0]).2 1).1.1
              (T.read (T.write s [ex0, 0, 0, 0]).2 1).1.2] := by
        rw [replay_append, hst]; simp [replay]
      have hst2 : (replay T s0 (calls ++ [Call.write [ex0, 0, 0, 0], Call.read 1])).1 =
          (T.read (T.write s [ex0, 0, 0, 0]).2 1).2 := by
        rw [replay_append, hst]; simp [replay]
      have hmore : ∀ i reply, [Reply.wrote (T.write s [ex0, 0, 0, 0]).1.1
            (T.write s [ex0, 0, 0, 0]).1.2,
            Reply.received (T.read (T.write s [ex0, 0, 0, 0]).2 1).1.1
              (T.read (T.write s [ex0, 0, 0, 0]).2 1).1.2][i]? = some reply →
          i + 1 < [Reply.wrote (T.write s [ex0, 0, 0, 0]).1.1
            (T.write s [ex0, 0, 0, 0]).1.2,
            Reply.received (T.read (T.write s [ex0, 0, 0, 0]).2 1).1.1
              (T.read (T.write s [ex0, 0, 0, 0]).2 1).1.2].length →
          reply.isFailedWrite = false ∧ reply.isFailedRead = false := by
        intro i reply hi hlen
        have hi0 : i = 0 := by simp at hlen; omega
        subst hi0
        simp only [List.getElem?_cons_zero, Option.some.injEq] at hi
        subst hi
        exact ⟨hwok, rfl⟩
      have hcw2 : countWrites (calls ++ [Call.write [ex0, 0, 0, 0], Call.read 1]) = retries + 1 := by
        simp [countWrites_append, countWrites, hcw]
      by_cases hrf : (T.read (T.write s [ex0, 0, 0, 0]).2 1).1.1 = false ∨
          (T.read (T.write s [ex0, 0, 0, 0]).2 1).1.2.length ≠ 1
      · have hfail : (Reply.received (T.read (T.write s [ex0, 0, 0, 0]).2 1).1.1
            (T.read (T.write s [ex0, 0, 0, 0]).2 1).1.2).isFailedRead = true := by
          rcases hrf with h | h <;> simp [Reply.isFailedRead, h]
        refine ⟨⟨Except.error CommandError.commandReadFailed,
          (T.read (T.write s [ex0, 0, 0, 0]).2 1).2,
          calls ++ [Call.write [ex0, 0, 0, 0], Call.read 1]⟩, ?_, ?_⟩
        · rw [trig_onLoop]
          simp only [if_neg hwf, if_pos hrf]
          simp
        · exact endsAtFirstFailure_of T s0 _ _ _ _ hrep hold hmore rfl
            (by show 1 ≤ countWrites _; rw [hcw2]; omega)
            (by show countWrites _ ≤ 5; rw [hcw2]; omega)
            (by simp [Reply.isFailedWrite]) (by simp [hfail])
      · have hrok : (Reply.received (T.read (T.write s [ex0, 0, 0, 0]).2 1).1.1
            (T.read (T.write s [ex0, 0, 0, 0]).2 1).1.2).isFailedRead = false := by
          simp only [not_or, Bool.not_eq_false, not_not] at hrf
          simp [Reply.isFailedRead, hrf.1, hrf.2]
        by_cases hgo : storeRead ex0 (T.read (T.write s [ex0, 0, 0, 0]).2 1).1.2 ≠ 0x74 ∧
            retries + 1 < maxRetries
        · have hold2 : ∀ reply ∈ (replay T s0
              (calls ++ [Call.write [ex0, 0, 0, 0], Call.read 1])).2,
              reply.isFailedWrite = false ∧ reply.isFailedRead = false := by
            intro reply hmem
            rw [hrep] at hmem
            rcases List.mem_append.1 hmem with h | h
            · exact hold reply h
            · simp only [List.mem_cons, List.mem_singleton, List.not_mem_nil, or_false] at h
              rcases h with h | h
              · rw [h]; exact ⟨hwok, rfl⟩
              · rw [h]; exact ⟨rfl, hrok⟩
          obtain ⟨r, hr1, hr2⟩ := ih (T.read (T.write s [ex0, 0, 0, 0]).2 1).2
            (storeRead ex0 (T.read (T.write s [ex0, 0, 0, 0]).2 1).1.2) (retries + 1)
            (calls ++ [Call.write [ex0, 0, 0, 0], Call.read 1]) hst2 hold2 hcw2
            (by have := hgo.2; simp [maxRetries] at this; omega) (by omega)
          refine ⟨r, ?_, hr2⟩
          rw [trig_onLoop]
          simp only [if_neg hwf, if_neg hrf, if_pos hgo]
          simpa using hr1
        · obtain ⟨out, hout, hne1, hne2⟩ : ∃ out : Except CommandError Unit,
              trig_onLoop T (fuel + 1) s ex0 retries calls =
                some ⟨out, (T.read (T.write s [ex0, 0, 0, 0]).2 1).2,
                  calls ++ [Call.write [ex0, 0, 0, 0], Call.read 1]⟩ ∧
              out ≠ Except.error CommandError.commandWriteFailed ∧
              out ≠ Except.error CommandError.commandReadFailed := by
            by_cases hacc : storeRead ex0 (T.read (T.write s [ex0, 0, 0, 0]).2 1).1.2 ≠ 0x74
            · refine ⟨Except.error CommandError.acknowledgmentTimeout, ?_, by simp, by simp⟩
              rw [trig_onLoop]
              simp only [if_neg hwf, if_neg hrf, if_neg hgo, if_pos hacc]
              simp
            · refine ⟨Except.ok (), ?_, by simp, by simp⟩
              rw [trig_onLoop]
              simp only [if_neg hwf, if_neg hrf, if_neg hgo, if_neg hacc]
              simp
          refine ⟨_, hout, ?_⟩
          exact endsAtFirstFailure_of T s0 _ _ _ _ hrep hold hmore rfl
            (by show 1 ≤ countWrites _; rw [hcw2]; omega)
            (by show countWrites _ ≤ 5; rw [hcw2]; omega)
            (by simp [Reply.isFailedWrite, hne1]) (by simp [hrok, hne2])

theorem set_expLoop_succ {σ : Type} (T : Transport σ) (exp : Nat) (fuel : Nat) (s : σ)
    (ex0 : Byte) (retries : Nat) (calls : List Call) :
    set_expLoop T exp (fuel + 1) s ex0 retries calls =
      if (T.write s (exposureBytes exp)).1.1 = false ∨ (T.write s (exposureBytes exp)).1.2 ≠ 4 then
        some ⟨Except.error CommandError.commandWriteFailed, (T.write s (exposureBytes exp)).2,
          calls ++ [Call.write (exposureBytes exp)]⟩
      else if (T.read (T.write s (exposureBytes exp)).2 1).1.1 = false ∨
          (T.read (T.write s (exposureBytes exp)).2 1).1.2.length ≠ 1 then
        some ⟨Except.error CommandError.commandReadFailed,
          (T.read (T.write s (exposureBytes exp)).2 1).2,
          calls ++ [Call.write (exposureBytes exp)] ++ [Call.read 1]⟩
      else if storeRead ex0 (T.read (T.write s (exposureBytes exp)).2 1).1.2 ≠ 0x41 ∧
          retries + 1 < maxRetries then
        set_expLoop T exp fuel (T.read (T.write s (exposureBytes exp)).2 1).2
          (storeRead ex0 (T.read (T.write s (exposureBytes exp)).2 1).1.2) (retries + 1)
          (calls ++ [Call.write (exposureBytes exp)] ++ [Call.read 1])
      else if storeRead ex0 (T.read (T.write s (exposureBytes exp)).2 1).1.2 ≠ 0x41 then
        some ⟨Except.error CommandError.acknowledgmentTimeout,
          (T.read (T.write s (exposureBytes exp)).2 1).2,
          calls ++ [Call.write (exposureBytes exp)] ++ [Call.read 1]⟩
      else some ⟨Except.ok (), (T.read (T.write s (exposureBytes exp)).2 1).2,
          calls ++ [Call.write (exposureBytes exp)] ++ [Call.read 1]⟩ := by
  rw [set_expLoop]
  by_cases h1 : (T.write s (exposureBytes exp)).1.1 = false
  · simp [h1]
  · by_cases h2 : (T.write s (exposureBytes exp)).1.2 ≠ 4
    · simp [h1, h2]
    · by_cases h3 : (T.read (T.write s (exposureBytes exp)).2 1).1.1 = false
      · simp [h1, h2, h3]
      · by_cases h4 : (T.read (T.write s (exposureBytes exp)).2 1).1.2.length ≠ 1
        · simp [h1, h2, h3, h4]
        · simp [h1, h2, h3, h4]

theorem set_expLoop_failures {σ : Type} (T : Transport σ) (exp : Nat) (s0 : σ) :
    ∀ fuel s ex0 retries calls, (replay T s0 calls).1 = s →
      (∀ reply ∈ (replay T s0 calls).2,
        reply.isFailedWrite = false ∧ reply.isFailedRead = false) →
      countWrites calls = retries → retries < 5 → 5 - retries ≤ fuel →
      ∃ r, set_expLoop T exp fuel s ex0 retries calls = some r ∧ endsAtFirstFailure T s0 r := by
  intro fuel
  induction fuel with
  | zero => intro s ex0 retries calls _ _ _ h1 h2; omega
  | succ fuel ih =>
    intro s ex0 retries calls hst hold hcw hlt hfuel
    by_cases hwf : (T.write s (exposureBytes exp)).1.1 = false ∨ (T.write s (exposureBytes exp)).1.2 ≠ 4
    · have hrep : (replay T s0 (calls ++ [Call.write (exposureBytes exp)])).2 =
          (replay T s0 calls).2 ++ [Reply.wrote (T.write s (exposureBytes exp)).1.1
            (T.write s (exposureBytes exp)).1.2] := by
        rw [replay_append, hst]; simp [replay]
      have hfail : (Reply.wrote (T.write s (exposureBytes exp)).1.1
          (T.write s (exposureBytes exp)).1.2).isFailedWrite = true := by
        rcases hwf with h | h <;> simp [Reply.isFailedWrite, h]
      refine ⟨⟨Except.error CommandError.commandWriteFailed, (T.write s (exposureBytes exp)).2,
        calls ++ [Call.write (exposureBytes exp)]⟩, ?_, ?_⟩
      · rw [set_expLoop_succ]
        simp only [if_pos hwf]
      · exact endsAtFirstFailure_of T s0 _ _ _ _ hrep hold
          (by intro i reply _ h; simp at h) rfl
          (by simp [countWrites_append, countWrites])
          (by simp [countWrites_append, countWrites]; omega)
          (by simp [hfail]) (by simp [Reply.isFailedRead])
    · have hwok : (Reply.wrote (T.write s (exposureBytes exp)).1.1
          (T.write s (exposureBytes exp)).1.2).isFailedWrite = false := by
        simp only [not_or, Bool.not_eq_false, not_not] at hwf
        simp [Reply.isFailedWrite, hwf.1, hwf.2]
      have hrep : (replay T s0 (calls ++ [Call.write (exposureBytes exp), Call.read 1])).2 =
          (replay T s0 calls).2 ++ [Reply.wrote (T.write s (exposureBytes exp)).1.1
            (T.write s (exposureBytes exp)).1.2,
            Reply.received (T.read (T.write s (exposureBytes exp)).2 1).1.1
              (T.read (T.write s (exposureBytes exp)).2 1).1.2] := by
        rw [replay_append, hst]; simp [replay]
      have hst2 : (replay T s0 (calls ++ [Call.write (exposureBytes exp), Call.read 1])).1 =
          (T.read (T.write s (exposureBytes exp)).2 1).2 := by
        rw [replay_append, hst]; simp [replay]
      have hmore : ∀ i reply, [Reply.wrote (T.write s (exposureBytes exp)).1.1
            (T.write s (exposureBytes exp)).1.2,
            Reply.received (T.read (T.write s (exposureBytes exp)).2 1).1.1
              (T.read (T.write s (exposureBytes exp)).2 1).1.2][i]? = some reply →
          i + 1 < [Reply.wrote (T.write s (exposureBytes exp)).1.1
            (T.write s (exposureBytes exp)).1.2,
            Reply.received (T.read (T.write s (exposureBytes exp)).2 1).1.1
              (T.read (T.write s (exposureBytes exp)).2 1).1.2].length →
          reply.isFailedWrite = false ∧ reply.isFailedRead = false := by
        intro i reply hi hlen
        have hi0 : i = 0 := by simp at hlen; omega
        subst hi0
        simp only [List.getElem?_cons_zero, Option.some.injEq] at hi
        subst hi
        exact ⟨hwok, rfl⟩
      have hcw2 : countWrites (calls ++ [Call.write (exposureBytes exp), Call.read 1]) = retries + 1 := by
        simp [countWrites_append, countWrites, hcw]
      by_cases hrf : (T.read (T.write s (exposureBytes exp)).2 1).1.1 = false ∨
          (T.read (T.write s (exposureBytes exp)).2 1).1.2.length ≠ 1
      · have hfail : (Reply.received (T.read (T.write s (exposureBytes exp)).2 1).1.1
            (T.read (T.write s (exposureBytes exp)).2 1).1.2).isFailedRead = true := by
          rcases hrf with h | h <;> simp [Reply.isFailedRead, h]
        refine ⟨⟨Except.error CommandError.commandReadFailed,
          (T.read (T.write s (exposureBytes exp)).2 1).2,
          calls ++ [Call.write (exposureBytes exp), Call.read 1]⟩, ?_, ?_⟩
        · rw [set_expLoop_succ]
          simp only [if_neg hwf, if_pos hrf]
          simp
        · exact endsAtFirstFailure_of T s0 _ _ _ _ hrep hold hmore rfl
            (by show 1 ≤ countWrites _; rw [hcw2]; omega)
            (by show countWrites _ ≤ 5; rw [hcw2]; omega)
            (by simp [Reply.isFailedWrite]) (by simp [hfail])
      · have hrok : (Reply.received (T.read (T.write s (exposureBytes exp)).2 1).1.1
            (T.read (T.write s (exposureBytes exp)).2 1).1.2).isFailedRead = false := by
          simp only [not_or, Bool.not_eq_false, not_not] at hrf
          simp [Reply.isFailedRead, hrf.1, hrf.2]
        by_cases hgo : storeRead ex0 (T.read (T.write s (exposureBytes exp)).2 1).1.2 ≠ 0x41 ∧
            retries + 1 < maxRetries
        · have hold2 : ∀ reply ∈ (replay T s0
              (calls ++ [Call.write (exposureBytes exp), Call.read 1])).2,
              reply.isFailedWrite = false ∧ reply.isFailedRead = false := by
            intro reply hmem
            rw [hrep] at hmem
            rcases List.mem_append.1 hmem with h | h
            · exact hold reply h
            · simp only [List.mem_cons, List.mem_singleton, List.not_mem_nil, or_false] at h
              rcases h with h | h
              · rw [h]; exact ⟨hwok, rfl⟩
              · rw [h]; exact ⟨rfl, hrok⟩
          obtain ⟨r, hr1, hr2⟩ := ih (T.read (T.write s (exposureBytes exp)).2 1).2
            (storeRead ex0 (T.read (T.write s (exposureBytes exp)).2 1).1.2) (retries + 1)
            (calls ++ [Call.write (exposureBytes exp), Call.read 1]) hst2 hold2 hcw2
            (by have := hgo.2; simp [maxRetries] at this; omega) (by omega)
          refine ⟨r, ?_, hr2⟩
          rw [set_expLoop_succ]
          simp only [if_neg hwf, if_neg hrf, if_pos hgo]
          simpa using hr1
        · obtain ⟨out, hout, hne1, hne2⟩ : ∃ out : Except CommandError Unit,
              set_expLoop T exp (fuel + 1) s ex0 retries calls =
                some ⟨out, (T.read (T.write s (exposureBytes exp)).2 1).2,
                  calls ++ [Call.write (exposureBytes exp), Call.read 1]⟩ ∧
              out ≠ Except.error CommandError.commandWriteFailed ∧
              out ≠ Except.error CommandError.commandReadFailed := by
            by_cases hacc : storeRead ex0 (T.read (T.write s (exposureBytes exp)).2 1).1.2 ≠ 0x41
            · refine ⟨Except.error CommandError.acknowledgmentTimeout, ?_, by simp, by simp⟩
              rw [set_expLoop_succ]
              simp only [if_neg hwf, if_neg hrf, if_neg hgo, if_pos hacc]
              simp
            · refine ⟨Except.ok (), ?_, by simp, by simp⟩
              rw [set_expLoop_succ]
              simp only [if_neg hwf, if_neg hrf, if_neg hgo, if_neg hacc]
              simp
          refine ⟨_, hout, ?_⟩
          exact endsAtFirstFailure_of T s0 _ _ _ _ hrep hold hmore rfl
            (by show 1 ≤ countWrites _; rw [hcw2]; omega)
            (by show countWrites _ ≤ 5; rw [hcw2]; omega)
            (by simp [Reply.isFailedWrite, hne1]) (by simp [hrok, hne2])

/-! ### The commands on every transport, and further concrete inputs -/

/-- C12. On a transport whose writes all succeed in full and whose reads all
deliver one byte, each command returns after 1 to 5 attempts (as many writes as
reads as acknowledgment bytes), succeeds exactly when one of those bytes lies in
its accept set, and has made no attempt after the first such byte; otherwise it
fails with the acknowledgment timeout after 5 attempts. The accept set is `'A'`
for `set_exp`, `'t'` for `trig_on`, and `'t'` or `'T'` for `trig_off`. -/
theorem commands_stop_at_first_accepted {σ : Type} (T : Transport σ) (s : σ) (exp : Nat)
    (hW : ∀ s p, (T.write s p).1 = (true, p.length))
    (hR : ∀ s, ∃ b, (T.read s 1).1 = (true, [b])) :
    (∃ r, set_exp T exp s = some r ∧ stopsAtFirstAccepted T s (fun b => b = 0x41) r) ∧
    (∃ r, trig_on T s = some r ∧ stopsAtFirstAccepted T s (fun b => b = 0x74) r) ∧
    (∀ fuel, 5 ≤ fuel → ∃ r, trig_off T fuel s = some r ∧
      stopsAtFirstAccepted T s (fun b => b = 0x74 ∨ b = 0x54) r) := by
  refine ⟨?_, ?_, ?_⟩
  · exact set_expLoop_acks T exp s hW hR maxRetries s 0 0 [] rfl rfl rfl rfl
      (by intro c hc; simp [replay, acknowledgments] at hc) (by omega) (by simp [maxRetries])
  · exact trig_onLoop_acks T s hW hR maxRetries s 2 0 [] rfl rfl rfl rfl
      (by intro c hc; simp [replay, acknowledgments] at hc) (by omega) (by simp [maxRetries])
  · intro fuel hfuel
    exact trig_offLoop_acks T s hW hR fuel s 3 0 [] rfl rfl rfl rfl
      (by intro c hc; simp [replay, acknowledgments] at hc) (by omega) (by omega)

/-- C12 at the device that always answers `'T'`: `trig_on` rejects it five times,
`trig_off` accepts it at once. -/
theorem commands_on_upper_case_device :
    (∀ s p, (upperCaseDevice.write s p).1 = (true, p.length)) ∧
    (∀ s, ∃ b, (upperCaseDevice.read s 1).1 = (true, [b])) ∧
    (∃ r, set_exp upperCaseDevice 10000 () = some r ∧
      stopsAtFirstAccepted upperCaseDevice () (fun b => b = 0x41) r) ∧
    (∃ r, trig_on upperCaseDevice () = some r ∧
      stopsAtFirstAccepted upperCaseDevice () (fun b => b = 0x74) r) ∧
    (∀ fuel, 5 ≤ fuel → ∃ r, trig_off upperCaseDevice fuel () = some r ∧
      stopsAtFirstAccepted upperCaseDevice () (fun b => b = 0x74 ∨ b = 0x54) r) ∧
    (trig_on upperCaseDevice ()).map (fun r => (r.outcome, countWrites r.calls)) =
      some (Except.error CommandError.acknowledgmentTimeout, 5) ∧
    (trig_off upperCaseDevice 5 ()).map (fun r => (r.outcome, countWrites r.calls)) =
      some (Except.ok (), 1) :=
  have hW : ∀ s p, (upperCaseDevice.write s p).1 = (true, p.length) := fun _ _ => rfl
  have hR : ∀ s, ∃ b, (upperCaseDevice.read s 1).1 = (true, [b]) := fun _ => ⟨0x54, rfl⟩
  have h := commands_stop_at_first_accepted upperCaseDevice () 10000 hW hR
  ⟨hW, hR, h.1, h.2.1, h.2.2, rfl, rfl⟩

/-- C17 at eleven frames pushed into the initial window. -/
theorem rolling_window_after_eleven_pushes :
    (initialWindow true).lastTenFrames = [] ∧
    (pushFrames (initialWindow true) elevenFrames).lastTenFrames =
      elevenFrames.drop (elevenFrames.length - 10) ∧
    (pushFrames (initialWindow true) elevenFrames).lastTenFrames.length =
      min elevenFrames.length 10 ∧
    (pushFrames (initialWindow true) elevenFrames).lastTenFrames.length ≤ 10 ∧
    (elevenFrames.length = 11 →
      (pushFrames (initialWindow true) elevenFrames).lastTenFrames = elevenFrames.tail) :=
  ⟨rfl, rolling_window_keeps_last_ten (initialWindow true) elevenFrames rfl⟩

theorem sixTraces_nonempty : ∀ points ∈ sixTraces, points ≠ [] := by
  intro points h
  simp only [sixTraces, List.mem_map] at h
  obtain ⟨i, _, rfl⟩ := h
  simp

/-- C18 at six traces stored from the initial window. -/
theorem trace_store_after_six_traces :
    (initialWindow true).storedTraces = [] ∧ (∀ points ∈ sixTraces, points ≠ []) ∧
    (storeTraces (initialWindow true) sixTraces).storedTraces =
      (sixTraces.map (filterPointsByRange (initialWindow true))).drop (sixTraces.length - 5) ∧
    (storeTraces (initialWindow true) sixTraces).storedTraces.length = min sixTraces.length 5 ∧
    (storeTraces (initialWindow true) sixTraces).storedTraces.length ≤ 5 ∧
    (sixTraces.length = 6 → (storeTraces (initialWindow true) sixTraces).storedTraces =
      (sixTraces.map (filterPointsByRange (initialWindow true))).tail) :=
  ⟨rfl, sixTraces_nonempty,
    trace_store_keeps_last_five (initialWindow true) sixTraces rfl sixTraces_nonempty⟩

theorem deepNoise_length : deepNoise.length = 208805 := by
  simp only [deepNoise, List.length_replicate]

/-- C19, amended, at an accumulator of 208805 bytes `01`. -/
theorem tick_truncates_deep_noise :
    (∀ i, ¬ syncAt deepNoiseWindow.dataBuffer i) ∧ 208804 < deepNoiseWindow.dataBuffer.length ∧
    updatePlotDecode deepNoiseWindow = some ({ deepNoiseWindow with
      dataBuffer := deepNoiseWindow.dataBuffer.drop
        (deepNoiseWindow.dataBuffer.length - 104400) }, []) ∧
    (deepNoiseWindow.dataBuffer.drop (deepNoiseWindow.dataBuffer.length - 104400)).length
      = 104400 :=
  have hno : ∀ i, ¬ syncAt deepNoiseWindow.dataBuffer i := replicate_one_no_sync 208805
  have hlen : 208804 < deepNoiseWindow.dataBuffer.length := by
    show 208804 < deepNoise.length
    rw [deepNoise_length]; omega
  have h := tick_truncates_overflowing_noise deepNoiseWindow hno hlen
  ⟨hno, hlen, h.1, h.2.1⟩

/-! ### The frames of one tick -/

theorem pointAt_pixels (sub : Bool) (bg : List Point) (frame : List Byte) (n : Nat) :
    ((List.range n).map (pointAt sub bg frame)).map Point.x
      = (List.range n).map (fun j : Nat => (j : ℚ)) := by
  rw [List.map_map]
  apply List.map_congr_left
  intro j _
  rfl

theorem wellFormedFrame_decoded (sub : Bool) (bg : List Point) (frame : List Byte) :
    wellFormedFrame ((List.range 1042).map (pointAt sub bg frame)) :=
  pointAt_pixels sub bg frame 1042

theorem wellFormedFrame_length (frame : List Point) (h : wellFormedFrame frame) :
    frame.length = 1042 := by
  unfold wellFormedFrame at h
  have := congrArg List.length h
  rw [List.length_map, List.length_map, List.length_range] at this
  exact this

/-- What `processFrame` does to the recording: the decoded frame is appended when
`isRecording` holds. -/
theorem processFrame_recording (w w1 : MainWindow) (frame : List Byte) (pts : List Point)
    (h : processFrame w frame = some (pts, w1)) :
    w1.isRecording = w.isRecording ∧
      w1.allFramesData = w.allFramesData ++ (if w.isRecording then [pts] else []) := by
  unfold processFrame at h
  split at h
  · cases h
  · simp only [Option.some.injEq, Prod.mk.injEq] at h
    obtain ⟨h1, h2⟩ := h
    subst h1 h2
    unfold updateSaturationIndicator
    split_ifs with hr
    · exact ⟨rfl, rfl⟩
    · exact ⟨rfl, by simp⟩

theorem pushFrame_recording (w : MainWindow) (pts : List Point) :
    (pushFrame w pts).isRecording = w.isRecording ∧
      (pushFrame w pts).allFramesData = w.allFramesData ∧
      (pushFrame w pts).showSubtracted = w.showSubtracted ∧
      (pushFrame w pts).backgroundData = w.backgroundData := by
  unfold pushFrame updatePlotWithPoints
  dsimp only
  split_ifs <;> exact ⟨rfl, rfl, rfl, rfl⟩

theorem pushFrames_congr :
    ∀ (frames : List (List Point)) (w v : MainWindow), w.lastTenFrames = v.lastTenFrames →
      (pushFrames w frames).lastTenFrames = (pushFrames v frames).lastTenFrames := by
  intro frames
  induction frames with
  | nil => intro w v h; exact h
  | cons f rest ih =>
    intro w v h
    show (pushFrames (pushFrame w f) rest).lastTenFrames
      = (pushFrames (pushFrame v f) rest).lastTenFrames
    apply ih
    rw [pushFrame_lastTenFrames, pushFrame_lastTenFrames, h]

/-- What the loop of `updatePlot` has done when it leaves: it has decoded at most
`maxFramesToProcess` frames, pushed each into the rolling window and, when recording,
appended each to the recording; with fewer frames than allowed, the accumulator it
leaves is shorter than a frame or holds no sync marker. -/
theorem updatePlotLoop_frames :
    ∀ fuel (w : MainWindow) (m : Nat) (frames : List (List Point)),
      w.dataBuffer.length + m < fuel →
      ∃ w1 more, updatePlotLoop fuel w m frames = some (w1, frames ++ more) ∧
        more.length ≤ m ∧
        (more.length < m →
          w1.dataBuffer.length < expectedFrameSize ∨ ∀ i, ¬ syncAt w1.dataBuffer i) ∧
        w1.lastTenFrames = (pushFrames w more).lastTenFrames ∧
        (∀ f ∈ more, wellFormedFrame f) ∧
        w1.isRecording = w.isRecording ∧
        w1.allFramesData = w.allFramesData ++ (if w.isRecording then more else []) := by
  intro fuel
  induction fuel with
  | zero => intro w m frames h; omega
  | succ fuel ih =>
    intro w m frames hfuel
    by_cases h : expectedFrameSize ≤ w.dataBuffer.length ∧ 0 < m
    · have hlen : 2088 ≤ w.dataBuffer.length := h.1
      rcases findFrameStart_cases w.dataBuffer with ⟨he, hno⟩ | ⟨k, he, _, _⟩
      · refine ⟨{ w with dataBuffer := w.dataBuffer.drop 4 }, [],
          by rw [updatePlotLoop_nosync fuel w m frames h he]; simp, by simp, ?_, rfl,
          by simp, rfl, by simp⟩
        intro _
        right
        intro i hi
        exact hno (4 + i) ((syncAt_drop w.dataBuffer 4 i).1 hi)
      · rcases Nat.eq_zero_or_pos k with hk | hk
        · subst hk
          obtain ⟨pts, w2, hp, hpts, hbuf, _, _⟩ :=
            processFrame_take { w with dataBuffer := w.dataBuffer.drop expectedFrameSize }
              w.dataBuffer hlen
          have hfld := (processFrame_fields _ _ _ _ hp).2.2.2.2
          have hrec2 := processFrame_recording _ _ _ _ hp
          have hpr := pushFrame_recording w2 pts
          have hstep := updatePlotLoop_frame fuel w m frames pts w2 h (by simpa using he) hp
          have hl : (pushFrame w2 pts).dataBuffer.length + (m - 1) < fuel := by
            rw [pushFrame_dataBuffer, hbuf]
            simp [expectedFrameSize]
            omega
          obtain ⟨w1, more, hrec, hcount, hearly, hwin, hwf, hisr, hall⟩ :=
            ih _ (m - 1) (frames ++ [pts]) hl
          refine ⟨w1, pts :: more, ?_, ?_, ?_, ?_, ?_, ?_, ?_⟩
          · rw [hstep, hrec]; simp
          · simp only [List.length_cons]; omega
          · intro hlt
            simp only [List.length_cons] at hlt
            exact hearly (by omega)
          · rw [hwin]
            show _ = (pushFrames (pushFrame w pts) more).lastTenFrames
            apply pushFrames_congr
            rw [pushFrame_lastTenFrames, pushFrame_lastTenFrames, hfld]
          · intro f hf
            rcases List.mem_cons.1 hf with rfl | hf
            · rw [hpts]; exact wellFormedFrame_decoded _ _ _
            · exact hwf f hf
          · rw [hisr, hpr.1, hrec2.1]
          · rw [hall, hpr.1, hpr.2.1, hrec2.1, hrec2.2]
            show w.allFramesData ++ (if w.isRecording = true then [pts] else []) ++ _ = _
            cases w.isRecording <;> simp
        · have hstep := updatePlotLoop_skip fuel w m frames k h he hk
          have hl : ({ w with dataBuffer := w.dataBuffer.drop k } : MainWindow).dataBuffer.length
              + m < fuel := by
            simp
            omega
          obtain ⟨w1, more, hrec, hcount, hearly, hwin, hwf, hisr, hall⟩ := ih _ m frames hl
          exact ⟨w1, more, by rw [hstep, hrec], hcount, hearly,
            hwin.trans (pushFrames_congr more _ w rfl), hwf, hisr, hall⟩
    · refine ⟨w, [], by rw [updatePlotLoop_stop fuel w m frames h]; simp, by simp, ?_, rfl,
        by simp, rfl, by simp⟩
      intro hlt
      simp only [List.length_nil] at hlt
      left
      by_contra hc
      exact h ⟨by omega, hlt⟩

/-- C21. For every window, the decoding loop of one tick returns with at most 10
frames decoded; the rolling window it leaves is the one that pushing these frames
in order gives, and the recording has grown by exactly these frames when
`isRecording` holds and is unchanged otherwise. When fewer than 10 frames were
decoded, the accumulator it leaves is shorter than 2088 bytes or holds no sync
marker at any offset. -/
theorem tick_decodes_at_most_ten (w : MainWindow) :
    ∃ w1 frames, decodeFrames w = some (w1, frames) ∧ frames.length ≤ 10 ∧
      (frames.length < 10 →
        w1.dataBuffer.length < expectedFrameSize ∨ ∀ i, ¬ syncAt w1.dataBuffer i) ∧
      w1.lastTenFrames = (pushFrames w frames).lastTenFrames ∧
      w1.allFramesData = w.allFramesData ++ (if w.isRecording then frames else []) := by
  obtain ⟨w1, more, hrec, hcount, hearly, hwin, _, _, hall⟩ :=
    updatePlotLoop_frames (w.dataBuffer.length + 11) w 10 [] (by omega)
  exact ⟨w1, more, by simpa [decodeFrames] using hrec, hcount, hearly, hwin, hall⟩

/-! ### Termination of the decoding loop -/

/-- The loop of `updatePlot` leaves within as many evaluations of its condition as
the accumulator has bytes, plus `maxFramesToProcess`. -/
theorem updatePlotLoop_returns :
    ∀ fuel (w : MainWindow) (m : Nat) (frames : List (List Point)),
      0 < fuel → w.dataBuffer.length + m ≤ fuel + 2087 →
      ∃ r, updatePlotLoop fuel w m frames = some r := by
  intro fuel
  induction fuel with
  | zero => intro w m frames h; omega
  | succ fuel ih =>
    intro w m frames _ hfuel
    by_cases h : expectedFrameSize ≤ w.dataBuffer.length ∧ 0 < m
    · have hlen : 2088 ≤ w.dataBuffer.length := h.1
      have hm : 0 < m := h.2
      rcases findFrameStart_cases w.dataBuffer with ⟨he, _⟩ | ⟨k, he, _, _⟩
      · exact ⟨_, updatePlotLoop_nosync fuel w m frames h he⟩
      · rcases Nat.eq_zero_or_pos k with hk | hk
        · subst hk
          obtain ⟨pts, w2, hp, _, hbuf, _, _⟩ :=
            processFrame_take { w with dataBuffer := w.dataBuffer.drop expectedFrameSize }
              w.dataBuffer hlen
          have hstep := updatePlotLoop_frame fuel w m frames pts w2 h (by simpa using he) hp
          have hl : (pushFrame w2 pts).dataBuffer.length + (m - 1) ≤ fuel + 2087 := by
            rw [pushFrame_dataBuffer, hbuf]
            simp [expectedFrameSize]
            omega
          obtain ⟨r, hr⟩ := ih _ (m - 1) (frames ++ [pts]) (by omega) hl
          exact ⟨r, by rw [hstep, hr]⟩
        · have hstep := updatePlotLoop_skip fuel w m frames k h he hk
          have hl : ({ w with dataBuffer := w.dataBuffer.drop k } : MainWindow).dataBuffer.length
              + m ≤ fuel + 2087 := by
            simp
            omega
          obtain ⟨r, hr⟩ := ih _ m frames (by omega) hl
          exact ⟨r, by rw [hstep, hr]⟩
    · exact ⟨_, updatePlotLoop_stop fuel w m frames h⟩

/-- One iteration of the loop of `updatePlot`: it leaves the loop, or goes on with
fewer bytes, or goes on with 2088 bytes fewer and the counter lowered by one. -/
theorem updatePlotLoop_step (fuel : Nat) (w : MainWindow) (m : Nat)
    (frames : List (List Point)) :
    (∃ w1, updatePlotLoop (fuel + 1) w m frames = some (w1, frames)) ∨
    (∃ w1, w1.dataBuffer.length < w.dataBuffer.length ∧
      updatePlotLoop (fuel + 1) w m frames = updatePlotLoop fuel w1 m frames) ∨
    (∃ w1 pts, w1.dataBuffer.length + expectedFrameSize = w.dataBuffer.length ∧ 0 < m ∧
      updatePlotLoop (fuel + 1) w m frames =
        updatePlotLoop fuel w1 (m - 1) (frames ++ [pts])) := by
  by_cases h : expectedFrameSize ≤ w.dataBuffer.length ∧ 0 < m
  · have hlen : 2088 ≤ w.dataBuffer.length := h.1
    rcases findFrameStart_cases w.dataBuffer with ⟨he, _⟩ | ⟨k, he, _, _⟩
    · exact Or.inl ⟨_, updatePlotLoop_nosync fuel w m frames h he⟩
    · rcases Nat.eq_zero_or_pos k with hk | hk
      · subst hk
        obtain ⟨pts, w2, hp, _, hbuf, _, _⟩ :=
          processFrame_take { w with dataBuffer := w.dataBuffer.drop expectedFrameSize }
            w.dataBuffer hlen
        refine Or.inr (Or.inr ⟨pushFrame w2 pts, pts, ?_, h.2,
          updatePlotLoop_frame fuel w m frames pts w2 h (by simpa using he) hp⟩)
        rw [pushFrame_dataBuffer, hbuf]
        simp [expectedFrameSize]
        omega
      · refine Or.inr (Or.inl ⟨{ w with dataBuffer := w.dataBuffer.drop k }, ?_,
          updatePlotLoop_skip fuel w m frames k h he hk⟩)
        simp
        omega
  · exact Or.inl ⟨w, updatePlotLoop_stop fuel w m frames h⟩

/-- C29. The loop of `updatePlot` terminates: started with any accumulator and any
value `m` of `maxFramesToProcess`, it returns as soon as it is allowed `size + m`
iterations (and at least one), that is `size + 10` for the tick; and each
iteration either leaves the loop with the frames decoded so far, or goes on with a
strictly shorter accumulator and the same counter, or goes on with an accumulator
2088 bytes shorter, the counter lowered by one and one more frame. -/
theorem decoding_loop_terminates (fuel : Nat) (w : MainWindow) (m : Nat)
    (frames : List (List Point)) :
    (w.dataBuffer.length + m ≤ fuel + 1 →
      ∃ r, updatePlotLoop (fuel + 1) w m frames = some r) ∧
    ((∃ w1, updatePlotLoop (fuel + 1) w m frames = some (w1, frames)) ∨
     (∃ w1, w1.dataBuffer.length < w.dataBuffer.length ∧
       updatePlotLoop (fuel + 1) w m frames = updatePlotLoop fuel w1 m frames) ∨
     (∃ w1 pts, w1.dataBuffer.length + expectedFrameSize = w.dataBuffer.length ∧ 0 < m ∧
       updatePlotLoop (fuel + 1) w m frames =
         updatePlotLoop fuel w1 (m - 1) (frames ++ [pts]))) :=
  ⟨fun h => updatePlotLoop_returns (fuel + 1) w m frames (by omega) (by omega),
    updatePlotLoop_step fuel w m frames⟩

/-- C29 at an accumulator that holds `darkFrame`: 2098 iterations are enough. -/
theorem decoding_loop_terminates_on_dark_frame :
    darkWindow.dataBuffer.length + 10 ≤ 2097 + 1 ∧
      ∃ r, updatePlotLoop (2097 + 1) darkWindow 10 [] = some r :=
  ⟨by show darkFrame.length + 10 ≤ 2097 + 1; rw [darkFrame_size],
    (decoding_loop_terminates 2097 darkWindow 10 []).1
      (by show darkFrame.length + 10 ≤ 2097 + 1; rw [darkFrame_size])⟩

/-! ### Back-to-back frames -/

/-- The loop of `updatePlot` on an accumulator that is a concatenation of frames, each
of 2088 bytes and beginning with the sync marker. -/
theorem updatePlotLoop_join (sub : Bool) (bg : List Point) :
    ∀ (fs : List (List Byte)) (fuel : Nat) (w : MainWindow) (m : Nat)
      (frames : List (List Point)),
      fs.length < fuel → fs.length ≤ m →
      (∀ f ∈ fs, f.length = expectedFrameSize ∧ syncAt f 0) →
      w.dataBuffer = fs.flatten → w.showSubtracted = sub → w.backgroundData = bg →
      ∃ w1, updatePlotLoop fuel w m frames =
          some (w1, frames ++ fs.map (fun f => (List.range 1042).map (pointAt sub bg f))) ∧
        w1.dataBuffer = [] := by
  intro fs
  induction fs with
  | nil =>
    intro fuel w m frames hfuel _ _ hbuf _ _
    obtain ⟨n, rfl⟩ : ∃ n, fuel = n + 1 := ⟨fuel - 1, by omega⟩
    refine ⟨w, ?_, by rw [hbuf]; rfl⟩
    rw [updatePlotLoop_stop n w m frames (by rw [hbuf]; simp [expectedFrameSize])]
    simp
  | cons f rest ih =>
    intro fuel w m frames hfuel hm hf hbuf hsub hbg
    obtain ⟨n, rfl⟩ : ∃ n, fuel = n + 1 := ⟨fuel - 1, by omega⟩
    simp only [List.length_cons] at hfuel hm
    have hfl : f.length = expectedFrameSize := (hf f (List.mem_cons_self _ _)).1
    have hfs : syncAt f 0 := (hf f (List.mem_cons_self _ _)).2
    have hrest : ∀ g ∈ rest, g.length = expectedFrameSize ∧ syncAt g 0 :=
      fun g hg => hf g (List.mem_cons_of_mem _ hg)
    have hbuf2 : w.dataBuffer = f ++ rest.flatten := by rw [hbuf, List.flatten_cons]
    have htake : w.dataBuffer.take expectedFrameSize = f := by
      rw [hbuf2, ← hfl, List.take_left]
    have hdrop : w.dataBuffer.drop expectedFrameSize = rest.flatten := by
      rw [hbuf2, ← hfl, List.drop_left]
    have hlen : 2088 ≤ w.dataBuffer.length := by
      rw [hbuf2, List.length_append, hfl]
      simp [expectedFrameSize]
    have hcond : expectedFrameSize ≤ w.dataBuffer.length ∧ 0 < m := ⟨hlen, by omega⟩
    have hstart : findFrameStart w.dataBuffer = 0 := by
      have := findFrameStart_eq_of_first w.dataBuffer 0
        (by rw [hbuf2]; exact syncAt_append_left f _ 0 hfs) (fun j hj => by omega)
      simpa using this
    obtain ⟨pts, w2, hp, hpts, hbuf3, hsub3, hbg3⟩ :=
      processFrame_take { w with dataBuffer := w.dataBuffer.drop expectedFrameSize }
        w.dataBuffer hlen
    have hstep := updatePlotLoop_frame n w m frames pts w2 hcond hstart hp
    have hpr := pushFrame_recording w2 pts
    obtain ⟨w1, hrec, hempty⟩ := ih n (pushFrame w2 pts) (m - 1) (frames ++ [pts])
      (by omega) (by omega) hrest
      (by rw [pushFrame_dataBuffer, hbuf3]; exact hdrop)
      (by rw [hpr.2.2.1, hsub3]; exact hsub)
      (by rw [hpr.2.2.2, hbg3]; exact hbg)
    refine ⟨w1, ?_, hempty⟩
    rw [hstep, hrec, hpts, htake]
    have e1 : ({ w with dataBuffer := w.dataBuffer.drop expectedFrameSize } :
        MainWindow).showSubtracted = sub := hsub
    have e2 : ({ w with dataBuffer := w.dataBuffer.drop expectedFrameSize } :
        MainWindow).backgroundData = bg := hbg
    rw [e1, e2]
    simp

/-- C28. When the accumulator is the concatenation of at most 10 frames, each of 2088
bytes and beginning with `00 00 00 01`, the decoding loop of one tick returns the
decoded frames in order, frame `k` being decoded from the bytes of frame `k`
alone, and leaves the accumulator empty, whatever the payloads hold. -/
theorem tick_decodes_concatenated_frames (w : MainWindow) (fs : List (List Byte))
    (hn : fs.length ≤ 10)
    (hf : ∀ f ∈ fs, f.length = expectedFrameSize ∧ syncAt f 0)
    (hbuf : w.dataBuffer = fs.flatten) :
    ∃ w1, decodeFrames w = some (w1, fs.map (fun f =>
        (List.range 1042).map (pointAt w.showSubtracted w.backgroundData f))) ∧
      w1.dataBuffer = [] := by
  obtain ⟨w1, hrec, hempty⟩ := updatePlotLoop_join w.showSubtracted w.backgroundData fs
    (w.dataBuffer.length + 11) w 10 [] (by omega) hn hf hbuf rfl rfl
  exact ⟨w1, by simpa [decodeFrames] using hrec, hempty⟩

theorem echoFrame_size : echoFrame.length = expectedFrameSize := by
  simp only [echoFrame, expectedFrameSize, List.length_append, List.length_replicate,
    List.length_cons, List.length_nil]

/-- C28 at `echoFrame` followed by `darkFrame`: the payload of the first frame
holds the marker at offset 4, and the tick still decodes the two frames. -/
theorem tick_decodes_frame_with_marker_in_payload :
    syncAt echoFrame 4 ∧
    ∃ w1, decodeFrames echoWindow = some (w1, [echoFrame, darkFrame].map (fun f =>
        (List.range 1042).map (pointAt echoWindow.showSubtracted echoWindow.backgroundData f))) ∧
      w1.dataBuffer = [] :=
  ⟨syncAt_append_left [0, 0, 0, 1, 0, 0, 0, 1] _ 4 (by decide),
    tick_decodes_concatenated_frames echoWindow [echoFrame, darkFrame] (by simp)
      (by
        intro f hf
        simp only [List.mem_cons, List.mem_singleton, List.not_mem_nil, or_false] at hf
        rcases hf with rfl | rfl
        · exact ⟨echoFrame_size, syncAt_append_left [0, 0, 0, 1, 0, 0, 0, 1] _ 0 (by decide)⟩
        · exact ⟨darkFrame_size, syncAt_append_left [0, 0, 0, 1] _ 0 (by decide)⟩)
      rfl⟩

/-! ### The hues of the stored traces -/

/-- C27. After six traces are stored in succession into the empty store, the five
traces held have the hues 120, 180, 240, 300 and 300: the fifth and the sixth trace
stored have the same hue at the same time. -/
theorem stored_trace_hues_repeat :
    (storeTraces (initialWindow true) sixTraces).storedSeries.map Prod.snd
      = [120, 180, 240, 300, 300] := by
  rfl

/-! ### Setup, start and stop -/

/-- The function `set_exp` returns on every transport. -/
theorem set_exp_returns {σ : Type} (T : Transport σ) (exp : Nat) (s : σ) :
    ∃ r, set_exp T exp s = some r := by
  obtain ⟨r, hr, _⟩ := set_expLoop_failures T exp s maxRetries s 0 0 [] rfl
    (by intro reply h; cases h) rfl (by decide) (by decide)
  exact ⟨r, hr⟩

/-- The function `trig_on` returns on every transport. -/
theorem trig_on_returns {σ : Type} (T : Transport σ) (s : σ) :
    ∃ r, trig_on T s = some r := by
  obtain ⟨r, hr, _⟩ := trig_onLoop_failures T s maxRetries s 2 0 [] rfl
    (by intro reply h; cases h) rfl (by decide) (by decide)
  exact ⟨r, hr⟩

/-- C22, counterexample: a successful `startDataAcquisition` on a session with one
stored trace leaves no stored trace. -/
theorem start_clears_stored_traces :
    ∃ a1, startDataAcquisition workingHardware tracedSession = some (StartOutcome.started, a1) ∧
      tracedSession.window.storedTraces = [[⟨0, 1⟩]] ∧ a1.window.storedTraces = [] :=
  ⟨_, rfl, rfl, rfl⟩

/-- C22, amended. For every session and all devices `startDataAcquisition` returns
and leaves the background reference unchanged. It ends at once exactly when a
handle is null, and then leaves the whole window unchanged. Otherwise it empties
the stored traces, their chart series and the accumulator; the recording and the
rolling window are emptied, and recording is switched on, only when it succeeds,
and are left as they were when it aborts. -/
theorem start_resets_what_it_reaches {σ δ : Type} (H : Hardware σ δ) (a : Session σ δ) :
    ∃ outcome a1, startDataAcquisition H a = some (outcome, a1) ∧
      a1.window.backgroundData = a.window.backgroundData ∧
      (outcome = StartOutcome.notInitialized ↔ (a.ftHandle = false ∨ a.fthandle_uart = false)) ∧
      (outcome = StartOutcome.notInitialized → a1.window = a.window) ∧
      (outcome ≠ StartOutcome.notInitialized →
        a1.window.storedTraces = [] ∧ a1.window.storedSeries = [] ∧ a1.window.dataBuffer = []) ∧
      (outcome = StartOutcome.started →
        a1.window.allFramesData = [] ∧ a1.window.lastTenFrames = [] ∧
        a1.window.isRecording = true) ∧
      (outcome ≠ StartOutcome.started →
        a1.window.allFramesData = a.window.allFramesData ∧
        a1.window.lastTenFrames = a.window.lastTenFrames ∧
        a1.window.isRecording = a.window.isRecording) := by
  unfold startDataAcquisition
  by_cases hnull : a.ftHandle = false ∨ a.fthandle_uart = false
  · rw [if_pos hnull]
    exact ⟨_, _, rfl, rfl, by simp [hnull], fun _ => rfl, fun h => absurd rfl h,
      fun h => (by cases h), fun _ => ⟨rfl, rfl, rfl⟩⟩
  · rw [if_neg hnull]
    dsimp only
    obtain ⟨run1, h1⟩ := set_exp_returns (onHandle a.fthandle_uart H.control)
      a.defaultExposureTime a.control
    rw [h1]
    dsimp only
    rcases ho1 : run1.outcome with e | u
    · dsimp only
      exact ⟨_, _, rfl, rfl, by simp [hnull], fun h => (by cases h),
        fun _ => ⟨rfl, rfl, rfl⟩, fun h => (by cases h), fun _ => ⟨rfl, rfl, rfl⟩⟩
    · dsimp only
      obtain ⟨run2, h2⟩ := trig_on_returns (onHandle a.fthandle_uart H.control) run1.device
      rw [h2]
      dsimp only
      rcases ho2 : run2.outcome with e | u
      · dsimp only
        exact ⟨_, _, rfl, rfl, by simp [hnull], fun h => (by cases h),
          fun _ => ⟨rfl, rfl, rfl⟩, fun h => (by cases h), fun _ => ⟨rfl, rfl, rfl⟩⟩
      · dsimp only
        exact ⟨_, _, rfl, rfl, by simp [hnull], fun h => (by cases h),
          fun _ => ⟨rfl, rfl, rfl⟩, fun _ => ⟨rfl, rfl, rfl⟩, fun h => absurd rfl h⟩

/-- C26, counterexample: when the control device opens and the data device does
not, `setupDevice` ends with the control handle valid and the data handle null. -/
theorem setup_leaves_one_handle_open :
    ∃ a1, setupDevice workingHardware 1 true false (initialSession 0 ())
        = some (SetupOutcome.openFailed, a1) ∧
      a1.fthandle_uart = true ∧ a1.ftHandle = false :=
  ⟨_, rfl, rfl, rfl⟩

/-- C26, amended. After `setupDevice` each handle is valid exactly when its own open
succeeded; when the open of the data device fails `setupDevice` does end, with
"Failed to open device"; and it only ends normally when both opens succeeded. -/
theorem setup_handles_follow_their_opens {σ δ : Type} (H : Hardware σ δ) (fuel : Nat)
    (openControl openData : Bool) (a : Session σ δ) :
    (openData = false →
      ∃ a1, setupDevice H fuel openControl openData a = some (SetupOutcome.openFailed, a1) ∧
        a1.fthandle_uart = openControl ∧ a1.ftHandle = false) ∧
    (∀ outcome a1, setupDevice H fuel openControl openData a = some (outcome, a1) →
      a1.fthandle_uart = openControl ∧ a1.ftHandle = openData ∧
      (outcome = SetupOutcome.complete → openControl = true ∧ openData = true)) := by
  constructor
  · intro hd
    subst hd
    exact ⟨_, rfl, rfl, rfl⟩
  · intro outcome a1 h
    cases openControl <;> cases openData
    · simp [setupDevice] at h
      obtain ⟨rfl, rfl⟩ := h
      exact ⟨rfl, rfl, by simp⟩
    · simp [setupDevice] at h
      obtain ⟨rfl, rfl⟩ := h
      exact ⟨rfl, rfl, by simp⟩
    · simp [setupDevice] at h
      obtain ⟨rfl, rfl⟩ := h
      exact ⟨rfl, rfl, by simp⟩
    · refine ⟨?_, ?_, fun _ => ⟨rfl, rfl⟩⟩ <;>
      · unfold setupDevice at h
        dsimp only at h
        repeat' split at h
        all_goals first
          | (cases h; rfl)
          | cases h

/-- C26, amended, at devices that open and acknowledge every command. -/
theorem setup_on_working_hardware :
    setupDevice workingHardware 1 true true (initialSession 0 ())
        = some (SetupOutcome.complete, readySession) ∧
      readySession.fthandle_uart = true ∧ readySession.ftHandle = true ∧
      (SetupOutcome.complete = SetupOutcome.complete → true = true ∧ true = true) :=
  ⟨rfl, (setup_handles_follow_their_opens workingHardware 1 true true (initialSession 0 ())).2
    SetupOutcome.complete readySession rfl⟩

/-- C23. In the session that `setupDevice` leaves when only the control device
opens, the data handle is null; `stopDataAcquisition` then runs `trig_off` on the
control link and calls `FT_Purge` on the null data handle before anything is
reported, and the tick `updatePlot`, which does report the null handle, goes on
to make the same calls through `stopDataAcquisition`. -/
theorem stop_calls_driver_on_null_handle :
    ∃ a1 a2 a3, setupDevice workingHardware 1 true false (initialSession 0 ())
        = some (SetupOutcome.openFailed, a1) ∧
      a1.ftHandle = false ∧ a1.dataCalls = [] ∧ a1.controlCalls = [] ∧
      stopDataAcquisition workingHardware 1 a1 = some a2 ∧
      a2.dataCalls = [DataCall.purge] ∧
      a2.controlCalls = [Call.purge, Call.write [3, 0, 0, 0], Call.read 1] ∧
      a2.reports = [Report.stopFailed] ∧
      updatePlot workingHardware 1 a1 = some a3 ∧
      a3.dataCalls = [DataCall.purge] ∧
      a3.controlCalls = [Call.purge, Call.write [3, 0, 0, 0], Call.read 1] ∧
      a3.reports = [Report.notInitialized, Report.stopFailed] :=
  ⟨_, _, _, rfl, rfl, rfl, rfl, rfl, rfl, rfl, rfl, rfl, rfl, rfl, rfl⟩

/-- C24. On devices whose data-side `FT_Purge` fails, `stopDataAcquisition` after a
successful `startDataAcquisition` reports the failure and stops the timer, but
leaves the start button disabled, the stop button enabled and the recording
active. -/
theorem failed_stop_keeps_running_controls :
    ∃ a1 a2, startDataAcquisition purgeFailHardware readySession
        = some (StartOutcome.started, a1) ∧
      stopDataAcquisition purgeFailHardware 1 a1 = some a2 ∧
      a2.reports = [Report.purgeWarning, Report.stopFailed] ∧
      a2.timerActive = false ∧ a2.startEnabled = false ∧ a2.stopEnabled = true ∧
      a2.window.isRecording = true :=
  ⟨_, _, rfl, rfl, rfl, rfl, rfl, rfl, rfl⟩

/-! ### The frames of the rolling window in reachable sessions -/

theorem pushFrames_mem :
    ∀ (frames : List (List Point)) (w : MainWindow) (f : List Point),
      f ∈ (pushFrames w frames).lastTenFrames → f ∈ w.lastTenFrames ∨ f ∈ frames := by
  intro frames
  induction frames with
  | nil => intro w f h; exact Or.inl h
  | cons g rest ih =>
    intro w f h
    have hstep : pushFrames w (g :: rest) = pushFrames (pushFrame w g) rest := rfl
    rw [hstep] at h
    rcases ih _ f h with h1 | h1
    · rw [pushFrame_lastTenFrames] at h1
      rcases List.mem_append.1 h1 with h2 | h2
      · left
        split_ifs at h2
        · exact List.mem_of_mem_tail h2
        · exact h2
      · right
        rw [List.mem_singleton.1 h2]
        exact List.mem_cons_self _ _
    · exact Or.inr (List.mem_cons_of_mem _ h1)

theorem truncateBuffer_fields (w : MainWindow) :
    (truncateBuffer w).lastTenFrames = w.lastTenFrames ∧
      (truncateBuffer w).showingAverage = w.showingAverage := by
  unfold truncateBuffer
  split_ifs <;> exact ⟨rfl, rfl⟩

theorem framesCover_of_wellFormed (frames : List (List Point))
    (h : ∀ f ∈ frames, wellFormedFrame f) : framesCover frames := by
  intro first hfirst f hf
  have h1 := wellFormedFrame_length first (h first (List.mem_of_mem_head? hfirst))
  have h2 := wellFormedFrame_length f (h f hf)
  omega

/-- The decoding loop followed by the overflow guard returns, and keeps the frames of
the rolling window well formed. -/
theorem updatePlotDecode_wellFormed (w : MainWindow)
    (h : ∀ f ∈ w.lastTenFrames, wellFormedFrame f) :
    ∃ w1 frames, updatePlotDecode w = some (w1, frames) ∧
      ∀ f ∈ w1.lastTenFrames, wellFormedFrame f := by
  obtain ⟨w1, more, hrec, _, _, hwin, hwf, _, _⟩ :=
    updatePlotLoop_frames (w.dataBuffer.length + 11) w 10 [] (by omega)
  have hd : decodeFrames w = some (w1, [] ++ more) := hrec
  refine ⟨truncateBuffer w1, [] ++ more, by unfold updatePlotDecode; rw [hd], ?_⟩
  intro f hf
  rw [(truncateBuffer_fields w1).1, hwin] at hf
  rcases pushFrames_mem more w f hf with h1 | h1
  · exact h f h1
  · exact hwf f h1

theorem updatePlotStage_wellFormed (w : MainWindow)
    (h : ∀ f ∈ w.lastTenFrames, wellFormedFrame f) :
    ∃ w2, (match updatePlotDecode w with
        | none => none
        | some (w1, _) => if w1.showingAverage then updateAveragePlot w1 else some w1) = some w2 ∧
      ∀ f ∈ w2.lastTenFrames, wellFormedFrame f := by
  obtain ⟨w1, frames, hd, hwf⟩ := updatePlotDecode_wellFormed w h
  rw [hd]
  dsimp only
  split_ifs
  · obtain ⟨w2, h2⟩ := updateAveragePlot_isSome w1 (framesCover_of_wellFormed _ hwf)
    refine ⟨w2, h2, ?_⟩
    rw [(updateAveragePlot_frame w1 w2 h2).2.1]
    exact hwf
  · exact ⟨w1, rfl, hwf⟩

/-- One tick on a window whose frames are well formed returns, and keeps them so. -/
theorem updatePlotTick_wellFormed (w : MainWindow) (rd : DataRead)
    (h : ∀ f ∈ w.lastTenFrames, wellFormedFrame f) :
    ∃ w2, updatePlotTick w rd = some w2 ∧ ∀ f ∈ w2.lastTenFrames, wellFormedFrame f := by
  cases rd with
  | failed => exact ⟨w, rfl, h⟩
  | noBytes => exact updatePlotStage_wellFormed w h
  | ok bytes => exact updatePlotStage_wellFormed { w with dataBuffer := w.dataBuffer ++ bytes } h

theorem startDataAcquisition_lastTenFrames {σ δ : Type} (H : Hardware σ δ)
    (a a1 : Session σ δ) (outcome : StartOutcome)
    (h : startDataAcquisition H a = some (outcome, a1)) :
    a1.window.lastTenFrames = [] ∨ a1.window.lastTenFrames = a.window.lastTenFrames := by
  unfold startDataAcquisition at h
  dsimp only at h
  repeat' split at h
  all_goals first
    | (cases h; exact Or.inl rfl)
    | (cases h; exact Or.inr rfl)
    | cases h

theorem stopDataAcquisition_lastTenFrames {σ δ : Type} (H : Hardware σ δ) (fuel : Nat)
    (a a1 : Session σ δ) (h : stopDataAcquisition H fuel a = some a1) :
    a1.window.lastTenFrames = a.window.lastTenFrames := by
  unfold stopDataAcquisition at h
  dsimp only at h
  repeat' split at h
  all_goals first
    | (cases h; rfl)
    | cases h

theorem setupDevice_lastTenFrames {σ δ : Type} (H : Hardware σ δ) (fuel : Nat)
    (openControl openData : Bool) (a a1 : Session σ δ) (outcome : SetupOutcome)
    (h : setupDevice H fuel openControl openData a = some (outcome, a1)) :
    a1.window.lastTenFrames = a.window.lastTenFrames := by
  unfold setupDevice at h
  dsimp only at h
  repeat' split at h
  all_goals first
    | (cases h; rfl)
    | cases h

theorem updatePlot_wellFormed {σ δ : Type} (H : Hardware σ δ) (fuel : Nat)
    (a a1 : Session σ δ) (h : updatePlot H fuel a = some a1)
    (hwf : ∀ f ∈ a.window.lastTenFrames, wellFormedFrame f) :
    ∀ f ∈ a1.window.lastTenFrames, wellFormedFrame f := by
  unfold updatePlot at h
  split_ifs at h with hnull
  · rw [stopDataAcquisition_lastTenFrames H fuel _ a1 h]
    exact hwf
  · dsimp only at h
    obtain ⟨w2, h2, hwf2⟩ := updatePlotTick_wellFormed a.window (H.data.poll a.data).1 hwf
    rw [h2] at h
    cases h
    exact hwf2

theorem reachable_wellFormed {σ δ : Type} (H : Hardware σ δ) (a : Session σ δ)
    (hr : Reachable H a) : ∀ f ∈ a.window.lastTenFrames, wellFormedFrame f := by
  induction hr with
  | initial control data => intro f hf; cases hf
  | setup fuel oc od a a1 outcome _ h ih =>
    rw [setupDevice_lastTenFrames H fuel oc od a a1 outcome h]; exact ih
  | start a a1 outcome _ h ih =>
    rcases startDataAcquisition_lastTenFrames H a a1 outcome h with h1 | h1
    · rw [h1]; intro f hf; cases hf
    · rw [h1]; exact ih
  | stop fuel a a1 _ h ih =>
    rw [stopDataAcquisition_lastTenFrames H fuel a a1 h]; exact ih
  | tick fuel a a1 _ h ih => exact updatePlot_wellFormed H fuel a a1 h ih
  | other a a1 _ h ih => rw [h]; exact ih

theorem wellFormedFrame_pixel (frame : List Point) (h : wellFormedFrame frame) (j : Nat)
    (hj : j < 1042) : (frame[j]?).map Point.x = some (j : ℚ) := by
  unfold wellFormedFrame at h
  have := congrArg (fun l => l[j]?) h
  simp only [List.getElem?_map, List.getElem?_range hj] at this
  simpa using this

/-- C30. In every reachable session every frame of the rolling window has exactly
1042 points, point `j` having pixel index `j`; `updateAveragePlot` and the whole
tick return on its window, no index `frame[i]` being out of bounds; and
`processFrame` returns on every frame of 2088 bytes, no byte index it reads being
out of bounds. -/
theorem reachable_frames_in_bounds {σ δ : Type} (H : Hardware σ δ) (a : Session σ δ)
    (hr : Reachable H a) :
    (∀ f ∈ a.window.lastTenFrames,
      f.length = 1042 ∧ ∀ j : Nat, j < 1042 → (f[j]?).map Point.x = some (j : ℚ)) ∧
    (∃ w1, updateAveragePlot a.window = some w1) ∧
    (∀ rd, ∃ w1, updatePlotTick a.window rd = some w1) ∧
    (∀ frame : List Byte, frame.length = expectedFrameSize →
      ∃ r, processFrame a.window frame = some r) := by
  have hwf := reachable_wellFormed H a hr
  refine ⟨fun f hf => ⟨wellFormedFrame_length f (hwf f hf),
      fun j hj => wellFormedFrame_pixel f (hwf f hf) j hj⟩,
    updateAveragePlot_isSome _ (framesCover_of_wellFormed _ hwf), ?_, ?_⟩
  · intro rd
    obtain ⟨w2, h2, _⟩ := updatePlotTick_wellFormed a.window rd hwf
    exact ⟨w2, h2⟩
  · intro frame hlen
    exact ⟨_, processFrame_eq a.window frame 1042 (by rw [hlen]; rfl)⟩

theorem updatePlotStage_lastTenFrames (w w1 : MainWindow) (frames : List (List Point))
    (hd : decodeFrames w = some (w1, frames))
    (hwf : ∀ f ∈ w1.lastTenFrames, wellFormedFrame f) :
    ∃ w2, (match updatePlotDecode w with
        | none => none
        | some (w1, _) => if w1.showingAverage then updateAveragePlot w1 else some w1) = some w2 ∧
      w2.lastTenFrames = w1.lastTenFrames := by
  have hu : updatePlotDecode w = some (truncateBuffer w1, frames) := by
    unfold updatePlotDecode; rw [hd]
  have ht := (truncateBuffer_fields w1).1
  rw [hu]
  dsimp only
  split_ifs
  · obtain ⟨w2, h2⟩ := updateAveragePlot_isSome (truncateBuffer w1)
      (framesCover_of_wellFormed _ (by rw [ht]; exact hwf))
    exact ⟨w2, h2, by rw [(updateAveragePlot_frame _ w2 h2).2.1, ht]⟩
  · exact ⟨_, rfl, ht⟩

/-- The decoding loop on one frame and an empty rolling window leaves one frame in
the window. -/
theorem decodeFrames_first_frame (w : MainWindow) (hl : w.lastTenFrames = [])
    (hs : syncAt w.dataBuffer 0) (hlen : w.dataBuffer.length = 2088) :
    ∃ w1 frames, decodeFrames w = some (w1, frames) ∧ w1.lastTenFrames.length = 1 ∧
      ∀ f ∈ w1.lastTenFrames, wellFormedFrame f := by
  obtain ⟨w1, more, hrec, _, _, hwin, hwf, _, _⟩ :=
    updatePlotLoop_frames (w.dataBuffer.length + 11) w 10 [] (by omega)
  have hd : decodeFrames w = some (w1, more) := hrec
  obtain ⟨w1b, hsingle⟩ := decodeFrames_single w hs (by omega) (by omega)
  rw [hd] at hsingle
  simp only [Option.some.injEq, Prod.mk.injEq] at hsingle
  obtain ⟨_, hmore⟩ := hsingle
  refine ⟨w1, more, hd, ?_, ?_⟩
  · rw [hwin, hmore]
    show (pushFrame w _).lastTenFrames.length = 1
    rw [pushFrame_lastTenFrames, hl]
    simp
  · intro f hf
    rw [hwin] at hf
    rcases pushFrames_mem more _ f hf with h1 | h1
    · rw [hl] at h1
      cases h1
    · exact hwf f h1

/-- The first tick that delivers one frame to an empty accumulator and an empty
rolling window leaves one frame in the window. -/
theorem updatePlot_first_frame {σ δ : Type} (H : Hardware σ δ) (fuel : Nat) (a : Session σ δ)
    (bytes : List Byte) (hh : a.ftHandle = true) (hu : a.fthandle_uart = true)
    (hp : (H.data.poll a.data).1 = DataRead.ok bytes)
    (hbuf : a.window.dataBuffer = []) (hl : a.window.lastTenFrames = [])
    (hs : syncAt bytes 0) (hlen : bytes.length = 2088) :
    ∃ a2, updatePlot H fuel a = some a2 ∧ a2.window.lastTenFrames.length = 1 := by
  have hb : a.window.dataBuffer ++ bytes = bytes := by rw [hbuf, List.nil_append]
  obtain ⟨w1, frames, hd, hone, hwf1⟩ := decodeFrames_first_frame
    { a.window with dataBuffer := a.window.dataBuffer ++ bytes } hl
    (by show syncAt (a.window.dataBuffer ++ bytes) 0; rw [hb]; exact hs)
    (by show (a.window.dataBuffer ++ bytes).length = 2088; rw [hb]; exact hlen)
  obtain ⟨w2, h2, hl2⟩ := updatePlotStage_lastTenFrames _ w1 frames hd hwf1
  have hnull : ¬ (a.ftHandle = false ∨ a.fthandle_uart = false) := by simp [hh, hu]
  have ht : updatePlotTick a.window (H.data.poll a.data).1 = some w2 := by
    rw [hp]; exact h2
  refine ⟨{ a with window := w2, data := (H.data.poll a.data).2,
                   dataCalls := a.dataCalls ++ pollCalls (H.data.poll a.data).1 }, ?_, ?_⟩
  · unfold updatePlot
    rw [if_neg hnull]
    dsimp only
    rw [ht]
  · show w2.lastTenFrames.length = 1
    rw [hl2, hone]

theorem setup_reaches_ready :
    setupDevice workingHardware 1 true true (initialSession 0 ())
      = some (SetupOutcome.complete, readySession) := rfl

theorem start_on_working_hardware :
    startDataAcquisition workingHardware readySession
      = some (StartOutcome.started, runningSession) := rfl

/-- C30 at the session reached by `setupDevice`, `startDataAcquisition` and one
tick on `workingHardware`, whose rolling window holds one frame. -/
theorem frames_in_bounds_after_first_tick :
    ∃ a2, updatePlot workingHardware 1 runningSession = some a2 ∧
      a2.window.lastTenFrames.length = 1 ∧
      ((∀ f ∈ a2.window.lastTenFrames,
        f.length = 1042 ∧ ∀ j : Nat, j < 1042 → (f[j]?).map Point.x = some (j : ℚ)) ∧
      (∃ w1, updateAveragePlot a2.window = some w1) ∧
      (∀ rd, ∃ w1, updatePlotTick a2.window rd = some w1) ∧
      (∀ frame : List Byte, frame.length = expectedFrameSize →
        ∃ r, processFrame a2.window frame = some r)) := by
  obtain ⟨a2, h2, hone⟩ := updatePlot_first_frame workingHardware 1 runningSession darkFrame
    rfl rfl rfl rfl rfl (syncAt_append_left [0, 0, 0, 1] _ 0 (by decide)) darkFrame_size
  exact ⟨a2, h2, hone, reachable_frames_in_bounds workingHardware a2
    (Reachable.tick 1 runningSession a2
      (Reachable.start readySession runningSession StartOutcome.started
        (Reachable.setup 1 true true (initialSession 0 ()) readySession SetupOutcome.complete
          (Reachable.initial 0 ()) setup_reaches_ready) start_on_working_hardware) h2)⟩

/-! ### Rounding in the background subtraction -/

theorem brightFrame_length : brightFrame.length = 4 + 2 * 1042 := by
  simp only [brightFrame, List.length_append, List.length_replicate, List.length_cons,
    List.length_nil]

theorem toDouble_bright_minus_five_thirds :
    toDouble (65535 - 7505999378950827 / 4503599627370496) = 9006832750865067 / 137438953472 := by
  rw [toDouble_eq (65535 - 7505999378950827 / 4503599627370496) (-37) 9006832750865067
    (by norm_num [abs_of_pos]) (by norm_num [abs_of_pos]) (by norm_num)
    (roundHalfEven_of_close _ _ (by norm_num) (by norm_num))]
  norm_num

/-- C6, counterexample: with the binary64 value nearest to 5/3 as reference at pixel 0
and the raw value 65535 there, `processFrame` emits `9006832750865067 / 2 ^ 37`,
which is not the difference of the two. -/
theorem processFrame_rounds_the_difference :
    ∃ pts w1, processFrame fractionalWindow brightFrame = some (pts, w1) ∧
      fractionalWindow.backgroundData[0]? = some ⟨0, 7505999378950827 / 4503599627370496⟩ ∧
      bigEndianAt brightFrame 0 = 65535 ∧
      pts[0]? = some ⟨0, 9006832750865067 / 137438953472⟩ ∧
      (9006832750865067 / 137438953472 : ℚ) ≠ 65535 - 7505999378950827 / 4503599627370496 := by
  refine ⟨_, _, processFrame_eq fractionalWindow brightFrame 1042 brightFrame_length, rfl, rfl,
    ?_, by norm_num⟩
  rw [pointAt_getElem? _ _ _ _ _ (by norm_num : 0 < 1042)]
  show some (pointAt true [⟨0, 7505999378950827 / 4503599627370496⟩] brightFrame 0) = _
  simp only [pointAt]
  rw [subtractBackground_some _ 0 _ ⟨0, 7505999378950827 / 4503599627370496⟩ rfl,
    show bigEndianAt brightFrame 0 = 65535 from rfl]
  have h : doubleSub ((65535 : Nat) : ℚ) (7505999378950827 / 4503599627370496)
      = 9006832750865067 / 137438953472 := by
    unfold doubleSub
    have := toDouble_bright_minus_five_thirds
    norm_num at this ⊢
    exact this
  rw [h]
  norm_num

/-! ### The points of the average view -/

theorem sumAt_eq (i : Nat) :
    ∀ (frames : List (List Point)) (sum : ℚ), (∀ f ∈ frames, i < f.length) →
      sumAt i frames sum =
        some ((frames.map (fun frame => intensityAt frame i)).foldl doubleAdd sum) := by
  intro frames
  induction frames with
  | nil => intro sum _; simp [sumAt]
  | cons f rest ih =>
    intro sum h
    have hf : i < f.length := h f (List.mem_cons_self _ _)
    rw [sumAt, List.getElem?_eq_getElem hf]
    show sumAt i rest (doubleAdd sum (f[i]).y) = _
    rw [ih _ (fun g hg => h g (List.mem_cons_of_mem _ hg))]
    simp [intensityAt, List.getElem?_eq_getElem hf]

theorem averagePointsLoop_eq (frames : List (List Point)) (first : List Point) :
    ∀ n i acc, (∀ f ∈ frames, i + n ≤ f.length) → i + n ≤ first.length →
      averagePointsLoop frames first n i acc =
        some (acc ++ (List.range' i n).map (meanPoint first frames)) := by
  intro n
  induction n with
  | zero => intro i acc _ _; simp [averagePointsLoop]
  | succ n ih =>
    intro i acc h hfirst
    have hs := sumAt_eq i frames 0 (fun f hf => by have := h f hf; omega)
    have hi : i < first.length := by omega
    rw [averagePointsLoop, hs, List.getElem?_eq_getElem hi]
    show averagePointsLoop frames first n (i + 1) _ = _
    rw [ih (i + 1) _ (fun f hf => by have := h f hf; omega) (by omega)]
    simp [List.range'_succ, meanPoint, pixelAt, doubleSum, List.getElem?_eq_getElem hi]

theorem updateAveragePlot_eq (w : MainWindow) (first : List Point) (rest : List (List Point))
    (m : Nat) (hw : w.lastTenFrames = first :: rest) (hlen : ∀ f ∈ first :: rest, f.length = m) :
    updateAveragePlot w = some (updatePlotWithPoints w
      ((List.range m).map (meanPoint first (first :: rest)))) := by
  have hm : first.length = m := hlen first (List.mem_cons_self _ _)
  unfold updateAveragePlot
  rw [hw]
  dsimp only
  rw [averagePointsLoop_eq (first :: rest) first first.length 0 []
    (fun f hf => by rw [hlen f hf, hm]; omega) (by omega), hm]
  simp [List.range_eq_range']

theorem foldl_doubleAdd_intCast (B : Nat) :
    ∀ (zs : List Int) (a : Int), (∀ z ∈ zs, |z| ≤ B) → |a| + zs.length * B < 2 ^ 53 →
      (zs.map (fun z : Int => (z : ℚ))).foldl doubleAdd (a : ℚ) = ((a + zs.sum : Int) : ℚ) := by
  intro zs
  induction zs with
  | nil => intro a _ _; simp
  | cons z rest ih =>
    intro a hB hlen
    have hz : |z| ≤ B := hB z (List.mem_cons_self _ _)
    simp only [List.length_cons] at hlen
    have hlen2 : |a + z| + rest.length * (B : Int) < 2 ^ 53 := by
      have := abs_add a z
      push_cast at hlen
      nlinarith
    have hstep : doubleAdd (a : ℚ) (z : ℚ) = ((a + z : Int) : ℚ) := by
      unfold doubleAdd
      have h1 := toDouble_intCast (a + z) (by
        have : (0 : Int) ≤ rest.length * (B : Int) := by positivity
        omega)
      push_cast at h1 ⊢
      exact h1
    rw [List.map_cons, List.foldl_cons, hstep,
      ih (a + z) (fun y hy => hB y (List.mem_cons_of_mem _ hy)) (by exact_mod_cast hlen2),
      List.sum_cons, add_assoc]

theorem doubleSum_intCast (zs : List Int) (B : Nat) (hB : ∀ z ∈ zs, |z| ≤ B)
    (hlen : zs.length * B < 2 ^ 53) :
    doubleSum (zs.map (fun z : Int => (z : ℚ))) = ((zs.sum : Int) : ℚ) := by
  have hlen2 : |(0 : Int)| + zs.length * (B : Int) < 2 ^ 53 := by
    have : ((zs.length * B : Nat) : Int) < 2 ^ 53 := by exact_mod_cast hlen
    push_cast at this
    simpa using this
  have := foldl_doubleAdd_intCast B zs 0 hB hlen2
  simpa [doubleSum] using this

/-- C25, counterexample: for three frames with the intensities 1, 2, 2 at a pixel,
`updateAveragePlot` forwards `7505999378950827 / 2 ^ 52`, which is not 5/3. -/
theorem average_of_one_two_two_is_rounded :
    updateAveragePlot threeFrameWindow = some (updatePlotWithPoints threeFrameWindow
      [⟨0, 7505999378950827 / 4503599627370496⟩]) ∧
    (7505999378950827 / 4503599627370496 : ℚ) ≠ (1 + 2 + 2) / 3 := by
  refine ⟨?_, by norm_num⟩
  rw [updateAveragePlot_eq threeFrameWindow [⟨0, 1⟩] [[⟨0, 2⟩], [⟨0, 2⟩]] 1 rfl
    (by intro f hf; simp at hf; rcases hf with rfl | rfl | rfl <;> rfl)]
  have h3 : doubleAdd 0 1 = 1 := by
    have := toDouble_intCast 1 (by norm_num)
    unfold doubleAdd; norm_num at this ⊢; exact this
  have h4 : doubleAdd 1 2 = 3 := by
    have := toDouble_intCast 3 (by norm_num)
    unfold doubleAdd; norm_num at this ⊢; exact this
  have h5 : doubleAdd 3 2 = 5 := by
    have := toDouble_intCast 5 (by norm_num)
    unfold doubleAdd; norm_num at this ⊢; exact this
  have hm : meanPoint [⟨0, 1⟩] [[⟨0, 1⟩], [⟨0, 2⟩], [⟨0, 2⟩]] 0
      = ⟨0, 7505999378950827 / 4503599627370496⟩ := by
    simp only [meanPoint, pixelAt, intensityAt, doubleSum, List.map_cons, List.map_nil,
      List.foldl_cons, List.foldl_nil, List.getElem?_cons_zero, Option.map_some',
      Option.getD_some, List.length_cons, List.length_nil, h3, h4, h5]
    unfold doubleDiv
    have := toDouble_five_thirds
    norm_num at this ⊢
    exact this
  show some (updatePlotWithPoints threeFrameWindow
    [meanPoint [⟨0, 1⟩] [[⟨0, 1⟩], [⟨0, 2⟩], [⟨0, 2⟩]] 0]) = _
  rw [hm]

/-- C25, amended. With an empty rolling window `updateAveragePlot` returns with the
window unchanged, nothing being forwarded. With a rolling window of frames that all
have `m` points it forwards to `updatePlotWithPoints` the `m` points whose point `i`
has the pixel index of point `i` of the first frame and, as intensity, the quotient
in `double` arithmetic of the running `double` sum of the intensities of point `i`
by the number of frames. When these intensities are integers of magnitude at most
`2 ^ 42`, in at most 1024 frames, that is the binary64 value nearest to their exact
mean. -/
theorem updateAveragePlot_forwards_mean (w : MainWindow) :
    (w.lastTenFrames = [] → updateAveragePlot w = some w) ∧
    (∀ first rest m, w.lastTenFrames = first :: rest →
      (∀ f ∈ first :: rest, f.length = m) →
      updateAveragePlot w = some (updatePlotWithPoints w
        ((List.range m).map (meanPoint first (first :: rest))))) ∧
    (∀ (first : List Point) (frames : List (List Point)) (i : Nat) (zs : List Int),
      frames.map (fun frame => intensityAt frame i) = zs.map (fun z : Int => (z : ℚ)) →
      (∀ z ∈ zs, |z| ≤ 2 ^ 42) → frames.length ≤ 1024 →
      (meanPoint first frames i).y = toDouble (((zs.sum : Int) : ℚ) / (frames.length : ℚ))) := by
  refine ⟨?_, ?_, ?_⟩
  · intro h
    unfold updateAveragePlot
    rw [h]
  · intro first rest m hw hlen
    exact updateAveragePlot_eq w first rest m hw hlen
  · intro first frames i zs hz hB hlen
    have hl : zs.length = frames.length := by
      have := congrArg List.length hz
      simpa using this.symm
    have hsum := doubleSum_intCast zs (2 ^ 42) (by simpa using hB) (by
      rw [hl]
      calc frames.length * 2 ^ 42 ≤ 1024 * 2 ^ 42 := Nat.mul_le_mul_right _ hlen
        _ < 2 ^ 53 := by norm_num)
    show doubleDiv (doubleSum (frames.map (fun frame => intensityAt frame i))) _ = _
    rw [hz, hsum]
    rfl

/-- C25, amended, at a rolling window of two frames of two points. -/
theorem average_of_two_frames :
    updateAveragePlot averagingWindow = some (updatePlotWithPoints averagingWindow
      ((List.range 2).map (meanPoint [⟨0, 1⟩, ⟨1, 2⟩] [[⟨0, 1⟩, ⟨1, 2⟩], [⟨0, 3⟩, ⟨1, 6⟩]]))) :=
  (updateAveragePlot_forwards_mean averagingWindow).2.1 _ _ 2 rfl
    (by intro f hf; simp at hf; rcases hf with rfl | rfl <;> rfl)

/-! ### Statistics -/

theorem foldl_doubleAdd_map (f : ℚ → ℚ) :
    ∀ (l : List ℚ) (a : ℚ),
      l.foldl (fun acc v => doubleAdd acc (f v)) a = (l.map f).foldl doubleAdd a := by
  intro l
  induction l with
  | nil => intro a; rfl
  | cons x rest ih =>
    intro a
    rw [List.foldl_cons, ih, List.map_cons, List.foldl_cons]

theorem foldl_doubleAdd_nonneg :
    ∀ (l : List ℚ) (a : ℚ), 0 ≤ a → (∀ y ∈ l, 0 ≤ y) → 0 ≤ l.foldl doubleAdd a := by
  intro l
  induction l with
  | nil => intro a ha _; exact ha
  | cons x rest ih =>
    intro a ha h
    rw [List.foldl_cons]
    exact ih _ (toDouble_nonneg _ (add_nonneg ha (h x (List.mem_cons_self _ _))))
      (fun y hy => h y (List.mem_cons_of_mem _ hy))

theorem calculateStatistics_empty (w : MainWindow) (points : List Point)
    (h : filterPointsByRange w points = []) :
    calculateStatistics w points = {} := by
  unfold filterPointsByRange at h
  unfold calculateStatistics
  simp only [h, List.isEmpty_nil, if_true]

theorem calculateStatistics_nonempty (w : MainWindow) (points : List Point)
    (h : filterPointsByRange w points ≠ []) :
    (calculateStatistics w points).mean =
      doubleDiv (doubleSum ((filterPointsByRange w points).map (fun p => p.y)))
        ((filterPointsByRange w points).length : ℚ) ∧
    (calculateStatistics w points).variance =
      doubleDiv (doubleSum (((filterPointsByRange w points).map (fun p => p.y)).map
        (fun x => doubleMul (doubleSub x (calculateStatistics w points).mean)
          (doubleSub x (calculateStatistics w points).mean))))
          ((filterPointsByRange w points).length : ℚ) ∧
    (calculateStatistics w points).stdDev =
      doubleSqrt (calculateStatistics w points).variance := by
  have he : (filterPointsByRange w points).isEmpty = false := by
    cases hf : filterPointsByRange w points with
    | nil => exact absurd hf h
    | cons a t => rfl
  unfold filterPointsByRange at he
  unfold calculateStatistics filterPointsByRange doubleSum
  simp only [he, Bool.false_eq_true, if_false]
  refine ⟨?_, ?_, ?_⟩ <;> first | rfl | trivial | (rw [foldl_doubleAdd_map])

theorem calculateStatistics_variance_nonneg (w : MainWindow) (points : List Point) :
    0 ≤ (calculateStatistics w points).variance := by
  by_cases h : filterPointsByRange w points = []
  · rw [calculateStatistics_empty w points h]
  · rw [(calculateStatistics_nonempty w points h).2.1]
    unfold doubleDiv
    apply toDouble_nonneg
    apply div_nonneg
    · unfold doubleSum
      apply foldl_doubleAdd_nonneg _ _ (le_refl _)
      intro y hy
      obtain ⟨x, _, rfl⟩ := List.mem_map.1 hy
      unfold doubleMul
      exact toDouble_nonneg _ (mul_self_nonneg _)
    · positivity

theorem oneToFour_in_range :
    filterPointsByRange (initialWindow true) oneToFour = oneToFour := by
  norm_num [filterPointsByRange, initialWindow, oneToFour]

theorem oneTwoTwo_in_range :
    filterPointsByRange (initialWindow true) oneTwoTwo = oneTwoTwo := by
  norm_num [filterPointsByRange, initialWindow, oneTwoTwo]

theorem statistics_oneTwoTwo_mean :
    (calculateStatistics (initialWindow true) oneTwoTwo).mean
      = 7505999378950827 / 4503599627370496 := by
  have h := (calculateStatistics_nonempty (initialWindow true) oneTwoTwo
    (by rw [oneTwoTwo_in_range]; simp [oneTwoTwo])).1
  rw [oneTwoTwo_in_range] at h
  rw [h]
  have h1 : toDouble 1 = 1 := toDouble_exact 1 1 0 (by norm_num) (by norm_num) (by norm_num)
  have h3 : toDouble 3 = 3 := toDouble_exact 3 3 0 (by norm_num) (by norm_num) (by norm_num)
  have h5 : toDouble 5 = 5 := toDouble_exact 5 5 0 (by norm_num) (by norm_num) (by norm_num)
  norm_num [oneTwoTwo, doubleSum, doubleAdd, doubleDiv, h1, h3, h5, toDouble_five_thirds]

theorem statistics_oneToFour :
    (calculateStatistics (initialWindow true) oneToFour).mean = 5 / 2 ∧
    (calculateStatistics (initialWindow true) oneToFour).variance = 5 / 4 ∧
    (calculateStatistics (initialWindow true) oneToFour).stdDev
      = 5035177455121576 / 4503599627370496 := by
  obtain ⟨hm, hv, hs⟩ := calculateStatistics_nonempty (initialWindow true) oneToFour
    (by rw [oneToFour_in_range]; simp [oneToFour])
  rw [oneToFour_in_range] at hm hv
  have e1 : toDouble 1 = 1 := toDouble_exact 1 1 0 (by norm_num) (by norm_num) (by norm_num)
  have e3 : toDouble 3 = 3 := toDouble_exact 3 3 0 (by norm_num) (by norm_num) (by norm_num)
  have e6 : toDouble 6 = 6 := toDouble_exact 6 6 0 (by norm_num) (by norm_num) (by norm_num)
  have e10 : toDouble 10 = 10 :=
    toDouble_exact 10 10 0 (by norm_num) (by norm_num) (by norm_num)
  have e52 : toDouble (5 / 2) = 5 / 2 :=
    toDouble_exact _ 5 (-1) (by norm_num) (by norm_num) (by norm_num)
  have hmean : (calculateStatistics (initialWindow true) oneToFour).mean = 5 / 2 := by
    rw [hm]
    norm_num [oneToFour, doubleSum, doubleAdd, doubleDiv, e1, e3, e6, e10, e52]
  have n32 : toDouble (-(3 / 2)) = -(3 / 2) :=
    toDouble_exact _ (-3) (-1) (by norm_num) (by norm_num) (by norm_num)
  have n12 : toDouble (-(1 / 2)) = -(1 / 2) :=
    toDouble_exact _ (-1) (-1) (by norm_num) (by norm_num) (by norm_num)
  have p12 : toDouble (1 / 2) = 1 / 2 :=
    toDouble_exact _ 1 (-1) (by norm_num) (by norm_num) (by norm_num)
  have p32 : toDouble (3 / 2) = 3 / 2 :=
    toDouble_exact _ 3 (-1) (by norm_num) (by norm_num) (by norm_num)
  have p94 : toDouble (9 / 4) = 9 / 4 :=
    toDouble_exact _ 9 (-2) (by norm_num) (by norm_num) (by norm_num)
  have p14 : toDouble (1 / 4) = 1 / 4 :=
    toDouble_exact _ 1 (-2) (by norm_num) (by norm_num) (by norm_num)
  have p114 : toDouble (11 / 4) = 11 / 4 :=
    toDouble_exact _ 11 (-2) (by norm_num) (by norm_num) (by norm_num)
  have e5 : toDouble 5 = 5 := toDouble_exact 5 5 0 (by norm_num) (by norm_num) (by norm_num)
  have p54 : toDouble (5 / 4) = 5 / 4 :=
    toDouble_exact _ 5 (-2) (by norm_num) (by norm_num) (by norm_num)
  have hvar : (calculateStatistics (initialWindow true) oneToFour).variance = 5 / 4 := by
    rw [hv, hmean]
    norm_num [oneToFour, doubleSum, doubleAdd, doubleSub, doubleMul, doubleDiv, n32, n12, p12,
      p32, p94, p14, p114, e5, p54, e52]
  refine ⟨hmean, hvar, ?_⟩
  rw [hs, hvar]
  exact doubleSqrt_five_fourths

/-- C14, counterexample: for the intensities 1, 2, 2 the mean that
`calculateStatistics` returns is `7505999378950827 / 2 ^ 52`, not 5/3; and for
1, 2, 3, 4, where the variance is 5/4, the square of `stdDev` is not the variance. -/
theorem statistics_are_rounded :
    (calculateStatistics (initialWindow true) oneTwoTwo).mean
      = 7505999378950827 / 4503599627370496 ∧
    (7505999378950827 / 4503599627370496 : ℚ) ≠ (1 + 2 + 2) / 3 ∧
    (calculateStatistics (initialWindow true) oneToFour).variance = 5 / 4 ∧
    (calculateStatistics (initialWindow true) oneToFour).stdDev ^ 2 ≠
      (calculateStatistics (initialWindow true) oneToFour).variance := by
  obtain ⟨_, hv, hs⟩ := statistics_oneToFour
  refine ⟨statistics_oneTwoTwo_mean, by norm_num, hv, ?_⟩
  rw [hv, hs]
  norm_num

/-- C14, amended. Over the intensities of the points inside the inspection range,
`calculateStatistics` returns four zero fields when there are none. Otherwise, in
`double` arithmetic, the mean is the running sum divided by `n`, the variance is
the running sum of the squared deviations from that mean divided by `n`, and is
not negative; `stdDev` is not negative, is 0 for the variance 0, and is otherwise
the 53-bit value nearest to the square root of the variance. For integer
intensities of magnitude at most `2 ^ 41`, at most 2048 of them, the mean is the
binary64 value nearest to the exact mean. For the intensities 1, 2, 3, 4 the mean
is 5/2, the variance 5/4 and `stdDev` is `5035177455121576 / 2 ^ 52`. -/
theorem calculateStatistics_mean_and_variance (w : MainWindow) (points : List Point) :
    (filterPointsByRange w points = [] →
      (calculateStatistics w points).mean = 0 ∧
      (calculateStatistics w points).median = 0 ∧
      (calculateStatistics w points).variance = 0 ∧
      (calculateStatistics w points).stdDev = 0) ∧
    (filterPointsByRange w points ≠ [] →
      (calculateStatistics w points).mean =
        doubleDiv (doubleSum ((filterPointsByRange w points).map (fun p => p.y)))
          ((filterPointsByRange w points).length : ℚ) ∧
      (calculateStatistics w points).variance =
        doubleDiv (doubleSum (((filterPointsByRange w points).map (fun p => p.y)).map
          (fun x => doubleMul (doubleSub x (calculateStatistics w points).mean)
            (doubleSub x (calculateStatistics w points).mean))))
            ((filterPointsByRange w points).length : ℚ) ∧
      0 ≤ (calculateStatistics w points).variance ∧
      0 ≤ (calculateStatistics w points).stdDev ∧
      ((calculateStatistics w points).variance = 0 → (calculateStatistics w points).stdDev = 0) ∧
      (0 < (calculateStatistics w points).variance →
        ∃ (m : Nat) (e : Int),
          (calculateStatistics w points).stdDev = (m : ℚ) * (2 : ℚ) ^ e ∧
          2 ^ 52 ≤ m ∧ m ≤ 2 ^ 53 ∧
          ((m : ℚ) - 1 / 2) ^ 2 * (4 : ℚ) ^ e ≤ (calculateStatistics w points).variance ∧
          (calculateStatistics w points).variance ≤ ((m : ℚ) + 1 / 2) ^ 2 * (4 : ℚ) ^ e) ∧
      (∀ zs : List Int,
        (filterPointsByRange w points).map (fun p => p.y) = zs.map (fun z : Int => (z : ℚ)) →
        (∀ z ∈ zs, |z| ≤ 2 ^ 41) → (filterPointsByRange w points).length ≤ 2048 →
        (calculateStatistics w points).mean =
          toDouble (((zs.sum : Int) : ℚ) / ((filterPointsByRange w points).length : ℚ)))) ∧
    ((calculateStatistics (initialWindow true) oneToFour).mean = 5 / 2 ∧
      (calculateStatistics (initialWindow true) oneToFour).variance = 5 / 4 ∧
      (calculateStatistics (initialWindow true) oneToFour).stdDev
        = 5035177455121576 / 4503599627370496) := by
  refine ⟨?_, ?_, statistics_oneToFour⟩
  · intro h
    rw [calculateStatistics_empty w points h]
    exact ⟨rfl, rfl, rfl, rfl⟩
  · intro h
    obtain ⟨h1, h2, h3⟩ := calculateStatistics_nonempty w points h
    refine ⟨h1, h2, calculateStatistics_variance_nonneg w points, ?_, ?_, ?_, ?_⟩
    · rw [h3]; exact doubleSqrt_nonneg _
    · intro h0
      rw [h3, h0]
      simp [doubleSqrt]
    · intro hpos
      rw [h3]
      exact doubleSqrt_nearest _ hpos
    · intro zs hz hB hlen
      have hl : zs.length = (filterPointsByRange w points).length := by
        have := congrArg List.length hz
        simpa using this.symm
      have hsum := doubleSum_intCast zs (2 ^ 41) (by simpa using hB) (by
        rw [hl]
        calc (filterPointsByRange w points).length * 2 ^ 41 ≤ 2048 * 2 ^ 41 :=
              Nat.mul_le_mul_right _ hlen
          _ < 2 ^ 53 := by norm_num)
      rw [h1, hz, hsum]
      rfl

/-- C14, amended, at three points with the intensities 1, 2, 2. -/
theorem statistics_of_one_two_two :
    filterPointsByRange (initialWindow true) oneTwoTwo ≠ [] ∧
    (calculateStatistics (initialWindow true) oneTwoTwo).mean =
      doubleDiv (doubleSum ((filterPointsByRange (initialWindow true) oneTwoTwo).map
        (fun p => p.y))) ((filterPointsByRange (initialWindow true) oneTwoTwo).length : ℚ) ∧
    0 ≤ (calculateStatistics (initialWindow true) oneTwoTwo).variance ∧
    0 ≤ (calculateStatistics (initialWindow true) oneTwoTwo).stdDev := by
  have hne : filterPointsByRange (initialWindow true) oneTwoTwo ≠ [] := by
    rw [oneTwoTwo_in_range]; simp [oneTwoTwo]
  have h := (calculateStatistics_mean_and_variance (initialWindow true) oneTwoTwo).2.1 hne
  exact ⟨hne, h.1, h.2.2.1, h.2.2.2.1⟩

/-- The median as `calculateStatistics` computes it from the sorted values. -/
theorem calculateStatistics_median_eq (w : MainWindow) (points : List Point) :
    (calculateStatistics w points).median =
      (if (((filterPointsByRange w points).map (fun p => p.y)).insertionSort
            (fun a b => a ≤ b)).length % 2 = 0 then
        doubleDiv (doubleAdd
          ((((filterPointsByRange w points).map (fun p => p.y)).insertionSort
            (fun a b => a ≤ b)).getD
          ((((filterPointsByRange w points).map (fun p => p.y)).insertionSort
            (fun a b => a ≤ b)).length / 2 - 1) 0)
          ((((filterPointsByRange w points).map (fun p => p.y)).insertionSort
            (fun a b => a ≤ b)).getD
          ((((filterPointsByRange w points).map (fun p => p.y)).insertionSort
            (fun a b => a ≤ b)).length / 2) 0)) 2
      else
        (((filterPointsByRange w points).map (fun p => p.y)).insertionSort
            (fun a b => a ≤ b)).getD
          ((((filterPointsByRange w points).map (fun p => p.y)).insertionSort
            (fun a b => a ≤ b)).length / 2) 0) := by
  by_cases h : filterPointsByRange w points = []
  · rw [calculateStatistics_empty w points h, h]
    have h0 : toDouble 0 = 0 := toDouble_zero
    simp [doubleDiv, doubleAdd, h0]
  · have he : (filterPointsByRange w points).isEmpty = false := by
      cases hf : filterPointsByRange w points with
      | nil => exact absurd hf h
      | cons a t => rfl
    unfold filterPointsByRange at he
    unfold calculateStatistics filterPointsByRange
    simp only [he, Bool.false_eq_true, if_false]

theorem sorted_values_unique (s values : List ℚ) (hs : s.Sorted (fun a b => a ≤ b))
    (hp : s.Perm values) : values.insertionSort (fun a b => a ≤ b) = s :=
  List.eq_of_perm_of_sorted ((List.perm_insertionSort _ values).trans hp.symm)
    (List.sorted_insertionSort _ values) hs

/-- The mean of two integers of magnitude at most `2 ^ 51` is exact in `double`. -/
theorem doubleDiv_doubleAdd_two (za zb : Int) (ha : |za| ≤ 2 ^ 51) (hb : |zb| ≤ 2 ^ 51) :
    doubleDiv (doubleAdd (za : ℚ) (zb : ℚ)) 2 = ((za : ℚ) + (zb : ℚ)) / 2 := by
  have hab : |za + zb| < 2 ^ 53 := by
    have := abs_add za zb
    omega
  have h1 : doubleAdd (za : ℚ) (zb : ℚ) = ((za + zb : Int) : ℚ) := by
    unfold doubleAdd
    have := toDouble_intCast (za + zb) hab
    push_cast at this ⊢
    exact this
  rw [h1]
  unfold doubleDiv
  have h2 := toDouble_exact (((za + zb : Int) : ℚ) / 2) (za + zb) (-1) (by
    rw [zpow_neg, zpow_one]; ring) hab (by norm_num)
  rw [h2]
  push_cast
  ring

/-- C15, amended. For a non-empty in-range point sequence whose intensities, sorted
ascending, are the list `s` of length `n`, `calculateStatistics` returns the median
`s[(n - 1) / 2]` for odd `n`; for even `n` it returns the `double` sum of
`s[n / 2 - 1]` and `s[n / 2]` divided by 2 in `double` arithmetic, which is
`(s[n / 2 - 1] + s[n / 2]) / 2` when the two are integers of magnitude at most
`2 ^ 51`; and it returns the same median for every reordering of the points. -/
theorem calculateStatistics_median_of_sorted (w : MainWindow)
    (points : List Point) (s : List ℚ)
    (hne : filterPointsByRange w points ≠ [])
    (hs : s.Sorted (fun a b => a ≤ b))
    (hp : s.Perm ((filterPointsByRange w points).map (fun p => p.y))) :
    s.length = (filterPointsByRange w points).length ∧ 0 < s.length ∧
    (s.length % 2 = 1 →
      (calculateStatistics w points).median = s.getD ((s.length - 1) / 2) 0) ∧
    (s.length % 2 = 0 →
      (calculateStatistics w points).median =
        toDouble (toDouble (s.getD (s.length / 2 - 1) 0 + s.getD (s.length / 2) 0) / 2) ∧
      (∀ za zb : Int, s.getD (s.length / 2 - 1) 0 = (za : ℚ) → s.getD (s.length / 2) 0 = (zb : ℚ) →
        |za| ≤ 2 ^ 51 → |zb| ≤ 2 ^ 51 →
        (calculateStatistics w points).median = ((za : ℚ) + (zb : ℚ)) / 2)) ∧
    (∀ reordered : List Point, reordered.Perm points →
      (calculateStatistics w reordered).median =
        (calculateStatistics w points).median) := by
  have hlen : s.length = (filterPointsByRange w points).length := by
    rw [hp.length_eq, List.length_map]
  have hpos : 0 < s.length := by
    rw [hlen]
    exact List.length_pos.mpr hne
  have hm := calculateStatistics_median_eq w points
  rw [sorted_values_unique s _ hs hp] at hm
  refine ⟨hlen, hpos, ?_, ?_, ?_⟩
  · intro hodd
    rw [hm, if_neg (by omega), show (s.length - 1) / 2 = s.length / 2 by omega]
  · intro heven
    rw [hm, if_pos heven]
    refine ⟨rfl, ?_⟩
    intro za zb hza hzb ha hb
    rw [hza, hzb]
    exact doubleDiv_doubleAdd_two za zb ha hb
  · intro reordered hperm
    have hp2 : s.Perm ((filterPointsByRange w reordered).map (fun p => p.y)) := by
      refine hp.trans ?_
      unfold filterPointsByRange
      exact ((hperm.filter _).map _).symm
    have hm2 := calculateStatistics_median_eq w reordered
    rw [sorted_values_unique s _ hs hp2] at hm2
    rw [hm, hm2]

theorem thirds_in_range :
    filterPointsByRange (initialWindow true) thirds = thirds := by
  norm_num [filterPointsByRange, initialWindow, thirds]

theorem toDouble_sum_of_thirds :
    toDouble (6004799503160661 / 18014398509481984 + 6004799503160661 / 9007199254740992) = 1 := by
  have hr : roundHalfEven ((6004799503160661 / 18014398509481984
      + 6004799503160661 / 9007199254740992) / (2 : ℚ) ^ (-53 : Int)) = 9007199254740992 := by
    rw [roundHalfEven_tie _ 9007199254740991 (by norm_num)]
    decide
  rw [toDouble_eq _ (-53) 9007199254740992 (by norm_num [abs_of_pos])
    (by norm_num [abs_of_pos]) (by norm_num) hr]
  norm_num

/-- C15, counterexample: for the two intensities nearest to 1/3 and 2/3 the median
that `calculateStatistics` returns is 1/2, not half their sum. -/
theorem median_of_thirds_is_rounded :
    (calculateStatistics (initialWindow true) thirds).median = 1 / 2 ∧
    (1 / 2 : ℚ) ≠
      (6004799503160661 / 18014398509481984 + 6004799503160661 / 9007199254740992) / 2 := by
  refine ⟨?_, by norm_num⟩
  rw [calculateStatistics_median_eq, thirds_in_range]
  have e : List.insertionSort (fun a b : ℚ => a ≤ b)
      [6004799503160661 / 18014398509481984, 6004799503160661 / 9007199254740992]
      = [6004799503160661 / 18014398509481984, 6004799503160661 / 9007199254740992] := by
    norm_num [List.insertionSort, List.orderedInsert]
  have hmap : thirds.map (fun p => p.y)
      = [6004799503160661 / 18014398509481984, 6004799503160661 / 9007199254740992] := rfl
  rw [hmap, e]
  have h12 : toDouble (1 / 2) = 1 / 2 :=
    toDouble_exact _ 1 (-1) (by norm_num) (by norm_num) (by norm_num)
  have hs : toDouble (18014398509481983 / 18014398509481984) = 1 := by
    have := toDouble_sum_of_thirds
    norm_num at this
    exact this
  simp only [List.length_cons, List.length_nil]
  norm_num [doubleDiv, doubleAdd, hs, h12]

theorem shuffledPoints_in_range :
    filterPointsByRange (initialWindow true) shuffledPoints = shuffledPoints := by
  norm_num [filterPointsByRange, initialWindow, shuffledPoints]

theorem shuffled_sorted : ([1, 2, 3, 4] : List ℚ).Sorted (fun a b => a ≤ b) := by
  norm_num [List.Sorted]

theorem shuffled_perm :
    ([1, 2, 3, 4] : List ℚ).Perm
      ((filterPointsByRange (initialWindow true) shuffledPoints).map (fun p => p.y)) := by
  rw [shuffledPoints_in_range]
  have e : List.insertionSort (fun a b : ℚ => a ≤ b) [3, 1, 4, 2] = [1, 2, 3, 4] := by
    norm_num [List.insertionSort, List.orderedInsert]
  have h := List.perm_insertionSort (fun a b : ℚ => a ≤ b) [3, 1, 4, 2]
  rw [e] at h
  exact h

/-- C15, amended, at four points with the intensities 3, 1, 4, 2: the median is 5/2. -/
theorem median_of_shuffled_points :
    filterPointsByRange (initialWindow true) shuffledPoints ≠ [] ∧
    ([1, 2, 3, 4] : List ℚ).Sorted (fun a b => a ≤ b) ∧
    ([1, 2, 3, 4] : List ℚ).Perm
      ((filterPointsByRange (initialWindow true) shuffledPoints).map (fun p => p.y)) ∧
    (calculateStatistics (initialWindow true) shuffledPoints).median = 5 / 2 := by
  have hne : filterPointsByRange (initialWindow true) shuffledPoints ≠ [] := by
    rw [shuffledPoints_in_range]; simp [shuffledPoints]
  have h := calculateStatistics_median_of_sorted (initialWindow true) shuffledPoints
    [1, 2, 3, 4] hne shuffled_sorted shuffled_perm
  refine ⟨hne, shuffled_sorted, shuffled_perm, ?_⟩
  rw [(h.2.2.2.1 rfl).2 2 3 (by norm_num) (by norm_num) (by norm_num) (by norm_num)]
  norm_num

end Laserspectravue
